import Mathlib

/-!
Verification of picha, the image resampler of `src/resize.cc`.

A shallow embedding of the resampling engine (`makeContribs`,
`resizeImagePixel`, the filter kernels, `getResizeOptions` and the two
entry points) together with theorems about it.

Conventions of the embedding:
* `float` values are exact rationals (`ℚ`): every statement below is a
  statement in exact arithmetic, rounding error is not modelled.
* `int` values are `Int`; container sizes and offsets are `Nat`.
* `assert(e)` is modelled as failure (`none`) when `e` is false.
* `while` loops run on a fuel argument that is computed from the loop
  bounds at the call site; the lemmas show the fuel is never exhausted.
-/

namespace Picha

/-! ## Filter kernels -/

/-- A filter functor: `support()` and `operator()`. -/
structure Filter where
  support : ℚ
  eval : ℚ → ℚ

/-- `struct TriangleFilter`. -/
def TriangleFilter : Filter where
  support := 1
  eval := fun o => 1 - |o|

/-- `struct BoxFilter`. -/
def BoxFilter : Filter where
  support := 1 / 2
  eval := fun _ => 1

/-- `template <typename Base> struct MitchelFamilyFilter`, with `Base::B()`
and `Base::C()` passed as `B` and `C`. -/
def MitchelFamilyFilter (B C : ℚ) : Filter where
  support := 2
  eval := fun o =>
    let x := |o|
    if x < 1 then
      let A_3 := (12 - 9 * B - 6 * C) / 6
      let A_2 := (-18 + 12 * B + 6 * C) / 6
      let A_0 := (6 - 2 * B) / 6
      A_0 + (x * x * (A_2 + x * A_3))
    else
      let B_3 := (-B - 6 * C) / 6
      let B_2 := (6 * B + 30 * C) / 6
      let B_1 := (-12 * B - 48 * C) / 6
      let B_0 := (8 * B + 24 * C) / 6
      B_0 + (x * (B_1 + x * (B_2 + x * B_3)))

/-- `typedef MitchelFamilyFilter<CatmulRomParams> CatmulRomFilter`. -/
def CatmulRomFilter : Filter := MitchelFamilyFilter 0 (1 / 2)

/-- `typedef MitchelFamilyFilter<MitchelParams> MitchelFilter`. -/
def MitchelFilter : Filter := MitchelFamilyFilter (333 / 1000) (333 / 1000)

/-- `struct CubicFilter`. -/
def CubicFilter : Filter where
  support := 2
  eval := fun o =>
    let o := |o|
    1 - o * o * (3 / 4 - 1 / 4 * o)

/-- `template <typename F> struct ScaledFilter`. -/
def ScaledFilter (F : Filter) (scale : ℚ) : Filter where
  support := scale * F.support
  eval := fun f => F.eval (f / scale) / scale

/-! ## Contribution precomputation -/

/-- `struct ContribRange`. -/
structure ContribRange where
  left : Int
  right : Int
  weights : Nat
  deriving DecidableEq, Repr

/-- Conversion of a `float` to `int`: truncation toward zero. -/
def truncToInt (x : ℚ) : Int := if 0 ≤ x then ⌊x⌋ else ⌈x⌉

/-- The loop `while (left < right && filter((center - left) * iscale) == 0) left += 1;`. -/
def trimLeft (filter : Filter) (center iscale : ℚ) (right : Int) : Nat → Int → Int
  | 0, left => left
  | fuel + 1, left =>
    if left < right ∧ filter.eval ((center - (left : ℚ)) * iscale) = 0 then
      trimLeft filter center iscale right fuel (left + 1)
    else left

/-- The loop `while (right > left && filter((center - right) * iscale) == 0) right -= 1;`. -/
def trimRight (filter : Filter) (center iscale : ℚ) (left : Int) : Nat → Int → Int
  | 0, right => right
  | fuel + 1, right =>
    if right > left ∧ filter.eval ((center - (right : ℚ)) * iscale) = 0 then
      trimRight filter center iscale left fuel (right - 1)
    else right

/-- The bounds `left`, `right` of `makeContribs` before the trimming loops. -/
def initLeft (fsupport center : ℚ) : Int :=
  truncToInt (max (0 : ℚ) ((⌈center - fsupport⌉ : Int) : ℚ))

/-- The bound `right` of `makeContribs` before the trimming loops. -/
def initRight (fsupport center : ℚ) (size : Int) : Int :=
  truncToInt (min (((size - 1 : Int)) : ℚ) ((⌊center + fsupport⌋ : Int) : ℚ))

/-- The bound `left` after the first trimming loop. -/
def finalLeft (filter : Filter) (fsupport iscale center : ℚ) (size : Int) : Int :=
  trimLeft filter center iscale (initRight fsupport center size)
    (initRight fsupport center size - initLeft fsupport center).toNat
    (initLeft fsupport center)

/-- The bound `right` after the second trimming loop. -/
def finalRight (filter : Filter) (fsupport iscale center : ℚ) (size : Int) : Int :=
  trimRight filter center iscale (finalLeft filter fsupport iscale center size)
    (initRight fsupport center size - finalLeft filter fsupport iscale center size).toNat
    (initRight fsupport center size)

/-- The weights pushed by `for (int j = left; j <= right; ++j)`, before
normalisation: `filter((center - float(j)) * iscale)` for `j = left .. right`. -/
def rawWeights (filter : Filter) (center iscale : ℚ) (left right : Int) : List ℚ :=
  (List.range (right + 1 - left).toNat).map
    fun (k : Nat) => filter.eval ((center - (((left + (k : Int)) : Int) : ℚ)) * iscale)

/-- The body of the `for` loop of `makeContribs` over the entries of
`ranges`, `center` being advanced by `scale` after each entry. -/
def makeContribsLoop (filter : Filter) (scale fsupport iscale : ℚ) (size : Int) :
    List ContribRange → ℚ → List ℚ → Option (List ContribRange × List ℚ)
  | [], _, storage => some ([], storage)
  | _ :: rest, center, storage =>
    let left := finalLeft filter fsupport iscale center size
    let right := finalRight filter fsupport iscale center size
    let ws := rawWeights filter center iscale left right
    let totalweight := ws.sum
    if 0 < totalweight then
      let normalize := 1 / totalweight
      match makeContribsLoop filter scale fsupport iscale size rest (center + scale)
          (storage ++ ws.map (fun w => w * normalize)) with
      | some (rs, st) => some (⟨left, right, storage.length⟩ :: rs, st)
      | none => none
    else none

/-- `fscale` of `makeContribs`. -/
def fscaleOf (filter : Filter) (scale : ℚ) : ℚ :=
  max (max scale 1) (1 / filter.support)

/-- `template <typename Filter> void makeContribs(ranges, filter, scale, storage, size)`:
returns the filled `ranges` and the extended `storage`, or `none` when
`assert(totalweight > 0)` fails. -/
def makeContribs (ranges : List ContribRange) (filter : Filter) (scale : ℚ)
    (storage : List ℚ) (size : Int) : Option (List ContribRange × List ℚ) :=
  let fscale := fscaleOf filter scale
  let fsupport := filter.support * fscale
  let iscale := 1 / fscale
  makeContribsLoop filter scale fsupport iscale size ranges ((1 / 2 : ℚ) * scale) storage

/-! ## Images and the separable resampler -/

/-- Modelled from the spec: the pixel formats of `resize.h` (the enum
`PixelMode`, not part of `resize.cc`): RGBA, RGB, Grey and Grey+Alpha. -/
inductive PixelMode where
  | RGBA_PIXEL
  | RGB_PIXEL
  | GREY_PIXEL
  | GREYA_PIXEL
  deriving DecidableEq, Repr

/-- Modelled from the spec: `PixelWidth<Pixel>::value` of `resize.h`, the
channel count of a format (Grey=1, Grey+Alpha=2, RGB=3, RGBA=4). -/
def PixelWidth : PixelMode → Nat
  | .RGBA_PIXEL => 4
  | .RGB_PIXEL => 3
  | .GREY_PIXEL => 1
  | .GREYA_PIXEL => 2

/-- Modelled from the spec: `struct NativeImage` of `resize.h`: format,
width, height, row stride and a contiguous sample buffer; `row(y)` starts at
offset `y * stride`. Samples are kept as `Int` so that the range `[0,255]`
of a written sample is a theorem and not a typing fact. -/
structure NativeImage where
  pixel : PixelMode
  width : Nat
  height : Nat
  stride : Nat
  data : List Int
  deriving DecidableEq, Repr

/-- The sample `img.row(y)[i]`. -/
def NativeImage.rowAt (img : NativeImage) (y i : Nat) : Int :=
  img.data.getD (y * img.stride + i) 0

/-- `struct FloatBuffer`. -/
structure FloatBuffer where
  width : Nat
  height : Nat
  stride : Nat
  data : List ℚ
  deriving DecidableEq, Repr

/-- The constructor `FloatBuffer(int w, int h, int d)`: `data.resize`
value-initialises the floats to `0`. -/
def FloatBuffer.new (w h d : Nat) : FloatBuffer where
  width := w
  height := h
  stride := w * d
  data := List.replicate (w * d * h) 0

/-- `inline PixelType clampPixel(float v)`. -/
def clampPixel (v : ℚ) : Int :=
  if v < 0 then 0 else if v > 255 then 255 else truncToInt v

/-- The quantisation at the end of pass 2:
`pixel[p] < 0.0f ? 0 : pixel[p] > 255.0f ? 255 : PixelType(pixel[p] + 0.5f)`. -/
def quantise (v : ℚ) : Int :=
  if v < 0 then 0 else if v > 255 then 255 else truncToInt (v + 1 / 2)

/-- `memset(tmprow, 0, sizeof(float) * n)` on the floats starting at `base`. -/
def zeroFill (base n : Nat) (buf : List ℚ) : List ℚ :=
  (List.range n).foldl (fun b (k : Nat) => b.set (base + k) 0) buf

/-- The innermost loop `for (int p = 0; p < pixelWidth; ++p) acc[p] += wt * srcpixel[p];`
on the floats starting at `base`. -/
def accumPixel (pixelWidth : Nat) (wt : ℚ) (srcpixel : Nat → ℚ) (base : Nat)
    (buf : List ℚ) : List ℚ :=
  (List.range pixelWidth).foldl
    (fun b (p : Nat) => b.set (base + p) (b.getD (base + p) 0 + wt * srcpixel p)) buf

/-- The tap loop `for (int c = r.left, w = r.weights; c <= r.right; ++c, ++w)`
around `accumPixel`; `srcpixel c` is the pixel read for tap `c`. -/
def accumTaps (pixelWidth : Nat) (contribs : List ℚ) (r : ContribRange)
    (srcpixel : Int → Nat → ℚ) (base : Nat) (buf : List ℚ) : List ℚ :=
  (List.range (r.right + 1 - r.left).toNat).foldl
    (fun b (k : Nat) => accumPixel pixelWidth (contribs.getD (r.weights + k) 0)
      (srcpixel (r.left + (k : Int))) base b) buf

/-- Pass 1 for one source row: the body of `while (srcrow <= needrow)`
without the increment; the resampled row goes to slot
`srcrow % maxycontrib` of `tmp`. -/
def resizeSrcRow (pixelWidth : Nat) (src : NativeImage) (contribs : List ℚ)
    (rowcontribs : List ContribRange) (maxycontrib : Int) (srcrow : Int)
    (tmp : FloatBuffer) : FloatBuffer :=
  let rowbase := (Int.tmod srcrow maxycontrib).toNat * tmp.stride
  let cleared := zeroFill rowbase (pixelWidth * tmp.width) tmp.data
  { tmp with
    data := (List.range tmp.width).foldl
      (fun b (x : Nat) =>
        accumTaps pixelWidth contribs (rowcontribs.getD x ⟨0, 0, 0⟩)
          (fun c p => ((src.rowAt srcrow.toNat (c.toNat * pixelWidth + p) : Int) : ℚ))
          (rowbase + x * pixelWidth) b)
      cleared }

/-- The loop `while (srcrow <= needrow) { ...; ++srcrow; }`. -/
def resizeSrcRows (pixelWidth : Nat) (src : NativeImage) (contribs : List ℚ)
    (rowcontribs : List ContribRange) (maxycontrib needrow : Int) :
    Nat → Int → FloatBuffer → Int × FloatBuffer
  | 0, srcrow, tmp => (srcrow, tmp)
  | fuel + 1, srcrow, tmp =>
    if srcrow ≤ needrow then
      resizeSrcRows pixelWidth src contribs rowcontribs maxycontrib needrow fuel (srcrow + 1)
        (resizeSrcRow pixelWidth src contribs rowcontribs maxycontrib srcrow tmp)
    else (srcrow, tmp)

/-- The local `float pixel[pixelWidth]` of pass 2 after its tap loop, for
destination column `x` and the column entry `r` of the destination row. -/
def columnPixel (pixelWidth : Nat) (contribs : List ℚ) (r : ContribRange)
    (maxycontrib : Int) (tmp : FloatBuffer) (x : Nat) : List ℚ :=
  accumTaps pixelWidth contribs r
    (fun c p => tmp.data.getD ((Int.tmod c maxycontrib).toNat * tmp.stride + x * pixelWidth + p) 0)
    0 (List.replicate pixelWidth 0)

/-- Pass 2 for destination row `y`: the loop over `x` that writes `dstrow`. -/
def writeDstRow (pixelWidth : Nat) (contribs : List ℚ) (r : ContribRange)
    (maxycontrib : Int) (tmp : FloatBuffer) (dstwidth dststride y : Nat)
    (dstdata : List Int) : List Int :=
  (List.range dstwidth).foldl
    (fun d (x : Nat) =>
      let pixel := columnPixel pixelWidth contribs r maxycontrib tmp x
      (List.range pixelWidth).foldl
        (fun d (p : Nat) => d.set (y * dststride + x * pixelWidth + p) (quantise (pixel.getD p 0))) d)
    dstdata

/-- The loop `for (int y = 0; y < dst.height; ++y, centery += yscale)` of
`resizeImagePixel`; the first argument counts the rows still to do. -/
def destRows (pixelWidth : Nat) (src : NativeImage) (contribs : List ℚ)
    (rowcontribs columncontribs : List ContribRange) (maxycontrib : Int)
    (yscale yfsupport : ℚ) (dstwidth dststride : Nat) :
    Nat → Nat → ℚ → Int → FloatBuffer → List Int → List Int
  | 0, _, _, _, _, dstdata => dstdata
  | n + 1, y, centery, srcrow, tmp, dstdata =>
    let needrow := min ((src.height : Int) - 1) (truncToInt (centery + yfsupport))
    let st := resizeSrcRows pixelWidth src contribs rowcontribs maxycontrib needrow
      (needrow + 1 - srcrow).toNat srcrow tmp
    destRows pixelWidth src contribs rowcontribs columncontribs maxycontrib yscale yfsupport
      dstwidth dststride n (y + 1) (centery + yscale) st.1 st.2
      (writeDstRow pixelWidth contribs (columncontribs.getD y ⟨0, 0, 0⟩) maxycontrib st.2
        dstwidth dststride y dstdata)

/-- `template <PixelMode Pixel, typename Filter> void resizeImagePixel(src, dst, filter)`:
the destination image after the call, or `none` when an assertion fails. -/
def resizeImagePixel (Pixel : PixelMode) (src dst : NativeImage) (filter : Filter) :
    Option NativeImage :=
  if src.pixel = Pixel ∧ dst.pixel = Pixel then
    let xscale : ℚ := (src.width : ℚ) / (dst.width : ℚ)
    let yscale : ℚ := (src.height : ℚ) / (dst.height : ℚ)
    let yfscale := max (max yscale 1) (1 / filter.support)
    let yfsupport := filter.support * yfscale
    let maxycontrib := truncToInt ((⌈2 * yfsupport⌉ : Int) : ℚ)
    let pixelWidth := PixelWidth Pixel
    let tmp := FloatBuffer.new dst.width maxycontrib.toNat pixelWidth
    match makeContribs (List.replicate dst.width ⟨0, 0, 0⟩) filter xscale [] src.width with
    | none => none
    | some (rowcontribs, contribs₁) =>
      match makeContribs (List.replicate dst.height ⟨0, 0, 0⟩) filter yscale contribs₁
          src.height with
      | none => none
      | some (columncontribs, contribs) =>
        let centery := (1 / 2 : ℚ) * yscale
        let srcrow := truncToInt (max (0 : ℚ) ((⌈centery - yfsupport⌉ : Int) : ℚ))
        some { dst with
          data := destRows pixelWidth src contribs rowcontribs columncontribs maxycontrib
            yscale yfsupport dst.width dst.stride dst.height 0 centery srcrow tmp dst.data }
  else none

/-- `template <typename Filter> void resizeImage(src, dst, filter)`: the
dispatch on the pixel format. -/
def resizeImage (src dst : NativeImage) (filter : Filter) : Option NativeImage :=
  if src.pixel = dst.pixel then
    match src.pixel with
    | .RGBA_PIXEL => resizeImagePixel .RGBA_PIXEL src dst filter
    | .RGB_PIXEL => resizeImagePixel .RGB_PIXEL src dst filter
    | .GREY_PIXEL => resizeImagePixel .GREY_PIXEL src dst filter
    | .GREYA_PIXEL => resizeImagePixel .GREYA_PIXEL src dst filter
  else none

/-- A `w × h` image of format `px` with tightly packed rows whose sample
`(y, x, p)` is `f y x p`. -/
def mkImage (px : PixelMode) (w h : Nat) (f : Nat → Nat → Nat → Int) : NativeImage where
  pixel := px
  width := w
  height := h
  stride := w * PixelWidth px
  data := (List.range (h * (w * PixelWidth px))).map fun (i : Nat) =>
    f (i / (w * PixelWidth px)) (i % (w * PixelWidth px) / PixelWidth px) (i % PixelWidth px)

/-! ## Closed forms of the running variables of `makeContribs` -/

/-- The value of the running variable `center` when entry `i` is computed:
`0.5 * scale` advanced `i` times by `scale`. -/
def centerAt (scale : ℚ) (i : Nat) : ℚ := (1 / 2 : ℚ) * scale + (i : ℚ) * scale

/-- `fsupport` of `makeContribs`. -/
def fsupportOf (filter : Filter) (scale : ℚ) : ℚ := filter.support * fscaleOf filter scale

/-- `iscale` of `makeContribs`. -/
def iscaleOf (filter : Filter) (scale : ℚ) : ℚ := 1 / fscaleOf filter scale

/-- The untrimmed `left` of entry `i`. -/
def entryInitLeft (filter : Filter) (scale : ℚ) (i : Nat) : Int :=
  initLeft (fsupportOf filter scale) (centerAt scale i)

/-- The untrimmed `right` of entry `i`. -/
def entryInitRight (filter : Filter) (scale : ℚ) (size : Int) (i : Nat) : Int :=
  initRight (fsupportOf filter scale) (centerAt scale i) size

/-- The `left` stored in entry `i`. -/
def entryLeft (filter : Filter) (scale : ℚ) (size : Int) (i : Nat) : Int :=
  finalLeft filter (fsupportOf filter scale) (iscaleOf filter scale) (centerAt scale i) size

/-- The `right` stored in entry `i`. -/
def entryRight (filter : Filter) (scale : ℚ) (size : Int) (i : Nat) : Int :=
  finalRight filter (fsupportOf filter scale) (iscaleOf filter scale) (centerAt scale i) size

/-- The weights of entry `i` before normalisation. -/
def entryRaw (filter : Filter) (scale : ℚ) (size : Int) (i : Nat) : List ℚ :=
  rawWeights filter (centerAt scale i) (iscaleOf filter scale)
    (entryLeft filter scale size i) (entryRight filter scale size i)

/-- The `totalweight` of entry `i`. -/
def entryTotal (filter : Filter) (scale : ℚ) (size : Int) (i : Nat) : ℚ :=
  (entryRaw filter scale size i).sum

/-- The `right - left + 1` weights of entry `r` in the flat store. -/
def storedWeights (storage : List ℚ) (r : ContribRange) : List ℚ :=
  (storage.drop r.weights).take (r.right + 1 - r.left).toNat

/-- The raw weights of the entry computed at a given `center`. -/
def rangeRaw (filter : Filter) (fsupport iscale : ℚ) (size : Int) (center : ℚ) : List ℚ :=
  rawWeights filter center iscale (finalLeft filter fsupport iscale center size)
    (finalRight filter fsupport iscale center size)

/-- The normalised weights of the entry computed at a given `center`. -/
def rangeNorm (filter : Filter) (fsupport iscale : ℚ) (size : Int) (center : ℚ) : List ℚ :=
  (rangeRaw filter fsupport iscale size center).map
    fun w => w * (1 / (rangeRaw filter fsupport iscale size center).sum)

/-- The normalised weights of entry `i`. -/
def entryNorm (filter : Filter) (scale : ℚ) (size : Int) (i : Nat) : List ℚ :=
  (entryRaw filter scale size i).map fun w => w * (1 / entryTotal filter scale size i)

/-- The sum accumulated by the tap loop of entry `r` for channel offset `q`. -/
def tapSum (contribs : List ℚ) (r : ContribRange) (srcpixel : Int → Nat → ℚ) (q : Nat) : ℚ :=
  ((List.range (r.right + 1 - r.left).toNat).map fun (k : Nat) =>
    contribs.getD (r.weights + k) 0 * srcpixel (r.left + (k : Int)) q).sum

/-- The pixel read by pass 1 for tap `c` of source row `srcrow`. -/
def srcPixel (pw : Nat) (src : NativeImage) (srcrow : Int) (c : Int) (p : Nat) : ℚ :=
  ((src.rowAt srcrow.toNat (c.toNat * pw + p) : Int) : ℚ)

/-- The pixel read by pass 2 for tap `c` at destination column `x`. -/
def tmpPixel (pw : Nat) (m : Int) (tmp : FloatBuffer) (x : Nat) (c : Int) (p : Nat) : ℚ :=
  tmp.data.getD ((Int.tmod c m).toNat * tmp.stride + x * pw + p) 0

/-- Every entry of `table` has its `right - left + 1` weights in the store
`contribs`, and they sum to `1`. -/
def NormalisedTable (contribs : List ℚ) (table : List ContribRange) (n : Nat) : Prop :=
  ∀ i : Nat, i < n →
    (storedWeights contribs (table.getD i ⟨0, 0, 0⟩)).length
      = ((table.getD i ⟨0, 0, 0⟩).right + 1 - (table.getD i ⟨0, 0, 0⟩).left).toNat ∧
    (storedWeights contribs (table.getD i ⟨0, 0, 0⟩)).sum = 1

/-- The rolling buffer has the dimensions given by `resizeImagePixel`. -/
def BufShape (dw pw : Nat) (m : Int) (tmp : FloatBuffer) : Prop :=
  tmp.width = dw ∧ tmp.stride = dw * pw ∧ tmp.data.length = dw * pw * m.toNat

/-- The slots of the source rows `lo ≤ r < hi` hold the constant pixel `v`. -/
def RowsHold (dw pw : Nat) (m : Int) (v : Nat → Int) (lo hi : Int) (tmp : FloatBuffer) : Prop :=
  ∀ r : Int, lo ≤ r → r < hi → ∀ x p : Nat, x < dw → p < pw →
    tmp.data.getD ((Int.tmod r m).toNat * tmp.stride + x * pw + p) 0 = ((v p : Int) : ℚ)

/-- Every pixel of `src` is `v`. -/
def ConstImage (pw : Nat) (src : NativeImage) (v : Nat → Int) : Prop :=
  ∀ y : Nat, y < src.height → ∀ x : Nat, x < src.width → ∀ p : Nat, p < pw →
    src.rowAt y (x * pw + p) = v p

/-- The `10 × 10` single-channel image whose rows alternate between all-`0`
and all-`255`, row `0` being all-`first`. -/
def stripes (first : Int) : NativeImage :=
  mkImage .GREY_PIXEL 10 10 fun y _ _ => if y % 2 = 0 then first else 255 - first

/-! ## Options and entry points -/

/-- `enum ResizeFilterTag`. -/
inductive ResizeFilterTag where
  | CubicFilterTag
  | LanczosFilterTag
  | CatmulRomFilterTag
  | MitchelFilterTag
  | BoxFilterTag
  | TriangleFilterTag
  | InvalidFilterTag
  deriving DecidableEq, Repr

/-- The conversion `static_cast<ResizeFilterTag>(i)`. -/
def ResizeFilterTag.ofIndex : Nat → ResizeFilterTag
  | 0 => .CubicFilterTag
  | 1 => .LanczosFilterTag
  | 2 => .CatmulRomFilterTag
  | 3 => .MitchelFilterTag
  | 4 => .BoxFilterTag
  | 5 => .TriangleFilterTag
  | _ => .InvalidFilterTag

/-- The loop of `symbolToResizeFilter` from index `i` on, `fuel` being
`InvalidFilterTag - i`; `symbols i` is `*resizeFilterSymbols[i]` and equality
is `StrictEquals`. -/
def symbolLoop {α : Type} [DecidableEq α] (symbols : Nat → α) (s : α) :
    Nat → Nat → ResizeFilterTag
  | 0, _ => .InvalidFilterTag
  | fuel + 1, i =>
    if s = symbols i then ResizeFilterTag.ofIndex i
    else symbolLoop symbols s fuel (i + 1)

/-- `ResizeFilterTag symbolToResizeFilter(Handle<Value> s)`. -/
def symbolToResizeFilter {α : Type} [DecidableEq α] (symbols : Nat → α) (s : α) :
    ResizeFilterTag :=
  symbolLoop symbols s 6 0

/-- Modelled from the spec: the six filter names behind `resizeFilterSymbols`
(`cubic_symbol`, ... are declared outside `resize.cc`), in the order of the
table. -/
def filterNames : Nat → String
  | 0 => "cubic"
  | 1 => "lanczos"
  | 2 => "catmull-rom"
  | 3 => "mitchell"
  | 4 => "box"
  | _ => "triangle"

/-- The result of `NumberValue()`: a JavaScript number is NaN or a value. -/
inductive JsNumber where
  | nan
  | num (q : ℚ)
  deriving DecidableEq

/-- `struct ResizeOptions`. -/
structure ResizeOptions where
  filter : ResizeFilterTag
  width : ℚ
  deriving DecidableEq

/-- The constructor `ResizeOptions() : filter(CubicFilterTag), width(0.70f)`. -/
def ResizeOptions.new : ResizeOptions := ⟨.CubicFilterTag, 7 / 10⟩

/-- The outcome of a call that either throws a JavaScript error (and returns
`false`) or returns normally. -/
inductive Outcome (β : Type) where
  | threw (msg : String)
  | returned (value : β)
  deriving DecidableEq

/-- `bool getResizeOptions(ResizeOptions& s, Handle<Object> opts)`:
`filterOpt` is `opts->Get(filter_symbol)` and `widthOpt` the `NumberValue()` of
`opts->Get(filterScale_symbol)`, `none` standing for `undefined`. The result is
the updated `s` when the function returns `true`, and the message of the error
it throws when it returns `false`. -/
def getResizeOptions {α : Type} [DecidableEq α] (symbols : Nat → α) (s : ResizeOptions)
    (filterOpt : Option α) (widthOpt : Option JsNumber) : Outcome ResizeOptions :=
  let afterFilter : Outcome ResizeOptions :=
    match filterOpt with
    | none => .returned s
    | some v =>
      let s₁ : ResizeOptions := { s with width := 1 }
      let s₂ : ResizeOptions := { s₁ with filter := symbolToResizeFilter symbols v }
      if s₂.filter = .InvalidFilterTag then .threw "invalid filter mode" else .returned s₂
  match afterFilter with
  | .threw e => .threw e
  | .returned s₂ =>
    match widthOpt with
    | none => .returned s₂
    | some .nan => .threw "invalid filter width"
    | some (.num w) => if w ≤ 0 then .threw "invalid filter width" else .returned { s₂ with width := w }

/-- What an entry point does, in order. -/
inductive Effect where
  | throwError (msg : String)
  | newJsImage (width height : Int)
  | resizeImage
  | queueWork
  | returnImage
  deriving DecidableEq, Repr

/-- `NAN_METHOD(resize)`: `argsOk` is the check of the argument list,
`srcValid` is `src.data != 0` after `jsImageToNativeImage`, `width` and
`height` are the `int` values read from the options. Every `ThrowError` is
followed by `return`. -/
def resize {α : Type} [DecidableEq α] (symbols : Nat → α) (argsOk srcValid : Bool)
    (width height : Int) (filterOpt : Option α) (widthOpt : Option JsNumber) : List Effect :=
  if !argsOk then [.throwError "expected: resize(image, opts, cb)"]
  else if !srcValid then [.throwError "invalid image"]
  else if width ≤ 0 ∨ height ≤ 0 then [.throwError "invalid dimensions"]
  else
    match getResizeOptions symbols ResizeOptions.new filterOpt widthOpt with
    | .threw e => [.throwError e]
    | .returned _ => [.newJsImage width height, .queueWork]

/-- `NAN_METHOD(resizeSync)`: the checks of the source image and of the
dimensions throw but do not return. -/
def resizeSync {α : Type} [DecidableEq α] (symbols : Nat → α) (argsOk srcValid : Bool)
    (width height : Int) (filterOpt : Option α) (widthOpt : Option JsNumber) : List Effect :=
  if !argsOk then [.throwError "expected: resizeSync(image, opts)"]
  else
    let e₁ : List Effect := if !srcValid then [.throwError "invalid image"] else []
    let e₂ : List Effect :=
      if width ≤ 0 ∨ height ≤ 0 then e₁ ++ [.throwError "invalid dimensions"] else e₁
    match getResizeOptions symbols ResizeOptions.new filterOpt widthOpt with
    | .threw e => e₂ ++ [.throwError e]
    | .returned _ => e₂ ++ [.newJsImage width height, .resizeImage, .returnImage]

/-! ## Reference definitions, the rolling buffer and the record of the loops -/

/-- `maxycontrib` of `resizeImagePixel`, the number of rows of the rolling
buffer: `int(std::ceil(2 * yfsupport))`. -/
def maxycontribOf (filter : Filter) (yscale : ℚ) : Int :=
  truncToInt ((⌈2 * fsupportOf filter yscale⌉ : Int) : ℚ)

/-- The rolling buffer `FloatBuffer tmp(dst.width, maxycontrib, pixelWidth)`
allocated by `resizeImagePixel`. -/
def tmpBuffer (Pixel : PixelMode) (src dst : NativeImage) (filter : Filter) : FloatBuffer :=
  FloatBuffer.new dst.width
    (maxycontribOf filter ((src.height : ℚ) / (dst.height : ℚ))).toNat (PixelWidth Pixel)

/-- What the loop over the destination rows does for one destination row:
the source rows passed through pass 1 in the `while` loop, in order, the
value of `srcrow` when pass 2 runs, and the entry `columncontribs[y]` whose
range of source rows pass 2 reads from the rolling buffer. -/
structure RowRecord where
  y : Nat
  resampled : List Int
  nextrow : Int
  reads : ContribRange
  deriving DecidableEq, Repr

/-- The loop `while (srcrow <= needrow)` of `resizeSrcRows`, recording in
`log` every source row passed through pass 1. -/
def resizeSrcRowsLog (pixelWidth : Nat) (src : NativeImage) (contribs : List ℚ)
    (rowcontribs : List ContribRange) (maxycontrib needrow : Int) :
    Nat → Int → FloatBuffer → List Int → Int × FloatBuffer × List Int
  | 0, srcrow, tmp, log => (srcrow, tmp, log)
  | fuel + 1, srcrow, tmp, log =>
    if srcrow ≤ needrow then
      resizeSrcRowsLog pixelWidth src contribs rowcontribs maxycontrib needrow fuel (srcrow + 1)
        (resizeSrcRow pixelWidth src contribs rowcontribs maxycontrib srcrow tmp)
        (log ++ [srcrow])
    else (srcrow, tmp, log)

/-- The loop over the destination rows of `destRows`, recording one
`RowRecord` per destination row. -/
def destRowsLog (pixelWidth : Nat) (src : NativeImage) (contribs : List ℚ)
    (rowcontribs columncontribs : List ContribRange) (maxycontrib : Int)
    (yscale yfsupport : ℚ) (dstwidth dststride : Nat) :
    Nat → Nat → ℚ → Int → FloatBuffer → List Int → List RowRecord → List Int × List RowRecord
  | 0, _, _, _, _, dstdata, log => (dstdata, log)
  | n + 1, y, centery, srcrow, tmp, dstdata, log =>
    let needrow := min ((src.height : Int) - 1) (truncToInt (centery + yfsupport))
    let st := resizeSrcRowsLog pixelWidth src contribs rowcontribs maxycontrib needrow
      (needrow + 1 - srcrow).toNat srcrow tmp []
    destRowsLog pixelWidth src contribs rowcontribs columncontribs maxycontrib yscale yfsupport
      dstwidth dststride n (y + 1) (centery + yscale) st.1 st.2.1
      (writeDstRow pixelWidth contribs (columncontribs.getD y ⟨0, 0, 0⟩) maxycontrib st.2.1
        dstwidth dststride y dstdata)
      (log ++ [⟨y, st.2.2, st.1, columncontribs.getD y ⟨0, 0, 0⟩⟩])

/-- `resizeImagePixel` with the record of its loop over the destination rows. -/
def resizeImagePixelLog (Pixel : PixelMode) (src dst : NativeImage) (filter : Filter) :
    Option (NativeImage × List RowRecord) :=
  if src.pixel = Pixel ∧ dst.pixel = Pixel then
    let xscale : ℚ := (src.width : ℚ) / (dst.width : ℚ)
    let yscale : ℚ := (src.height : ℚ) / (dst.height : ℚ)
    let yfscale := max (max yscale 1) (1 / filter.support)
    let yfsupport := filter.support * yfscale
    let maxycontrib := truncToInt ((⌈2 * yfsupport⌉ : Int) : ℚ)
    let pixelWidth := PixelWidth Pixel
    let tmp := FloatBuffer.new dst.width maxycontrib.toNat pixelWidth
    match makeContribs (List.replicate dst.width ⟨0, 0, 0⟩) filter xscale [] src.width with
    | none => none
    | some (rowcontribs, contribs₁) =>
      match makeContribs (List.replicate dst.height ⟨0, 0, 0⟩) filter yscale contribs₁
          src.height with
      | none => none
      | some (columncontribs, contribs) =>
        let centery := (1 / 2 : ℚ) * yscale
        let srcrow := truncToInt (max (0 : ℚ) ((⌈centery - yfsupport⌉ : Int) : ℚ))
        let res := destRowsLog pixelWidth src contribs rowcontribs columncontribs maxycontrib
          yscale yfsupport dst.width dst.stride dst.height 0 centery srcrow tmp dst.data []
        some ({ dst with data := res.1 }, res.2)
  else none

/-- The integers `a, a + 1, ..., b - 1`. -/
def intRange (a b : Int) : List Int :=
  (List.range (b - a).toNat).map fun (k : Nat) => a + (k : Int)

/-- `needrow` of destination row `y`. -/
def needrowAt (srcheight : Nat) (yscale yfsupport : ℚ) (y : Nat) : Int :=
  min ((srcheight : Int) - 1) (truncToInt (centerAt yscale y + yfsupport))

/-- The value of `srcrow` when the loop over the destination rows reaches
row `y`, `srcrow0` being its initial value. -/
def srcrowAt (srcheight : Nat) (yscale yfsupport : ℚ) (srcrow0 : Int) : Nat → Int
  | 0 => srcrow0
  | y + 1 => max (srcrowAt srcheight yscale yfsupport srcrow0 y)
      (needrowAt srcheight yscale yfsupport y + 1)

/-- The record of destination row `y`. -/
def rowRecordAt (srcheight : Nat) (yscale yfsupport : ℚ) (srcrow0 : Int)
    (columncontribs : List ContribRange) (y : Nat) : RowRecord :=
  ⟨y, intRange (srcrowAt srcheight yscale yfsupport srcrow0 y)
      (srcrowAt srcheight yscale yfsupport srcrow0 (y + 1)),
    srcrowAt srcheight yscale yfsupport srcrow0 (y + 1), columncontribs.getD y ⟨0, 0, 0⟩⟩

/-- The source rows passed through pass 1 during the destination rows
recorded in `log`, in order. -/
def resampledRows (log : List RowRecord) : List Int :=
  (log.map fun r => r.resampled).flatten

/-- Reference destination sample following the specification: the
quantisation of the sum over the source rows `c` of the vertical range of
destination row `y` of `colweight_y[c]` times the horizontal resample of
source row `c` at destination column `x`, which is the sum over the source
columns `k` of the horizontal range of `x` of `rowweight_x[k] * src[c][k][p]`. -/
def referenceSample (pixelWidth : Nat) (src : NativeImage) (contribs : List ℚ)
    (rowcontribs columncontribs : List ContribRange) (x y p : Nat) : Int :=
  let cr := columncontribs.getD y ⟨0, 0, 0⟩
  let rr := rowcontribs.getD x ⟨0, 0, 0⟩
  quantise
    ((List.range (cr.right + 1 - cr.left).toNat).map fun (a : Nat) =>
      contribs.getD (cr.weights + a) 0 *
        ((List.range (rr.right + 1 - rr.left).toNat).map fun (b : Nat) =>
          contribs.getD (rr.weights + b) 0 *
            ((src.rowAt (cr.left + (a : Int)).toNat
              ((rr.left + (b : Int)).toNat * pixelWidth + p) : Int) : ℚ)).sum).sum

/-- The `1 × 6` single-channel image with the samples `0, 30, 60, 90, 120, 150`. -/
def ramp : NativeImage := mkImage .GREY_PIXEL 1 6 fun y _ _ => 30 * (y : Int)

/-- The destination image of the ramp example: `1 × 3`, single channel. -/
def rampDst : NativeImage := mkImage .GREY_PIXEL 1 3 fun _ _ _ => 0

/-- The image that `resizeImagePixel` returns for the ramp example. -/
def rampOut : NativeImage := ⟨.GREY_PIXEL, 1, 3, 1, [50, 110, 135]⟩

/-- The records of the three destination rows of the ramp example. -/
def rampLog : List RowRecord :=
  [⟨0, [0, 1, 2], 3, ⟨0, 2, 1⟩⟩, ⟨1, [3, 4], 5, ⟨2, 4, 4⟩⟩, ⟨2, [5], 6, ⟨4, 5, 7⟩⟩]

/-- The table of the Triangle kernel for four source and two destination
samples. -/
def triangleTable : List ContribRange := [⟨0, 2, 0⟩, ⟨2, 3, 3⟩]

/-! # Theorems -/

/-! ## Lemmas: conversions and trimming -/

theorem truncToInt_intCast (z : Int) : truncToInt (z : ℚ) = z := by
  unfold truncToInt
  split <;> simp

theorem initLeft_eq (fsupport center : ℚ) :
    initLeft fsupport center = max 0 ⌈center - fsupport⌉ := by
  unfold initLeft
  have h : max (0 : ℚ) ((⌈center - fsupport⌉ : Int) : ℚ)
      = ((max 0 ⌈center - fsupport⌉ : Int) : ℚ) := by push_cast; rfl
  rw [h, truncToInt_intCast]

theorem initRight_eq (fsupport center : ℚ) (size : Int) :
    initRight fsupport center size = min (size - 1) ⌊center + fsupport⌋ := by
  unfold initRight
  have h : min (((size - 1 : Int)) : ℚ) ((⌊center + fsupport⌋ : Int) : ℚ)
      = ((min (size - 1) ⌊center + fsupport⌋ : Int) : ℚ) := by push_cast; rfl
  rw [h, truncToInt_intCast]

theorem trimLeft_ge (filter : Filter) (center iscale : ℚ) (right : Int) (fuel : Nat)
    (left : Int) : left ≤ trimLeft filter center iscale right fuel left := by
  induction fuel generalizing left with
  | zero => simp [trimLeft]
  | succ n ih =>
    unfold trimLeft
    split
    · exact le_trans (by omega) (ih (left + 1))
    · exact le_refl _

theorem trimLeft_le (filter : Filter) (center iscale : ℚ) (right : Int) (fuel : Nat)
    (left : Int) (h : left ≤ right) : trimLeft filter center iscale right fuel left ≤ right := by
  induction fuel generalizing left with
  | zero => simpa [trimLeft] using h
  | succ n ih =>
    unfold trimLeft
    split
    · rename_i hc
      exact ih (left + 1) (by omega)
    · exact h

theorem trimRight_le (filter : Filter) (center iscale : ℚ) (left : Int) (fuel : Nat)
    (right : Int) : trimRight filter center iscale left fuel right ≤ right := by
  induction fuel generalizing right with
  | zero => simp [trimRight]
  | succ n ih =>
    unfold trimRight
    split
    · exact le_trans (ih (right - 1)) (by omega)
    · exact le_refl _

theorem trimRight_ge (filter : Filter) (center iscale : ℚ) (left : Int) (fuel : Nat)
    (right : Int) (h : left ≤ right) : left ≤ trimRight filter center iscale left fuel right := by
  induction fuel generalizing right with
  | zero => simpa [trimRight] using h
  | succ n ih =>
    unfold trimRight
    split
    · rename_i hc
      exact ih (right - 1) (by omega)
    · exact h

/-- The first trimming loop ends because its condition is false, not
because the fuel runs out. -/
theorem trimLeft_exit (filter : Filter) (center iscale : ℚ) (right : Int) (fuel : Nat)
    (left : Int) (h : (right - left).toNat ≤ fuel) :
    ¬ (trimLeft filter center iscale right fuel left < right ∧
      filter.eval ((center - ((trimLeft filter center iscale right fuel left : Int) : ℚ))
        * iscale) = 0) := by
  induction fuel generalizing left with
  | zero =>
    simp only [trimLeft]
    intro hc
    omega
  | succ n ih =>
    unfold trimLeft
    split
    · rename_i hc
      exact ih (left + 1) (by omega)
    · rename_i hc
      exact hc

/-- The second trimming loop ends because its condition is false, not
because the fuel runs out. -/
theorem trimRight_exit (filter : Filter) (center iscale : ℚ) (left : Int) (fuel : Nat)
    (right : Int) (h : (right - left).toNat ≤ fuel) :
    ¬ (trimRight filter center iscale left fuel right > left ∧
      filter.eval ((center - ((trimRight filter center iscale left fuel right : Int) : ℚ))
        * iscale) = 0) := by
  induction fuel generalizing right with
  | zero =>
    simp only [trimRight]
    intro hc
    omega
  | succ n ih =>
    unfold trimRight
    split
    · rename_i hc
      exact ih (right - 1) (by omega)
    · rename_i hc
      exact hc

theorem finalLeft_ge (filter : Filter) (fsupport iscale center : ℚ) (size : Int) :
    initLeft fsupport center ≤ finalLeft filter fsupport iscale center size :=
  trimLeft_ge _ _ _ _ _ _

theorem finalLeft_le (filter : Filter) (fsupport iscale center : ℚ) (size : Int)
    (h : initLeft fsupport center ≤ initRight fsupport center size) :
    finalLeft filter fsupport iscale center size ≤ initRight fsupport center size :=
  trimLeft_le _ _ _ _ _ _ h

theorem finalRight_le (filter : Filter) (fsupport iscale center : ℚ) (size : Int) :
    finalRight filter fsupport iscale center size ≤ initRight fsupport center size :=
  trimRight_le _ _ _ _ _ _

theorem finalRight_ge (filter : Filter) (fsupport iscale center : ℚ) (size : Int)
    (h : initLeft fsupport center ≤ initRight fsupport center size) :
    finalLeft filter fsupport iscale center size ≤ finalRight filter fsupport iscale center size :=
  trimRight_ge _ _ _ _ _ _ (finalLeft_le _ _ _ _ _ h)

/-! ## Lemmas: the support window -/

theorem fscaleOf_ge_one (filter : Filter) (scale : ℚ) : 1 ≤ fscaleOf filter scale := by
  unfold fscaleOf
  exact le_trans (le_max_right scale 1) (le_max_left _ _)

theorem fscaleOf_pos (filter : Filter) (scale : ℚ) : 0 < fscaleOf filter scale :=
  lt_of_lt_of_le one_pos (fscaleOf_ge_one filter scale)

theorem fsupportOf_ge_one (filter : Filter) (scale : ℚ) (hsup : 0 < filter.support) :
    1 ≤ fsupportOf filter scale := by
  unfold fsupportOf
  have h1 : 1 / filter.support ≤ fscaleOf filter scale := le_max_right _ _
  calc (1 : ℚ) = filter.support * (1 / filter.support) := by field_simp
    _ ≤ filter.support * fscaleOf filter scale :=
        mul_le_mul_of_nonneg_left h1 (le_of_lt hsup)

theorem centerAt_pos (scale : ℚ) (hs : 0 < scale) (i : Nat) : 0 < centerAt scale i := by
  unfold centerAt
  have : (0 : ℚ) ≤ (i : ℚ) * scale := mul_nonneg (Nat.cast_nonneg i) (le_of_lt hs)
  linarith

theorem centerAt_lt (srcLen dstLen : Nat) (hd : 0 < dstLen) (hs : 0 < srcLen) (i : Nat)
    (hi : i < dstLen) : centerAt ((srcLen : ℚ) / (dstLen : ℚ)) i < (srcLen : ℚ) := by
  unfold centerAt
  have hd' : (0 : ℚ) < (dstLen : ℚ) := by exact_mod_cast hd
  have hs' : (0 : ℚ) < (srcLen : ℚ) := by exact_mod_cast hs
  have hi' : (i : ℚ) + 1 ≤ (dstLen : ℚ) := by exact_mod_cast hi
  have hsc : (0 : ℚ) < (srcLen : ℚ) / (dstLen : ℚ) := div_pos hs' hd'
  have e : (srcLen : ℚ) = (dstLen : ℚ) * ((srcLen : ℚ) / (dstLen : ℚ)) := by field_simp
  have h2 : ((i : ℚ) + 1) * ((srcLen : ℚ) / (dstLen : ℚ))
      ≤ (dstLen : ℚ) * ((srcLen : ℚ) / (dstLen : ℚ)) :=
    mul_le_mul_of_nonneg_right hi' (le_of_lt hsc)
  nlinarith

/-- The untrimmed bounds of every entry are ordered and inside the source. -/
theorem init_bounds (filter : Filter) (srcLen dstLen : Nat) (hs : 0 < srcLen)
    (hd : 0 < dstLen) (hsup : 0 < filter.support) (i : Nat) (hi : i < dstLen) :
    0 ≤ entryInitLeft filter ((srcLen : ℚ) / (dstLen : ℚ)) i ∧
    entryInitLeft filter ((srcLen : ℚ) / (dstLen : ℚ)) i
      ≤ entryInitRight filter ((srcLen : ℚ) / (dstLen : ℚ)) (srcLen : Int) i ∧
    entryInitRight filter ((srcLen : ℚ) / (dstLen : ℚ)) (srcLen : Int) i
      ≤ (srcLen : Int) - 1 := by
  unfold entryInitLeft entryInitRight
  rw [initLeft_eq, initRight_eq]
  set scale : ℚ := (srcLen : ℚ) / (dstLen : ℚ) with hscale
  set c := centerAt scale i with hc
  set f := fsupportOf filter scale with hf
  have hd' : (0 : ℚ) < (dstLen : ℚ) := by exact_mod_cast hd
  have hs' : (0 : ℚ) < (srcLen : ℚ) := by exact_mod_cast hs
  have hsc : 0 < scale := div_pos hs' hd'
  have hf1 : 1 ≤ f := fsupportOf_ge_one filter scale hsup
  have hc0 : 0 < c := centerAt_pos scale hsc i
  have hcs : c < (srcLen : ℚ) := centerAt_lt srcLen dstLen hd hs i hi
  have hceil_lt : ((⌈c - f⌉ : Int) : ℚ) < c - f + 1 := Int.ceil_lt_add_one _
  have hfloor_gt : c + f - 1 < ((⌊c + f⌋ : Int) : ℚ) := by
    have := Int.lt_floor_add_one (c + f)
    linarith
  have hLR : ⌈c - f⌉ ≤ ⌊c + f⌋ := by
    have : ((⌈c - f⌉ : Int) : ℚ) < ((⌊c + f⌋ : Int) : ℚ) := by linarith
    exact le_of_lt (by exact_mod_cast this)
  have hR0 : (0 : Int) ≤ ⌊c + f⌋ := by
    have : ((0 : Int) : ℚ) < ((⌊c + f⌋ : Int) : ℚ) + 1 := by push_cast; linarith
    have : (0 : Int) < ⌊c + f⌋ + 1 := by exact_mod_cast this
    omega
  have hLs : ⌈c - f⌉ ≤ (srcLen : Int) - 1 := by
    have : ((⌈c - f⌉ : Int) : ℚ) < (((srcLen : Int)) : ℚ) := by push_cast; linarith
    have : ⌈c - f⌉ < (srcLen : Int) := by exact_mod_cast this
    omega
  have hs1 : (0 : Int) ≤ (srcLen : Int) - 1 := by omega
  refine ⟨le_max_left _ _, ?_, min_le_left _ _⟩
  exact le_min (max_le hs1 hLs) (max_le hR0 hLR)

/-! ## Lemmas: the structure of the table built by `makeContribs` -/

theorem rawWeights_length (filter : Filter) (center iscale : ℚ) (left right : Int) :
    (rawWeights filter center iscale left right).length = (right + 1 - left).toNat := by
  unfold rawWeights
  rw [List.length_map, List.length_range]

theorem rangeNorm_length (filter : Filter) (fsupport iscale : ℚ) (size : Int) (center : ℚ) :
    (rangeNorm filter fsupport iscale size center).length
      = (finalRight filter fsupport iscale center size + 1
          - finalLeft filter fsupport iscale center size).toNat := by
  simp [rangeNorm, rangeRaw, rawWeights_length]

theorem rangeNorm_sum (filter : Filter) (fsupport iscale : ℚ) (size : Int) (center : ℚ)
    (h : 0 < (rangeRaw filter fsupport iscale size center).sum) :
    (rangeNorm filter fsupport iscale size center).sum = 1 := by
  unfold rangeNorm
  rw [List.sum_map_mul_right]
  simp only [List.map_id']
  field_simp

theorem sum_range_succ_shift (g : Nat → Nat) (n : Nat) :
    ((List.range (n + 1)).map g).sum = g 0 + ((List.range n).map fun k => g (k + 1)).sum := by
  rw [List.range_succ_eq_map, List.map_cons, List.sum_cons, List.map_map]
  rfl

theorem makeContribsLoop_cons (filter : Filter) (scale fsupport iscale : ℚ) (size : Int)
    (r : ContribRange) (rest : List ContribRange) (center : ℚ) (storage : List ℚ) :
    makeContribsLoop filter scale fsupport iscale size (r :: rest) center storage =
      if 0 < (rangeRaw filter fsupport iscale size center).sum then
        (makeContribsLoop filter scale fsupport iscale size rest (center + scale)
          (storage ++ rangeNorm filter fsupport iscale size center)).map
          fun q => (⟨finalLeft filter fsupport iscale center size,
            finalRight filter fsupport iscale center size, storage.length⟩ :: q.1, q.2)
      else none := by
  simp only [makeContribsLoop, rangeRaw, rangeNorm]
  split
  · split <;> simp_all
  · rfl

/-- The loop succeeds exactly when every `totalweight` is positive. -/
theorem makeContribsLoop_isSome (filter : Filter) (scale fsupport iscale : ℚ) (size : Int)
    (ranges : List ContribRange) (center : ℚ) (storage : List ℚ) :
    (makeContribsLoop filter scale fsupport iscale size ranges center storage).isSome ↔
      ∀ i : Nat, i < ranges.length →
        0 < (rangeRaw filter fsupport iscale size (center + (i : ℚ) * scale)).sum := by
  induction ranges generalizing center storage with
  | nil => simp [makeContribsLoop]
  | cons r rest ih =>
    rw [makeContribsLoop_cons]
    constructor
    · intro h i hi
      split at h
      · rename_i h0
        rw [Option.isSome_map'] at h
        cases i with
        | zero => simpa using h0
        | succ k =>
          have := (ih (center + scale) _).1 h k (by simpa using hi)
          have e : center + ((k + 1 : Nat) : ℚ) * scale = center + scale + (k : ℚ) * scale := by
            push_cast; ring
          rw [e]; exact this
      · simp at h
    · intro h
      have h0 : 0 < (rangeRaw filter fsupport iscale size center).sum := by
        simpa using h 0 (by simp)
      rw [if_pos h0, Option.isSome_map']
      apply (ih (center + scale) _).2
      intro k hk
      have := h (k + 1) (by simpa using hk)
      have e : center + ((k + 1 : Nat) : ℚ) * scale = center + scale + (k : ℚ) * scale := by
        push_cast; ring
      rw [e] at this; exact this

/-- The table and the store produced by the loop: entry `i` holds the
trimmed bounds computed at `center + i * scale`, its weights are the
normalised raw weights, stored one entry after the other behind the
weights already in the store. -/
theorem makeContribsLoop_spec (filter : Filter) (scale fsupport iscale : ℚ) (size : Int)
    (ranges : List ContribRange) (center : ℚ) (storage : List ℚ)
    (rs : List ContribRange) (st : List ℚ)
    (h : makeContribsLoop filter scale fsupport iscale size ranges center storage
      = some (rs, st)) :
    rs.length = ranges.length ∧
    (∃ ext, st = storage ++ ext) ∧
    st.length = storage.length + ((List.range ranges.length).map fun (k : Nat) =>
      (rangeNorm filter fsupport iscale size (center + (k : ℚ) * scale)).length).sum ∧
    ∀ i : Nat, i < ranges.length →
      (rs.getD i ⟨0, 0, 0⟩).left
        = finalLeft filter fsupport iscale (center + (i : ℚ) * scale) size ∧
      (rs.getD i ⟨0, 0, 0⟩).right
        = finalRight filter fsupport iscale (center + (i : ℚ) * scale) size ∧
      (rs.getD i ⟨0, 0, 0⟩).weights = storage.length + ((List.range i).map fun (k : Nat) =>
        (rangeNorm filter fsupport iscale size (center + (k : ℚ) * scale)).length).sum ∧
      storedWeights st (rs.getD i ⟨0, 0, 0⟩)
        = rangeNorm filter fsupport iscale size (center + (i : ℚ) * scale) := by
  induction ranges generalizing center storage rs st with
  | nil =>
    simp only [makeContribsLoop, Option.some.injEq, Prod.mk.injEq] at h
    obtain ⟨rfl, rfl⟩ := h
    simp
  | cons r rest ih =>
    rw [makeContribsLoop_cons] at h
    split at h
    · rename_i h0
      rw [Option.map_eq_some'] at h
      obtain ⟨⟨rs', st'⟩, hrec, hq⟩ := h
      simp only [Prod.mk.injEq] at hq
      obtain ⟨rfl, rfl⟩ := hq
      obtain ⟨hlen, ⟨ext, hext⟩, hstlen, hent⟩ := ih (center + scale) _ rs' st' hrec
      have shift : ∀ k : Nat, center + ((k + 1 : Nat) : ℚ) * scale
          = center + scale + (k : ℚ) * scale := by
        intro k; push_cast; ring
      have sumshift : ∀ n : Nat, ((List.range (n + 1)).map fun (k : Nat) =>
          (rangeNorm filter fsupport iscale size (center + (k : ℚ) * scale)).length).sum
          = (rangeNorm filter fsupport iscale size center).length
            + ((List.range n).map fun (k : Nat) =>
              (rangeNorm filter fsupport iscale size
                (center + scale + (k : ℚ) * scale)).length).sum := by
        intro n
        rw [sum_range_succ_shift]
        simp only [Nat.cast_zero, zero_mul, add_zero, shift]
      refine ⟨by simp [hlen], ⟨rangeNorm filter fsupport iscale size center ++ ext, by
        rw [hext, List.append_assoc]⟩, ?_, ?_⟩
      · rw [hstlen, List.length_cons, sumshift, List.length_append]; omega
      · intro i hi
        cases i with
        | zero =>
          simp only [List.getD_cons_zero, Nat.cast_zero, zero_mul, add_zero, List.range_zero,
            List.map_nil, List.sum_nil, true_and]
          unfold storedWeights
          simp only
          rw [hext, List.append_assoc, List.drop_left, ← rangeNorm_length filter fsupport iscale
            size center, List.take_left]
        | succ k =>
          have hk : k < rest.length := by simpa using hi
          obtain ⟨hl, hr, hw, hsw⟩ := hent k hk
          simp only [List.getD_cons_succ]
          rw [shift k]
          refine ⟨hl, hr, ?_, hsw⟩
          rw [hw, sumshift, List.length_append]; omega
    · simp at h

theorem makeContribs_eq (ranges : List ContribRange) (filter : Filter) (scale : ℚ)
    (storage : List ℚ) (size : Int) :
    makeContribs ranges filter scale storage size =
      makeContribsLoop filter scale (fsupportOf filter scale) (iscaleOf filter scale) size
        ranges (centerAt scale 0) storage := by
  simp [makeContribs, fsupportOf, iscaleOf, centerAt]

theorem centerAt_eq (scale : ℚ) (i : Nat) :
    centerAt scale 0 + (i : ℚ) * scale = centerAt scale i := by
  simp [centerAt]

theorem rangeRaw_centerAt (filter : Filter) (scale : ℚ) (size : Int) (i : Nat) :
    rangeRaw filter (fsupportOf filter scale) (iscaleOf filter scale) size (centerAt scale i)
      = entryRaw filter scale size i := rfl

theorem entryNorm_length (filter : Filter) (scale : ℚ) (size : Int) (i : Nat) :
    (entryNorm filter scale size i).length
      = (entryRight filter scale size i + 1 - entryLeft filter scale size i).toNat := by
  simp [entryNorm, entryRaw, rawWeights_length]

theorem entryNorm_sum (filter : Filter) (scale : ℚ) (size : Int) (i : Nat)
    (h : 0 < entryTotal filter scale size i) : (entryNorm filter scale size i).sum = 1 :=
  rangeNorm_sum filter _ _ size _ h

/-- `makeContribs` succeeds exactly when every `totalweight` is positive. -/
theorem makeContribs_isSome (ranges : List ContribRange) (filter : Filter) (scale : ℚ)
    (storage : List ℚ) (size : Int) :
    (makeContribs ranges filter scale storage size).isSome ↔
      ∀ i : Nat, i < ranges.length → 0 < entryTotal filter scale size i := by
  rw [makeContribs_eq, makeContribsLoop_isSome]
  simp only [centerAt_eq]
  rfl

/-- The table and the store produced by `makeContribs`. -/
theorem makeContribs_spec (ranges : List ContribRange) (filter : Filter) (scale : ℚ)
    (storage : List ℚ) (size : Int) (rs : List ContribRange) (st : List ℚ)
    (h : makeContribs ranges filter scale storage size = some (rs, st)) :
    rs.length = ranges.length ∧
    (∃ ext, st = storage ++ ext) ∧
    st.length = storage.length + ((List.range ranges.length).map fun (k : Nat) =>
      (entryNorm filter scale size k).length).sum ∧
    ∀ i : Nat, i < ranges.length →
      (rs.getD i ⟨0, 0, 0⟩).left = entryLeft filter scale size i ∧
      (rs.getD i ⟨0, 0, 0⟩).right = entryRight filter scale size i ∧
      (rs.getD i ⟨0, 0, 0⟩).weights = storage.length + ((List.range i).map fun (k : Nat) =>
        (entryNorm filter scale size k).length).sum ∧
      storedWeights st (rs.getD i ⟨0, 0, 0⟩) = entryNorm filter scale size i := by
  rw [makeContribs_eq] at h
  have := makeContribsLoop_spec filter scale _ _ size ranges _ storage rs st h
  simp only [centerAt_eq] at this
  exact this

/-! ## Contribution tables: normalisation and bounds -/

/-- The trimmed bounds of every entry lie between the untrimmed ones. -/
theorem entry_bounds (filter : Filter) (srcLen dstLen : Nat) (hs : 0 < srcLen)
    (hd : 0 < dstLen) (hsup : 0 < filter.support) (i : Nat) (hi : i < dstLen) :
    0 ≤ entryLeft filter ((srcLen : ℚ) / (dstLen : ℚ)) (srcLen : Int) i ∧
    entryLeft filter ((srcLen : ℚ) / (dstLen : ℚ)) (srcLen : Int) i
      ≤ entryRight filter ((srcLen : ℚ) / (dstLen : ℚ)) (srcLen : Int) i ∧
    entryRight filter ((srcLen : ℚ) / (dstLen : ℚ)) (srcLen : Int) i ≤ (srcLen : Int) - 1 := by
  obtain ⟨h0, h1, h2⟩ := init_bounds filter srcLen dstLen hs hd hsup i hi
  refine ⟨le_trans h0 (finalLeft_ge _ _ _ _ _), finalRight_ge _ _ _ _ _ h1,
    le_trans (finalRight_le _ _ _ _ _) h2⟩

theorem trimLeft_of_ne_zero (filter : Filter) (center iscale : ℚ) (right : Int)
    (hne : ∀ o, filter.eval o ≠ 0) (fuel : Nat) (left : Int) :
    trimLeft filter center iscale right fuel left = left := by
  cases fuel with
  | zero => rfl
  | succ n => simp [trimLeft, hne]

theorem trimRight_of_ne_zero (filter : Filter) (center iscale : ℚ) (left : Int)
    (hne : ∀ o, filter.eval o ≠ 0) (fuel : Nat) (right : Int) :
    trimRight filter center iscale left fuel right = right := by
  cases fuel with
  | zero => rfl
  | succ n => simp [trimRight, hne]

theorem box_eval (o : ℚ) : (ScaledFilter BoxFilter 1).eval o = 1 := by
  simp [ScaledFilter, BoxFilter]

theorem box_support : (ScaledFilter BoxFilter 1).support = 1 / 2 := by
  simp [ScaledFilter, BoxFilter]

theorem box_fscale_one : fscaleOf (ScaledFilter BoxFilter 1) 1 = 2 := by
  unfold fscaleOf; rw [box_support]; norm_num

theorem box_fsupport_one : fsupportOf (ScaledFilter BoxFilter 1) 1 = 1 := by
  unfold fsupportOf; rw [box_fscale_one, box_support]; norm_num

theorem box_identity_left (n : Int) (i : Nat) :
    entryLeft (ScaledFilter BoxFilter 1) 1 n i = i := by
  unfold entryLeft finalLeft
  rw [trimLeft_of_ne_zero _ _ _ _ (fun o => by rw [box_eval]; norm_num), box_fsupport_one,
    initLeft_eq]
  unfold centerAt
  have : (1 / 2 : ℚ) * 1 + (i : ℚ) * 1 - 1 = ((i : Int) : ℚ) - 1 / 2 := by push_cast; ring
  rw [this]
  have h : ⌈((i : Int) : ℚ) - 1 / 2⌉ = (i : Int) := by
    rw [Int.ceil_eq_iff]
    constructor <;> norm_num
  rw [h]; simp

theorem box_identity_right (n : Int) (i : Nat) :
    entryRight (ScaledFilter BoxFilter 1) 1 n i = min (n - 1) ((i : Int) + 1) := by
  unfold entryRight finalRight
  rw [trimRight_of_ne_zero _ _ _ _ (fun o => by rw [box_eval]; norm_num), box_fsupport_one,
    initRight_eq]
  unfold centerAt
  have : (1 / 2 : ℚ) * 1 + (i : ℚ) * 1 + 1 = (((i : Int) + 1 : Int) : ℚ) + 1 / 2 := by
    push_cast; ring
  rw [this]
  have h : ⌊(((i : Int) + 1 : Int) : ℚ) + 1 / 2⌋ = (i : Int) + 1 := by
    rw [Int.floor_eq_iff]
    constructor <;> norm_num
  rw [h]

theorem box_identity_raw (n : Nat) (i : Nat) (hi : i < n) :
    entryRaw (ScaledFilter BoxFilter 1) 1 (n : Int) i = if i + 1 < n then [1, 1] else [1] := by
  unfold entryRaw rawWeights
  rw [box_identity_left, box_identity_right]
  simp only [box_eval]
  split
  · rename_i h
    have : (min ((n : Int) - 1) ((i : Int) + 1) + 1 - (i : Int)).toNat = 2 := by
      rw [min_eq_right (by omega)]; omega
    rw [this]; rfl
  · rename_i h
    have : (min ((n : Int) - 1) ((i : Int) + 1) + 1 - (i : Int)).toNat = 1 := by
      rw [min_eq_left (by omega)]; omega
    rw [this]; rfl

theorem box_identity_norm (n : Nat) (i : Nat) (hi : i < n) :
    entryNorm (ScaledFilter BoxFilter 1) 1 (n : Int) i
      = if i + 1 < n then [1 / 2, 1 / 2] else [1] := by
  unfold entryNorm entryTotal
  rw [box_identity_raw n i hi]
  split <;> norm_num

/-- C3 (amended): at identity scale (`destination_length = source_length = n > 0`)
with the Box kernel at filter width 1.0, `makeContribs` returns a table whose
entry `i` has `left = i` and `right = min (n - 1) (i + 1)`: two taps of
weight `1/2` at the source indices `i` and `i + 1` for every `i < n - 1`, and
a single tap of weight `1` at the same index only for the last entry. -/
theorem box_identity_table (n : Nat) (hn : 0 < n) (ranges : List ContribRange)
    (hr : ranges.length = n) (storage : List ℚ) :
    ∃ rs st, makeContribs ranges (ScaledFilter BoxFilter 1) ((n : ℚ) / (n : ℚ)) storage (n : Int)
        = some (rs, st) ∧ rs.length = n ∧
      ∀ i : Nat, i < n →
        (rs.getD i ⟨0, 0, 0⟩).left = (i : Int) ∧
        (rs.getD i ⟨0, 0, 0⟩).right = min ((n : Int) - 1) ((i : Int) + 1) ∧
        storedWeights st (rs.getD i ⟨0, 0, 0⟩) = if i + 1 < n then [1 / 2, 1 / 2] else [1] := by
  have hn' : (n : ℚ) ≠ 0 := by exact_mod_cast (Nat.pos_iff_ne_zero.1 hn)
  rw [div_self hn']
  have hsome : (makeContribs ranges (ScaledFilter BoxFilter 1) 1 storage (n : Int)).isSome := by
    rw [makeContribs_isSome, hr]
    intro i hi
    unfold entryTotal
    rw [box_identity_raw n i hi]
    split <;> norm_num
  obtain ⟨⟨rs, st⟩, hres⟩ := Option.isSome_iff_exists.1 hsome
  obtain ⟨hlen, _, _, hent⟩ := makeContribs_spec _ _ _ _ _ rs st hres
  refine ⟨rs, st, hres, by rw [hlen, hr], ?_⟩
  intro i hi
  obtain ⟨hl, hrr, _, hsw⟩ := hent i (by rw [hr]; exact hi)
  rw [hl, hrr, hsw]
  exact ⟨box_identity_left _ _, box_identity_right _ _, box_identity_norm n i hi⟩

/-- Witness of C3 (amended): three source and three destination samples. -/
theorem box_identity_table_witness :
    ∃ rs st, makeContribs (List.replicate 3 ⟨0, 0, 0⟩) (ScaledFilter BoxFilter 1)
        (((3 : Nat) : ℚ) / ((3 : Nat) : ℚ)) [] ((3 : Nat) : Int) = some (rs, st) ∧
      rs.length = 3 ∧
      ∀ i : Nat, i < 3 →
        (rs.getD i ⟨0, 0, 0⟩).left = (i : Int) ∧
        (rs.getD i ⟨0, 0, 0⟩).right = min (((3 : Nat) : Int) - 1) ((i : Int) + 1) ∧
        storedWeights st (rs.getD i ⟨0, 0, 0⟩) = if i + 1 < 3 then [1 / 2, 1 / 2] else [1] :=
  box_identity_table 3 (by decide) (List.replicate 3 ⟨0, 0, 0⟩) (by decide) []

/-- Counterexample to C3 as stated: with two source and two destination
samples and the Box kernel at width 1.0, entry `0` of the table is not the
single tap `left = right = 0` of weight `1` (it is `left = 0`, `right = 1`
with weights `1/2, 1/2`), and resizing the `2 × 1` grey image `[0, 100]` to
its own dimensions gives `[50, 100]`, not the source. -/
theorem box_identity_counterexample :
    ¬ (∀ rs st, makeContribs (List.replicate 2 ⟨0, 0, 0⟩) (ScaledFilter BoxFilter 1)
          (((2 : Nat) : ℚ) / ((2 : Nat) : ℚ)) [] ((2 : Nat) : Int) = some (rs, st) →
        ∀ i : Nat, i < 2 →
          (rs.getD i ⟨0, 0, 0⟩).left = (i : Int) ∧ (rs.getD i ⟨0, 0, 0⟩).right = (i : Int) ∧
          storedWeights st (rs.getD i ⟨0, 0, 0⟩) = [1]) ∧
    makeContribs (List.replicate 2 ⟨0, 0, 0⟩) (ScaledFilter BoxFilter 1)
        (((2 : Nat) : ℚ) / ((2 : Nat) : ℚ)) [] ((2 : Nat) : Int)
      = some ([⟨0, 1, 0⟩, ⟨1, 1, 2⟩], [1 / 2, 1 / 2, 1]) ∧
    (mkImage .GREY_PIXEL 2 1 fun _ x _ => 100 * (x : Int)).data = [0, 100] ∧
    (resizeImagePixel .GREY_PIXEL (mkImage .GREY_PIXEL 2 1 fun _ x _ => 100 * (x : Int))
        (mkImage .GREY_PIXEL 2 1 fun _ _ _ => 0) (ScaledFilter BoxFilter 1)).map
          (fun img => img.data) = some [50, 100] := by
  refine ⟨?_, by decide!, by decide!, by decide!⟩
  intro h
  have h0 := h [⟨0, 1, 0⟩, ⟨1, 1, 2⟩] [1 / 2, 1 / 2, 1] (by decide!) 0 (by decide)
  exact absurd h0.2.1 (by decide)

/-! ## Lemmas: buffers, the two passes and the loops -/

theorem getD_set {α : Type} (l : List α) (i j : Nat) (a d : α) :
    (l.set i a).getD j d = if i = j ∧ i < l.length then a else l.getD j d := by
  simp only [List.getD_eq_getElem?_getD, List.getElem?_set]
  by_cases h : i = j
  · subst h
    by_cases h2 : i < l.length
    · simp [h2]
    · simp [h2, List.getElem?_eq_none (not_lt.1 h2)]
  · simp [h]

theorem foldl_range_succ {β : Type} (f : β → Nat → β) (b : β) (n : Nat) :
    (List.range (n + 1)).foldl f b = f ((List.range n).foldl f b) n := by
  rw [List.range_succ, List.foldl_append]
  rfl

theorem zeroFill_length (base n : Nat) (buf : List ℚ) :
    (zeroFill base n buf).length = buf.length := by
  unfold zeroFill
  induction n with
  | zero => rfl
  | succ k ih => rw [foldl_range_succ, List.length_set, ih]

theorem zeroFill_getD (base n : Nat) (buf : List ℚ) (j : Nat) :
    (zeroFill base n buf).getD j 0
      = if base ≤ j ∧ j < base + n then 0 else buf.getD j 0 := by
  induction n with
  | zero =>
    rw [if_neg (by omega)]
    rfl
  | succ k ih =>
    have hlen := zeroFill_length base k buf
    unfold zeroFill at ih hlen ⊢
    rw [foldl_range_succ, getD_set, hlen, ih]
    by_cases h1 : base + k = j
    · subst h1
      by_cases h2 : base + k < buf.length
      · rw [if_pos ⟨rfl, h2⟩, if_pos (by omega)]
      · rw [if_neg (by tauto), if_neg (by omega), if_pos (by omega),
          List.getD_eq_default _ _ (not_lt.1 h2)]
    · rw [if_neg (by tauto)]
      by_cases h3 : base ≤ j ∧ j < base + k
      · rw [if_pos h3, if_pos (by omega)]
      · rw [if_neg h3, if_neg (by omega)]

theorem accumPixel_length (pw : Nat) (wt : ℚ) (sp : Nat → ℚ) (base : Nat) (buf : List ℚ) :
    (accumPixel pw wt sp base buf).length = buf.length := by
  unfold accumPixel
  induction pw with
  | zero => rfl
  | succ k ih => rw [foldl_range_succ, List.length_set, ih]

theorem accumPixel_getD (pw : Nat) (wt : ℚ) (sp : Nat → ℚ) (base : Nat) (buf : List ℚ)
    (j : Nat) :
    (accumPixel pw wt sp base buf).getD j 0
      = if base ≤ j ∧ j < base + pw ∧ j < buf.length then buf.getD j 0 + wt * sp (j - base)
        else buf.getD j 0 := by
  induction pw generalizing j with
  | zero =>
    rw [if_neg (by omega)]
    rfl
  | succ k ih =>
    have hlen := accumPixel_length k wt sp base buf
    unfold accumPixel at ih hlen ⊢
    rw [foldl_range_succ, getD_set, hlen]
    by_cases h1 : base + k = j
    · subst h1
      by_cases h2 : base + k < buf.length
      · rw [if_pos ⟨rfl, h2⟩, if_pos (by omega), ih, if_neg (by omega)]
        have e : base + k - base = k := by omega
        rw [e]
      · rw [if_neg (by tauto), if_neg (by omega), ih, if_neg (by omega)]
    · rw [if_neg (by tauto), ih]
      by_cases h3 : base ≤ j ∧ j < base + k ∧ j < buf.length
      · rw [if_pos h3, if_pos (by omega)]
      · rw [if_neg h3, if_neg (by omega)]

theorem accumTaps_length (pw : Nat) (contribs : List ℚ) (r : ContribRange)
    (sp : Int → Nat → ℚ) (base : Nat) (buf : List ℚ) :
    (accumTaps pw contribs r sp base buf).length = buf.length := by
  unfold accumTaps
  induction (r.right + 1 - r.left).toNat with
  | zero => rfl
  | succ k ih => rw [foldl_range_succ, accumPixel_length, ih]

theorem accumTaps_getD (pw : Nat) (contribs : List ℚ) (r : ContribRange)
    (sp : Int → Nat → ℚ) (base : Nat) (buf : List ℚ) (j : Nat) :
    (accumTaps pw contribs r sp base buf).getD j 0
      = if base ≤ j ∧ j < base + pw ∧ j < buf.length
        then buf.getD j 0 + tapSum contribs r sp (j - base)
        else buf.getD j 0 := by
  unfold accumTaps tapSum
  induction (r.right + 1 - r.left).toNat with
  | zero => simp
  | succ k ih =>
    have hlen : (List.foldl (fun b (k : Nat) => accumPixel pw (contribs.getD (r.weights + k) 0)
        (sp (r.left + (k : Int))) base b) buf (List.range k)).length = buf.length := by
      clear ih
      induction k with
      | zero => rfl
      | succ m ihm => rw [foldl_range_succ, accumPixel_length, ihm]
    rw [foldl_range_succ, accumPixel_getD, hlen, ih, List.range_succ, List.map_append,
      List.sum_append]
    by_cases h : base ≤ j ∧ j < base + pw ∧ j < buf.length
    · simp only [h, and_self, if_true, List.map_cons, List.map_nil, List.sum_cons, List.sum_nil]
      ring
    · simp only [h, if_false]

/-- The columns loop of pass 1 after `m` columns. -/
theorem columnsLoop_spec (pw : Nat) (contribs : List ℚ) (rowcontribs : List ContribRange)
    (sp : Int → Nat → ℚ) (rowbase : Nat) (buf : List ℚ) (m : Nat) :
    ((List.range m).foldl (fun b (x : Nat) =>
        accumTaps pw contribs (rowcontribs.getD x ⟨0, 0, 0⟩) sp (rowbase + x * pw) b) buf).length
      = buf.length ∧
    (∀ x p : Nat, x < m → p < pw → rowbase + x * pw + p < buf.length →
      ((List.range m).foldl (fun b (x : Nat) =>
        accumTaps pw contribs (rowcontribs.getD x ⟨0, 0, 0⟩) sp (rowbase + x * pw) b) buf).getD
          (rowbase + x * pw + p) 0
        = buf.getD (rowbase + x * pw + p) 0
          + tapSum contribs (rowcontribs.getD x ⟨0, 0, 0⟩) sp p) ∧
    (∀ j : Nat, (j < rowbase ∨ rowbase + m * pw ≤ j) →
      ((List.range m).foldl (fun b (x : Nat) =>
        accumTaps pw contribs (rowcontribs.getD x ⟨0, 0, 0⟩) sp (rowbase + x * pw) b) buf).getD j 0
        = buf.getD j 0) := by
  induction m with
  | zero =>
    refine ⟨rfl, ?_, ?_⟩
    · intro x p hx; omega
    · intro j _; rfl
  | succ k ih =>
    obtain ⟨hlen, hin, hout⟩ := ih
    rw [foldl_range_succ]
    refine ⟨by rw [accumTaps_length, hlen], ?_, ?_⟩
    · intro x p hx hp hlt
      rw [accumTaps_getD, hlen]
      by_cases hxk : x = k
      · subst hxk
        rw [if_pos (by omega), hout _ (Or.inr (by omega))]
        have e : rowbase + x * pw + p - (rowbase + x * pw) = p := by omega
        rw [e]
      · have hx' : x < k := by omega
        have h1 : (x + 1) * pw ≤ k * pw := Nat.mul_le_mul_right pw hx'
        rw [Nat.succ_mul] at h1
        rw [if_neg (by omega), hin x p hx' hp hlt]
    · intro j hj
      have h1 : (k + 1) * pw = k * pw + pw := Nat.succ_mul k pw
      rw [accumTaps_getD, hlen, if_neg (by omega), hout j (by omega)]

theorem resizeSrcRow_fields (pw : Nat) (src : NativeImage) (contribs : List ℚ)
    (rowcontribs : List ContribRange) (m srcrow : Int) (tmp : FloatBuffer) :
    (resizeSrcRow pw src contribs rowcontribs m srcrow tmp).width = tmp.width ∧
    (resizeSrcRow pw src contribs rowcontribs m srcrow tmp).height = tmp.height ∧
    (resizeSrcRow pw src contribs rowcontribs m srcrow tmp).stride = tmp.stride ∧
    (resizeSrcRow pw src contribs rowcontribs m srcrow tmp).data.length = tmp.data.length := by
  refine ⟨rfl, rfl, rfl, ?_⟩
  unfold resizeSrcRow
  simp only
  rw [(columnsLoop_spec pw contribs rowcontribs _ _ _ tmp.width).1, zeroFill_length]

theorem resizeSrcRow_in (pw : Nat) (src : NativeImage) (contribs : List ℚ)
    (rowcontribs : List ContribRange) (m srcrow : Int) (tmp : FloatBuffer) (x p : Nat)
    (hx : x < tmp.width) (hp : p < pw)
    (hlt : (Int.tmod srcrow m).toNat * tmp.stride + x * pw + p < tmp.data.length) :
    (resizeSrcRow pw src contribs rowcontribs m srcrow tmp).data.getD
        ((Int.tmod srcrow m).toNat * tmp.stride + x * pw + p) 0
      = tapSum contribs (rowcontribs.getD x ⟨0, 0, 0⟩) (srcPixel pw src srcrow) p := by
  unfold resizeSrcRow
  simp only
  rw [(columnsLoop_spec pw contribs rowcontribs _ _ _ tmp.width).2.1 x p hx hp
    (by rw [zeroFill_length]; exact hlt), zeroFill_getD]
  have h1 : (x + 1) * pw ≤ tmp.width * pw := Nat.mul_le_mul_right pw hx
  rw [Nat.succ_mul] at h1
  rw [if_pos (by rw [Nat.mul_comm pw tmp.width]; omega), zero_add]
  rfl

theorem resizeSrcRow_out (pw : Nat) (src : NativeImage) (contribs : List ℚ)
    (rowcontribs : List ContribRange) (m srcrow : Int) (tmp : FloatBuffer) (j : Nat)
    (hj : j < (Int.tmod srcrow m).toNat * tmp.stride ∨
      (Int.tmod srcrow m).toNat * tmp.stride + tmp.width * pw ≤ j) :
    (resizeSrcRow pw src contribs rowcontribs m srcrow tmp).data.getD j 0
      = tmp.data.getD j 0 := by
  unfold resizeSrcRow
  simp only
  rw [(columnsLoop_spec pw contribs rowcontribs _ _ _ tmp.width).2.2 j hj, zeroFill_getD,
    if_neg (by rw [Nat.mul_comm pw tmp.width]; omega)]

/-- Invariant rule for the loop `while (srcrow <= needrow)`: the fuel
`needrow + 1 - srcrow` is exactly the number of iterations. -/
theorem resizeSrcRows_inv (pw : Nat) (src : NativeImage) (contribs : List ℚ)
    (rowcontribs : List ContribRange) (m needrow : Int) (I : Int → FloatBuffer → Prop)
    (hstep : ∀ (r : Int) (tmp : FloatBuffer), r ≤ needrow → I r tmp →
      I (r + 1) (resizeSrcRow pw src contribs rowcontribs m r tmp))
    (fuel : Nat) (srcrow : Int) (tmp : FloatBuffer)
    (hfuel : fuel = (needrow + 1 - srcrow).toNat) (h0 : I srcrow tmp) :
    I (resizeSrcRows pw src contribs rowcontribs m needrow fuel srcrow tmp).1
      (resizeSrcRows pw src contribs rowcontribs m needrow fuel srcrow tmp).2 ∧
    (resizeSrcRows pw src contribs rowcontribs m needrow fuel srcrow tmp).1
      = max srcrow (needrow + 1) := by
  induction fuel generalizing srcrow tmp with
  | zero =>
    simp only [resizeSrcRows]
    exact ⟨h0, by rw [max_eq_left (by omega)]⟩
  | succ k ih =>
    have hle : srcrow ≤ needrow := by omega
    simp only [resizeSrcRows, if_pos hle]
    obtain ⟨h1, h2⟩ := ih (srcrow + 1) _ (by omega) (hstep srcrow tmp hle h0)
    refine ⟨h1, ?_⟩
    rw [h2, max_eq_right (by omega), max_eq_right (by omega)]

theorem columnPixel_getD (pw : Nat) (contribs : List ℚ) (r : ContribRange) (m : Int)
    (tmp : FloatBuffer) (x p : Nat) (hp : p < pw) :
    (columnPixel pw contribs r m tmp x).getD p 0
      = tapSum contribs r (tmpPixel pw m tmp x) p := by
  unfold columnPixel
  rw [accumTaps_getD, if_pos (by rw [List.length_replicate]; omega)]
  have : (List.replicate pw (0 : ℚ)).getD p 0 = 0 := by
    rw [List.getD_eq_getElem?_getD, List.getElem?_replicate]
    split <;> rfl
  rw [this, zero_add]
  rfl

theorem setLoop_spec (pw B : Nat) (val : Nat → Int) (d : List Int) :
    ((List.range pw).foldl (fun d (p : Nat) => d.set (B + p) (val p)) d).length = d.length ∧
    (∀ p : Nat, p < pw → B + p < d.length →
      ((List.range pw).foldl (fun d (p : Nat) => d.set (B + p) (val p)) d).getD (B + p) 0
        = val p) ∧
    (∀ j : Nat, (j < B ∨ B + pw ≤ j) →
      ((List.range pw).foldl (fun d (p : Nat) => d.set (B + p) (val p)) d).getD j 0
        = d.getD j 0) := by
  induction pw with
  | zero =>
    refine ⟨rfl, ?_, ?_⟩
    · intro p hp; omega
    · intro j _; rfl
  | succ k ih =>
    obtain ⟨hlen, hin, hout⟩ := ih
    rw [foldl_range_succ]
    refine ⟨by rw [List.length_set, hlen], ?_, ?_⟩
    · intro p hp hlt
      rw [getD_set, hlen]
      by_cases hpk : p = k
      · subst hpk
        rw [if_pos ⟨rfl, hlt⟩]
      · rw [if_neg (by omega), hin p (by omega) hlt]
    · intro j hj
      rw [getD_set, if_neg (by omega), hout j (by omega)]

/-- Pass 2 for one destination row: the samples of the row hold the
quantised column sums, every other sample is unchanged. -/
theorem writeDstRow_spec (pw : Nat) (contribs : List ℚ) (r : ContribRange) (m : Int)
    (tmp : FloatBuffer) (dw ds y : Nat) (d : List Int) :
    (writeDstRow pw contribs r m tmp dw ds y d).length = d.length ∧
    (∀ x p : Nat, x < dw → p < pw → y * ds + x * pw + p < d.length →
      (writeDstRow pw contribs r m tmp dw ds y d).getD (y * ds + x * pw + p) 0
        = quantise (tapSum contribs r (tmpPixel pw m tmp x) p)) ∧
    (∀ j : Nat, (j < y * ds ∨ y * ds + dw * pw ≤ j) →
      (writeDstRow pw contribs r m tmp dw ds y d).getD j 0 = d.getD j 0) := by
  unfold writeDstRow
  simp only
  induction dw with
  | zero =>
    refine ⟨rfl, ?_, ?_⟩
    · intro x p hx; omega
    · intro j _; rfl
  | succ k ih =>
    obtain ⟨hlen, hin, hout⟩ := ih
    rw [foldl_range_succ]
    obtain ⟨slen, sin, sout⟩ := setLoop_spec pw (y * ds + k * pw)
      (fun p => quantise ((columnPixel pw contribs r m tmp k).getD p 0))
      ((List.range k).foldl (fun d (x : Nat) =>
        (List.range pw).foldl (fun d (p : Nat) => d.set (y * ds + x * pw + p)
          (quantise ((columnPixel pw contribs r m tmp x).getD p 0))) d) d)
    have h1 : (k + 1) * pw = k * pw + pw := Nat.succ_mul k pw
    refine ⟨by rw [slen, hlen], ?_, ?_⟩
    · intro x p hx hp hlt
      by_cases hxk : x = k
      · subst hxk
        have := sin p hp (by rw [hlen]; exact hlt)
        rw [this, columnPixel_getD _ _ _ _ _ _ _ hp]
      · have hx' : x < k := by omega
        have h2 : (x + 1) * pw ≤ k * pw := Nat.mul_le_mul_right pw hx'
        rw [Nat.succ_mul] at h2
        rw [sout _ (Or.inl (by omega)), hin x p hx' hp hlt]
    · intro j hj
      rw [sout j (by omega), hout j (by omega)]

/-- Invariant rule for the loop over the destination rows. -/
theorem destRows_inv (pw : Nat) (src : NativeImage) (contribs : List ℚ)
    (rowcontribs columncontribs : List ContribRange) (m : Int) (yscale yfsupport : ℚ)
    (dw ds : Nat) (J : Nat → ℚ → Int → FloatBuffer → List Int → Prop) (H : Nat)
    (hstep : ∀ (y : Nat) (centery : ℚ) (srcrow : Int) (tmp : FloatBuffer) (d : List Int),
      y < H → J y centery srcrow tmp d →
      J (y + 1) (centery + yscale)
        (resizeSrcRows pw src contribs rowcontribs m
          (min ((src.height : Int) - 1) (truncToInt (centery + yfsupport)))
          (min ((src.height : Int) - 1) (truncToInt (centery + yfsupport)) + 1 - srcrow).toNat
          srcrow tmp).1
        (resizeSrcRows pw src contribs rowcontribs m
          (min ((src.height : Int) - 1) (truncToInt (centery + yfsupport)))
          (min ((src.height : Int) - 1) (truncToInt (centery + yfsupport)) + 1 - srcrow).toNat
          srcrow tmp).2
        (writeDstRow pw contribs (columncontribs.getD y ⟨0, 0, 0⟩) m
          (resizeSrcRows pw src contribs rowcontribs m
            (min ((src.height : Int) - 1) (truncToInt (centery + yfsupport)))
            (min ((src.height : Int) - 1) (truncToInt (centery + yfsupport)) + 1 - srcrow).toNat
            srcrow tmp).2 dw ds y d))
    (n y : Nat) (centery : ℚ) (srcrow : Int) (tmp : FloatBuffer) (d : List Int)
    (hn : y + n = H) (h0 : J y centery srcrow tmp d) :
    ∃ c s t, J H c s t
      (destRows pw src contribs rowcontribs columncontribs m yscale yfsupport dw ds
        n y centery srcrow tmp d) := by
  induction n generalizing y centery srcrow tmp d with
  | zero =>
    simp only [destRows]
    have : y = H := by omega
    subst this
    exact ⟨_, _, _, h0⟩
  | succ k ih =>
    simp only [destRows]
    exact ih (y + 1) _ _ _ _ (by omega) (hstep y centery srcrow tmp d (by omega) h0)

theorem storedWeights_eq_map (st : List ℚ) (r : ContribRange)
    (hlen : (storedWeights st r).length = (r.right + 1 - r.left).toNat) :
    storedWeights st r
      = (List.range (r.right + 1 - r.left).toNat).map fun (k : Nat) =>
          st.getD (r.weights + k) 0 := by
  apply List.ext_getElem
  · rw [hlen, List.length_map, List.length_range]
  · intro k h1 h2
    rw [List.getElem_map, List.getElem_range]
    unfold storedWeights
    rw [List.getElem_take, List.getElem_drop, List.getD_eq_getElem?_getD]
    have : r.weights + k < st.length := by
      unfold storedWeights at h1
      rw [List.length_take, List.length_drop] at h1
      omega
    rw [List.getElem?_eq_getElem this]
    rfl

theorem storedWeights_append (st ext : List ℚ) (r : ContribRange)
    (hlen : (storedWeights st r).length = (r.right + 1 - r.left).toNat) :
    storedWeights (st ++ ext) r = storedWeights st r := by
  unfold storedWeights at hlen ⊢
  rw [List.length_take, List.length_drop] at hlen
  by_cases hw : r.weights ≤ st.length
  · rw [List.drop_append_of_le_length hw, List.take_append_of_le_length]
    rw [List.length_drop]; omega
  · have h0 : (r.right + 1 - r.left).toNat = 0 := by omega
    rw [h0, List.take_zero, List.take_zero]

/-- A tap loop whose taps all read the same value `c`, with weights that
sum to `1`, accumulates `c`. -/
theorem tapSum_const (st : List ℚ) (r : ContribRange) (sp : Int → Nat → ℚ) (p : Nat) (c : ℚ)
    (hlen : (storedWeights st r).length = (r.right + 1 - r.left).toNat)
    (hsum : (storedWeights st r).sum = 1)
    (hsp : ∀ k : Nat, k < (r.right + 1 - r.left).toNat → sp (r.left + (k : Int)) p = c) :
    tapSum st r sp p = c := by
  unfold tapSum
  have h1 : ((List.range (r.right + 1 - r.left).toNat).map fun (k : Nat) =>
      st.getD (r.weights + k) 0 * sp (r.left + (k : Int)) p)
      = ((List.range (r.right + 1 - r.left).toNat).map fun (k : Nat) =>
          st.getD (r.weights + k) 0 * c) := by
    apply List.map_congr_left
    intro k hk
    rw [hsp k (List.mem_range.1 hk)]
  rw [h1]
  have h2 : ((List.range (r.right + 1 - r.left).toNat).map fun (k : Nat) =>
      st.getD (r.weights + k) 0 * c)
      = ((List.range (r.right + 1 - r.left).toNat).map fun (k : Nat) =>
          st.getD (r.weights + k) 0).map (fun w => w * c) := by
    rw [List.map_map]; rfl
  rw [h2, List.sum_map_mul_right, List.map_id', ← storedWeights_eq_map st r hlen, hsum, one_mul]

theorem truncToInt_of_nonneg (x : ℚ) (h : 0 ≤ x) : truncToInt x = ⌊x⌋ := by
  unfold truncToInt
  rw [if_pos h]

theorem quantise_range (v : ℚ) : 0 ≤ quantise v ∧ quantise v ≤ 255 := by
  unfold quantise
  split
  · exact ⟨le_refl _, by norm_num⟩
  · split
    · exact ⟨by norm_num, le_refl _⟩
    · rename_i h1 h2
      have h3 : (0 : ℚ) ≤ v + 1 / 2 := by linarith [not_lt.1 h1]
      rw [truncToInt_of_nonneg _ h3]
      refine ⟨Int.floor_nonneg.2 h3, ?_⟩
      have : ⌊v + 1 / 2⌋ < 256 := by
        rw [Int.floor_lt]
        push_cast
        linarith [not_lt.1 h2]
      omega

theorem quantise_intCast (z : Int) (h0 : 0 ≤ z) (h1 : z ≤ 255) : quantise (z : ℚ) = z := by
  unfold quantise
  have a : ¬ ((z : ℚ) < 0) := by
    rw [not_lt]; exact_mod_cast h0
  have b : ¬ ((z : ℚ) > 255) := by
    rw [gt_iff_lt, not_lt]; exact_mod_cast h1
  rw [if_neg a, if_neg b, truncToInt_of_nonneg _ (by linarith [not_lt.1 a])]
  rw [Int.floor_eq_iff]
  constructor <;> norm_num

theorem slot_lt (r m : Int) (hr : 0 ≤ r) (hm : 0 < m) : (Int.tmod r m).toNat < m.toNat := by
  have h1 : Int.tmod r m < m := Int.tmod_lt_of_pos r hm
  have h2 : 0 ≤ Int.tmod r m := Int.tmod_nonneg m hr
  omega

theorem resizeSrcRow_const (pw : Nat) (src : NativeImage) (contribs : List ℚ)
    (rowcontribs : List ContribRange) (m : Int) (dw : Nat) (v : Nat → Int)
    (hm : 0 < m) (hconst : ConstImage pw src v)
    (htab : NormalisedTable contribs rowcontribs dw)
    (hbnd : ∀ x : Nat, x < dw → 0 ≤ (rowcontribs.getD x ⟨0, 0, 0⟩).left ∧
      (rowcontribs.getD x ⟨0, 0, 0⟩).right ≤ (src.width : Int) - 1)
    (lo r : Int) (tmp : FloatBuffer) (hlo : 0 ≤ lo) (hlr : lo ≤ r)
    (hr : r ≤ (src.height : Int) - 1)
    (hshape : BufShape dw pw m tmp) (hrows : RowsHold dw pw m v lo r tmp) :
    BufShape dw pw m (resizeSrcRow pw src contribs rowcontribs m r tmp) ∧
    RowsHold dw pw m v lo (r + 1) (resizeSrcRow pw src contribs rowcontribs m r tmp) := by
  obtain ⟨hw, hs, hl⟩ := hshape
  obtain ⟨fw, _, fs, fl⟩ := resizeSrcRow_fields pw src contribs rowcontribs m r tmp
  refine ⟨⟨by rw [fw, hw], by rw [fs, hs], by rw [fl, hl]⟩, ?_⟩
  intro r' hr1 hr2 x p hx hp
  rw [fs]
  have hslot : ∀ q : Int, 0 ≤ q → (Int.tmod q m).toNat < m.toNat := fun q hq => slot_lt q m hq hm
  have hxp : x * pw + p < dw * pw := by
    have h1 : (x + 1) * pw ≤ dw * pw := Nat.mul_le_mul_right pw hx
    rw [Nat.succ_mul] at h1
    omega
  by_cases hsl : (Int.tmod r' m).toNat = (Int.tmod r m).toNat
  · rw [hsl]
    have hlt : (Int.tmod r m).toNat * tmp.stride + x * pw + p < tmp.data.length := by
      rw [hl, hs]
      have h2 : ((Int.tmod r m).toNat + 1) * (dw * pw) ≤ m.toNat * (dw * pw) :=
        Nat.mul_le_mul_right _ (hslot r (by omega))
      rw [Nat.succ_mul] at h2
      rw [Nat.mul_comm (dw * pw) m.toNat]
      omega
    rw [resizeSrcRow_in pw src contribs rowcontribs m r tmp x p (by rw [hw]; exact hx) hp hlt]
    obtain ⟨tl, ts⟩ := htab x hx
    obtain ⟨b0, b1⟩ := hbnd x hx
    apply tapSum_const contribs _ _ p _ tl ts
    intro k hk
    unfold srcPixel
    rw [hconst r.toNat (by omega) ((rowcontribs.getD x ⟨0, 0, 0⟩).left + (k : Int)).toNat
      (by omega) p hp]
  · have hr' : r' < r := by
      rcases lt_or_eq_of_le (show r' ≤ r by omega) with h | h
      · exact h
      · exact absurd (by rw [h]) hsl
    have hout : (Int.tmod r' m).toNat * tmp.stride + x * pw + p
          < (Int.tmod r m).toNat * tmp.stride ∨
        (Int.tmod r m).toNat * tmp.stride + tmp.width * pw
          ≤ (Int.tmod r' m).toNat * tmp.stride + x * pw + p := by
      rw [hs, hw]
      rcases Nat.lt_or_gt_of_ne hsl with h | h
      · left
        have h2 : ((Int.tmod r' m).toNat + 1) * (dw * pw) ≤ (Int.tmod r m).toNat * (dw * pw) :=
          Nat.mul_le_mul_right _ h
        rw [Nat.succ_mul] at h2
        omega
      · right
        have h2 : ((Int.tmod r m).toNat + 1) * (dw * pw) ≤ (Int.tmod r' m).toNat * (dw * pw) :=
          Nat.mul_le_mul_right _ h
        rw [Nat.succ_mul] at h2
        omega
    rw [resizeSrcRow_out pw src contribs rowcontribs m r tmp _ hout]
    exact hrows r' hr1 hr' x p hx hp

theorem makeContribs_entryTotal_pos (ranges : List ContribRange) (filter : Filter) (scale : ℚ)
    (storage : List ℚ) (size : Int) (rs : List ContribRange) (st : List ℚ)
    (h : makeContribs ranges filter scale storage size = some (rs, st)) (i : Nat)
    (hi : i < ranges.length) : 0 < entryTotal filter scale size i := by
  have : (makeContribs ranges filter scale storage size).isSome := by rw [h]; rfl
  exact (makeContribs_isSome _ _ _ _ _).1 this i hi

theorem makeContribs_normalised (ranges : List ContribRange) (filter : Filter) (scale : ℚ)
    (storage : List ℚ) (size : Int) (rs : List ContribRange) (st : List ℚ)
    (h : makeContribs ranges filter scale storage size = some (rs, st)) :
    NormalisedTable st rs ranges.length := by
  intro i hi
  obtain ⟨_, _, _, hent⟩ := makeContribs_spec _ _ _ _ _ rs st h
  obtain ⟨hl, hr, _, hsw⟩ := hent i hi
  rw [hsw, hl, hr]
  exact ⟨entryNorm_length _ _ _ _,
    entryNorm_sum _ _ _ _ (makeContribs_entryTotal_pos _ _ _ _ _ rs st h i hi)⟩

theorem NormalisedTable.append {st : List ℚ} {rs : List ContribRange} {n : Nat}
    (h : NormalisedTable st rs n) (ext : List ℚ) : NormalisedTable (st ++ ext) rs n := by
  intro i hi
  obtain ⟨h1, h2⟩ := h i hi
  rw [storedWeights_append st ext _ h1]
  exact ⟨h1, h2⟩

theorem centerAt_succ (scale : ℚ) (i : Nat) :
    centerAt scale i + scale = centerAt scale (i + 1) := by
  unfold centerAt; push_cast; ring

theorem centerAt_mono (scale : ℚ) (hs : 0 ≤ scale) (i : Nat) :
    centerAt scale 0 ≤ centerAt scale i := by
  unfold centerAt
  have : (0 : ℚ) ≤ (i : ℚ) * scale := mul_nonneg (Nat.cast_nonneg i) hs
  simp only [Nat.cast_zero, zero_mul, add_zero]
  linarith

theorem entryInitLeft_mono (filter : Filter) (scale : ℚ) (hs : 0 ≤ scale) (i : Nat) :
    entryInitLeft filter scale 0 ≤ entryInitLeft filter scale i := by
  unfold entryInitLeft
  rw [initLeft_eq, initLeft_eq]
  apply max_le_max (le_refl _)
  apply Int.ceil_le_ceil
  linarith [centerAt_mono scale hs i]

theorem entryInitLeft_nonneg (filter : Filter) (scale : ℚ) (i : Nat) :
    0 ≤ entryInitLeft filter scale i := by
  unfold entryInitLeft
  rw [initLeft_eq]
  exact le_max_left _ _

/-- `needrow` of destination row `y` is the untrimmed `right` of the column entry `y`. -/
theorem needrow_eq (filter : Filter) (scale : ℚ) (hs : 0 < scale) (hsup : 0 < filter.support)
    (size : Int) (y : Nat) :
    min (size - 1) (truncToInt (centerAt scale y + fsupportOf filter scale))
      = entryInitRight filter scale size y := by
  unfold entryInitRight
  rw [initRight_eq, truncToInt_of_nonneg]
  have := centerAt_pos scale hs y
  have := fsupportOf_ge_one filter scale hsup
  linarith

theorem maxycontrib_pos (filter : Filter) (scale : ℚ) (hsup : 0 < filter.support) :
    0 < truncToInt (((⌈2 * fsupportOf filter scale⌉ : Int)) : ℚ) := by
  rw [truncToInt_intCast, Int.ceil_pos]
  linarith [fsupportOf_ge_one filter scale hsup]

/-- The loop over the destination rows on a constant source image. -/
theorem destRows_const (pw : Nat) (src : NativeImage) (contribs : List ℚ)
    (rowcontribs columncontribs : List ContribRange) (m : Int) (yscale yfsupport : ℚ)
    (dw ds dh : Nat) (v : Nat → Int) (lo : Int)
    (hm : 0 < m) (hconst : ConstImage pw src v)
    (hrow : NormalisedTable contribs rowcontribs dw)
    (hrowb : ∀ x : Nat, x < dw → 0 ≤ (rowcontribs.getD x ⟨0, 0, 0⟩).left ∧
      (rowcontribs.getD x ⟨0, 0, 0⟩).right ≤ (src.width : Int) - 1)
    (hcol : NormalisedTable contribs columncontribs dh)
    (hcolb : ∀ y : Nat, y < dh → lo ≤ (columncontribs.getD y ⟨0, 0, 0⟩).left ∧
      (columncontribs.getD y ⟨0, 0, 0⟩).right
        ≤ min ((src.height : Int) - 1) (truncToInt (centerAt yscale y + yfsupport)))
    (hlo : 0 ≤ lo) (hv : ∀ p : Nat, p < pw → 0 ≤ v p ∧ v p ≤ 255)
    (hstride : dw * pw ≤ ds) (d0 : List Int) (hdata : dh * ds ≤ d0.length)
    (tmp0 : FloatBuffer) (hshape : BufShape dw pw m tmp0) :
    ∀ y : Nat, y < dh → ∀ x : Nat, x < dw → ∀ p : Nat, p < pw →
      (destRows pw src contribs rowcontribs columncontribs m yscale yfsupport dw ds
        dh 0 (centerAt yscale 0) lo tmp0 d0).getD (y * ds + x * pw + p) 0 = v p := by
  have key := destRows_inv pw src contribs rowcontribs columncontribs m yscale yfsupport dw ds
    (fun y centery srcrow tmp d =>
      centery = centerAt yscale y ∧ BufShape dw pw m tmp ∧ lo ≤ srcrow ∧
      RowsHold dw pw m v lo srcrow tmp ∧ d.length = d0.length ∧
      ∀ y' : Nat, y' < y → ∀ x : Nat, x < dw → ∀ p : Nat, p < pw →
        d.getD (y' * ds + x * pw + p) 0 = v p) dh ?step dh 0 (centerAt yscale 0) lo tmp0 d0
    (by omega) ⟨rfl, hshape, le_refl _, ?init, rfl, ?init2⟩
  case init =>
    intro r h1 h2; omega
  case init2 =>
    intro y' h; omega
  case step =>
    intro y centery srcrow tmp d hy ⟨hc, hsh, hls, hrows, hlen, hd⟩
    subst hc
    obtain ⟨⟨hsh', hls', hrows'⟩, hmax⟩ := resizeSrcRows_inv pw src contribs rowcontribs m
      (min ((src.height : Int) - 1) (truncToInt (centerAt yscale y + yfsupport)))
      (fun r t => BufShape dw pw m t ∧ lo ≤ r ∧ RowsHold dw pw m v lo r t)
      (by
        intro r t hr ⟨h1, h2, h3⟩
        have hr' : r ≤ (src.height : Int) - 1 := le_trans hr (min_le_left _ _)
        obtain ⟨a, b⟩ := resizeSrcRow_const pw src contribs rowcontribs m dw v hm hconst hrow
          hrowb lo r t hlo h2 hr' h1 h3
        exact ⟨a, by omega, b⟩)
      _ srcrow tmp rfl ⟨hsh, hls, hrows⟩
    obtain ⟨wlen, win, wout⟩ := writeDstRow_spec pw contribs
      (columncontribs.getD y ⟨0, 0, 0⟩) m
      (resizeSrcRows pw src contribs rowcontribs m
        (min ((src.height : Int) - 1) (truncToInt (centerAt yscale y + yfsupport)))
        (min ((src.height : Int) - 1) (truncToInt (centerAt yscale y + yfsupport)) + 1
          - srcrow).toNat srcrow tmp).2 dw ds y d
    refine ⟨centerAt_succ yscale y, hsh', hls', hrows', by rw [wlen, hlen], ?_⟩
    intro y' hy' x hx p hp
    have hxp : x * pw + p < dw * pw := by
      have h1 : (x + 1) * pw ≤ dw * pw := Nat.mul_le_mul_right pw hx
      rw [Nat.succ_mul] at h1
      omega
    by_cases hyy : y' = y
    · subst hyy
      have hin : y' * ds + x * pw + p < d.length := by
        rw [hlen]
        have h1 : (y' + 1) * ds ≤ dh * ds := Nat.mul_le_mul_right ds hy
        rw [Nat.succ_mul] at h1
        omega
      rw [win x p hx hp hin]
      obtain ⟨tl, ts⟩ := hcol y' hy
      obtain ⟨b0, b1⟩ := hcolb y' hy
      have hts : tapSum contribs (columncontribs.getD y' ⟨0, 0, 0⟩)
          (tmpPixel pw m
            (resizeSrcRows pw src contribs rowcontribs m
              (min ((src.height : Int) - 1) (truncToInt (centerAt yscale y' + yfsupport)))
              (min ((src.height : Int) - 1) (truncToInt (centerAt yscale y' + yfsupport)) + 1
                - srcrow).toNat srcrow tmp).2 x) p = ((v p : Int) : ℚ) := by
        apply tapSum_const contribs _ _ p _ tl ts
        intro k hk
        unfold tmpPixel
        apply hrows' _ (by omega) _ x p hx hp
        rw [hmax]
        have : (columncontribs.getD y' ⟨0, 0, 0⟩).left + (k : Int)
            ≤ (columncontribs.getD y' ⟨0, 0, 0⟩).right := by omega
        exact lt_of_le_of_lt (le_trans this b1) (lt_of_lt_of_le (by omega) (le_max_right _ _))
      rw [hts]
      exact quantise_intCast _ (hv p hp).1 (hv p hp).2
    · have hlt : y' < y := by omega
      have h1 : (y' + 1) * ds ≤ y * ds := Nat.mul_le_mul_right ds hlt
      rw [Nat.succ_mul] at h1
      rw [wout _ (Or.inl (by omega))]
      exact hd y' hlt x hx p hp
  obtain ⟨c, s, t, _, _, _, _, _, hfin⟩ := key
  exact hfin

theorem centerAt_zero (scale : ℚ) : centerAt scale 0 = (1 / 2 : ℚ) * scale := by
  simp [centerAt]

/-- `resizeImagePixel` once the formats agree and both tables are built. -/
theorem resizeImagePixel_eq (Pixel : PixelMode) (src dst : NativeImage) (filter : Filter)
    (hsp : src.pixel = Pixel) (hdp : dst.pixel = Pixel)
    (rs cs : List ContribRange) (st₁ st : List ℚ)
    (h1 : makeContribs (List.replicate dst.width ⟨0, 0, 0⟩) filter
      ((src.width : ℚ) / (dst.width : ℚ)) [] (src.width : Int) = some (rs, st₁))
    (h2 : makeContribs (List.replicate dst.height ⟨0, 0, 0⟩) filter
      ((src.height : ℚ) / (dst.height : ℚ)) st₁ (src.height : Int) = some (cs, st)) :
    resizeImagePixel Pixel src dst filter = some { dst with
      data := destRows (PixelWidth Pixel) src st rs cs
        (truncToInt
          ((⌈2 * fsupportOf filter ((src.height : ℚ) / (dst.height : ℚ))⌉ : Int) : ℚ))
        ((src.height : ℚ) / (dst.height : ℚ))
        (fsupportOf filter ((src.height : ℚ) / (dst.height : ℚ)))
        dst.width dst.stride dst.height 0
        (centerAt ((src.height : ℚ) / (dst.height : ℚ)) 0)
        (entryInitLeft filter ((src.height : ℚ) / (dst.height : ℚ)) 0)
        (FloatBuffer.new dst.width
          (truncToInt
            ((⌈2 * fsupportOf filter ((src.height : ℚ) / (dst.height : ℚ))⌉ : Int) : ℚ)).toNat
          (PixelWidth Pixel))
        dst.data } := by
  unfold resizeImagePixel
  rw [if_pos ⟨hsp, hdp⟩]
  simp only [h1, h2, entryInitLeft, initLeft, fsupportOf, fscaleOf, centerAt_zero]

theorem resizeImagePixel_isSome (Pixel : PixelMode) (src dst : NativeImage) (filter : Filter) :
    (resizeImagePixel Pixel src dst filter).isSome ↔
      (src.pixel = Pixel ∧ dst.pixel = Pixel) ∧
      (∀ i : Nat, i < dst.width →
        0 < entryTotal filter ((src.width : ℚ) / (dst.width : ℚ)) (src.width : Int) i) ∧
      (∀ i : Nat, i < dst.height →
        0 < entryTotal filter ((src.height : ℚ) / (dst.height : ℚ)) (src.height : Int) i) := by
  constructor
  · intro h
    unfold resizeImagePixel at h
    split at h
    · rename_i hp
      refine ⟨hp, ?_⟩
      simp only at h
      split at h
      · simp at h
      · rename_i rs st₁ h1
        split at h
        · simp at h
        · rename_i cs st h2
          constructor
          · intro i hi
            exact makeContribs_entryTotal_pos _ _ _ _ _ rs st₁ h1 i (by simpa using hi)
          · intro i hi
            exact makeContribs_entryTotal_pos _ _ _ _ _ cs st h2 i (by simpa using hi)
    · simp at h
  · intro ⟨⟨hsp, hdp⟩, hx, hy⟩
    have s1 : (makeContribs (List.replicate dst.width ⟨0, 0, 0⟩) filter
        ((src.width : ℚ) / (dst.width : ℚ)) [] (src.width : Int)).isSome := by
      rw [makeContribs_isSome]; simpa using hx
    obtain ⟨⟨rs, st₁⟩, h1⟩ := Option.isSome_iff_exists.1 s1
    have s2 : (makeContribs (List.replicate dst.height ⟨0, 0, 0⟩) filter
        ((src.height : ℚ) / (dst.height : ℚ)) st₁ (src.height : Int)).isSome := by
      rw [makeContribs_isSome]; simpa using hy
    obtain ⟨⟨cs, st⟩, h2⟩ := Option.isSome_iff_exists.1 s2
    rw [resizeImagePixel_eq Pixel src dst filter hsp hdp rs cs st₁ st h1 h2]
    rfl

/-- The loop over the destination rows leaves every sample of the rows it
has written in `[0,255]`. -/
theorem destRows_range (pw : Nat) (src : NativeImage) (contribs : List ℚ)
    (rowcontribs columncontribs : List ContribRange) (m : Int) (yscale yfsupport : ℚ)
    (dw ds dh : Nat) (centery : ℚ) (srcrow : Int) (tmp0 : FloatBuffer) (d0 : List Int) :
    ∀ y : Nat, y < dh → ∀ x : Nat, x < dw → ∀ p : Nat, p < pw →
      0 ≤ (destRows pw src contribs rowcontribs columncontribs m yscale yfsupport dw ds
        dh 0 centery srcrow tmp0 d0).getD (y * ds + x * pw + p) 0 ∧
      (destRows pw src contribs rowcontribs columncontribs m yscale yfsupport dw ds
        dh 0 centery srcrow tmp0 d0).getD (y * ds + x * pw + p) 0 ≤ 255 := by
  have key := destRows_inv pw src contribs rowcontribs columncontribs m yscale yfsupport dw ds
    (fun y _ _ _ d =>
      ∀ y' : Nat, y' < y → ∀ x : Nat, x < dw → ∀ p : Nat, p < pw →
        0 ≤ d.getD (y' * ds + x * pw + p) 0 ∧ d.getD (y' * ds + x * pw + p) 0 ≤ 255)
    dh ?step dh 0 centery srcrow tmp0 d0 (by omega) ?init
  case init =>
    intro y' h; omega
  case step =>
    intro y centery srcrow tmp d _ hd
    obtain ⟨wlen, win, wout⟩ := writeDstRow_spec pw contribs
      (columncontribs.getD y ⟨0, 0, 0⟩) m
      (resizeSrcRows pw src contribs rowcontribs m
        (min ((src.height : Int) - 1) (truncToInt (centery + yfsupport)))
        (min ((src.height : Int) - 1) (truncToInt (centery + yfsupport)) + 1
          - srcrow).toNat srcrow tmp).2 dw ds y d
    have hwritten : ∀ x : Nat, x < dw → ∀ p : Nat, p < pw →
        0 ≤ (writeDstRow pw contribs (columncontribs.getD y ⟨0, 0, 0⟩) m
          (resizeSrcRows pw src contribs rowcontribs m
            (min ((src.height : Int) - 1) (truncToInt (centery + yfsupport)))
            (min ((src.height : Int) - 1) (truncToInt (centery + yfsupport)) + 1
              - srcrow).toNat srcrow tmp).2 dw ds y d).getD (y * ds + x * pw + p) 0 ∧
        (writeDstRow pw contribs (columncontribs.getD y ⟨0, 0, 0⟩) m
          (resizeSrcRows pw src contribs rowcontribs m
            (min ((src.height : Int) - 1) (truncToInt (centery + yfsupport)))
            (min ((src.height : Int) - 1) (truncToInt (centery + yfsupport)) + 1
              - srcrow).toNat srcrow tmp).2 dw ds y d).getD (y * ds + x * pw + p) 0 ≤ 255 := by
      intro x hx p hp
      by_cases hin : y * ds + x * pw + p < d.length
      · rw [win x p hx hp hin]
        exact quantise_range _
      · rw [List.getD_eq_default _ _ (by rw [wlen]; omega)]
        exact ⟨le_refl _, by norm_num⟩
    intro y' hy' x hx p hp
    by_cases hyy : y' = y
    · subst hyy
      exact hwritten x hx p hp
    · by_cases hrange : y' * ds + x * pw + p < y * ds ∨ y * ds + dw * pw ≤ y' * ds + x * pw + p
      · rw [wout _ hrange]
        exact hd y' (by omega) x hx p hp
      · have hpw : 0 < pw := by omega
        have h1 : y * ds ≤ y' * ds + x * pw + p := by omega
        have h2 : y' * ds + x * pw + p - y * ds < dw * pw := by omega
        have h3 : (y' * ds + x * pw + p - y * ds) / pw < dw :=
          (Nat.div_lt_iff_lt_mul hpw).2 h2
        have h4 : (y' * ds + x * pw + p - y * ds) % pw < pw := Nat.mod_lt _ hpw
        have h5 : y' * ds + x * pw + p
            = y * ds + (y' * ds + x * pw + p - y * ds) / pw * pw
              + (y' * ds + x * pw + p - y * ds) % pw := by
          have := Nat.div_add_mod (y' * ds + x * pw + p - y * ds) pw
          rw [Nat.mul_comm] at this
          omega
        rw [h5]
        exact hwritten _ h3 _ h4
  obtain ⟨c, s, t, hfin⟩ := key
  exact hfin

/-! ## Constant images, the range of the samples and the quantisation -/

/-- Each kernel of the rational embedding, scaled by a positive filter
width, has a positive support radius. -/
theorem scaled_support_pos (F : Filter)
    (hF : F ∈ [BoxFilter, TriangleFilter, CubicFilter, CatmulRomFilter, MitchelFilter])
    (s : ℚ) (hs : 0 < s) : 0 < (ScaledFilter F s).support := by
  have h : 0 < F.support := by
    simp only [List.mem_cons, List.mem_singleton, List.not_mem_nil, or_false] at hF
    rcases hF with h | h | h | h | h <;> subst h <;>
      norm_num [BoxFilter, TriangleFilter, CubicFilter, CatmulRomFilter, MitchelFilter,
        MitchelFamilyFilter]
  exact mul_pos hs h

/-- C4: constant images are preserved. For every pixel format (1 to 4
channels), every kernel with a positive support radius, and all positive
source and destination sizes (the destination may be smaller than the source
or not), if every source pixel is the same per-channel value `v p`, an
integer in `[0,255]`, and the contribution assertion holds for every entry
of both tables (every `totalweight` is positive), then `resizeImagePixel`
returns a destination image and every sample of channel `p` written to it
equals `v p`. The destination is a well-formed image: rows do not overlap
and the sample buffer holds `height` rows. -/
theorem constant_image_preserved (Pixel : PixelMode) (filter : Filter) (src dst : NativeImage)
    (v : Nat → Int) (hsp : src.pixel = Pixel) (hdp : dst.pixel = Pixel)
    (hsup : 0 < filter.support)
    (hsw : 0 < src.width) (hsh : 0 < src.height) (hdw : 0 < dst.width) (hdh : 0 < dst.height)
    (hstride : dst.width * PixelWidth Pixel ≤ dst.stride)
    (hdata : dst.height * dst.stride ≤ dst.data.length)
    (hv : ∀ p : Nat, p < PixelWidth Pixel → 0 ≤ v p ∧ v p ≤ 255)
    (hconst : ConstImage (PixelWidth Pixel) src v)
    (hx : ∀ i : Nat, i < dst.width →
      0 < entryTotal filter ((src.width : ℚ) / (dst.width : ℚ)) (src.width : Int) i)
    (hy : ∀ i : Nat, i < dst.height →
      0 < entryTotal filter ((src.height : ℚ) / (dst.height : ℚ)) (src.height : Int) i) :
    ∃ out, resizeImagePixel Pixel src dst filter = some out ∧
      ∀ y : Nat, y < dst.height → ∀ x : Nat, x < dst.width → ∀ p : Nat, p < PixelWidth Pixel →
        out.rowAt y (x * PixelWidth Pixel + p) = v p := by
  have s1 : (makeContribs (List.replicate dst.width ⟨0, 0, 0⟩) filter
      ((src.width : ℚ) / (dst.width : ℚ)) [] (src.width : Int)).isSome := by
    rw [makeContribs_isSome]; simpa using hx
  obtain ⟨⟨rs, st₁⟩, h1⟩ := Option.isSome_iff_exists.1 s1
  have s2 : (makeContribs (List.replicate dst.height ⟨0, 0, 0⟩) filter
      ((src.height : ℚ) / (dst.height : ℚ)) st₁ (src.height : Int)).isSome := by
    rw [makeContribs_isSome]; simpa using hy
  obtain ⟨⟨cs, st⟩, h2⟩ := Option.isSome_iff_exists.1 s2
  refine ⟨_, resizeImagePixel_eq Pixel src dst filter hsp hdp rs cs st₁ st h1 h2, ?_⟩
  obtain ⟨_, _, _, hent1⟩ := makeContribs_spec _ _ _ _ _ rs st₁ h1
  obtain ⟨_, ⟨ext, hext⟩, _, hent2⟩ := makeContribs_spec _ _ _ _ _ cs st h2
  have hrow : NormalisedTable st rs dst.width := by
    have := (makeContribs_normalised _ _ _ _ _ rs st₁ h1).append ext
    rw [← hext, List.length_replicate] at this
    exact this
  have hcol : NormalisedTable st cs dst.height := by
    have := makeContribs_normalised _ _ _ _ _ cs st h2
    rw [List.length_replicate] at this
    exact this
  have hscale : (0 : ℚ) < (src.height : ℚ) / (dst.height : ℚ) :=
    div_pos (by exact_mod_cast hsh) (by exact_mod_cast hdh)
  have hrowb : ∀ x : Nat, x < dst.width → 0 ≤ (rs.getD x ⟨0, 0, 0⟩).left ∧
      (rs.getD x ⟨0, 0, 0⟩).right ≤ (src.width : Int) - 1 := by
    intro x hxw
    obtain ⟨hl, hr, _, _⟩ := hent1 x (by rw [List.length_replicate]; exact hxw)
    obtain ⟨b0, _, b2⟩ := entry_bounds filter src.width dst.width hsw hdw hsup x hxw
    rw [hl, hr]
    exact ⟨b0, b2⟩
  have hcolb : ∀ y : Nat, y < dst.height →
      entryInitLeft filter ((src.height : ℚ) / (dst.height : ℚ)) 0
        ≤ (cs.getD y ⟨0, 0, 0⟩).left ∧
      (cs.getD y ⟨0, 0, 0⟩).right
        ≤ min ((src.height : Int) - 1)
          (truncToInt (centerAt ((src.height : ℚ) / (dst.height : ℚ)) y
            + fsupportOf filter ((src.height : ℚ) / (dst.height : ℚ)))) := by
    intro y hyh
    obtain ⟨hl, hr, _, _⟩ := hent2 y (by rw [List.length_replicate]; exact hyh)
    rw [hl, hr, needrow_eq filter _ hscale hsup]
    exact ⟨le_trans (entryInitLeft_mono filter _ (le_of_lt hscale) y) (finalLeft_ge _ _ _ _ _),
      finalRight_le _ _ _ _ _⟩
  intro y hyh x hxw p hp
  have := destRows_const (PixelWidth Pixel) src st rs cs _ _ _ dst.width dst.stride dst.height v
    (entryInitLeft filter ((src.height : ℚ) / (dst.height : ℚ)) 0)
    (maxycontrib_pos filter ((src.height : ℚ) / (dst.height : ℚ)) hsup) hconst hrow hrowb hcol
    hcolb (entryInitLeft_nonneg _ _ _) hv hstride dst.data hdata
    (FloatBuffer.new dst.width
      (truncToInt
        ((⌈2 * fsupportOf filter ((src.height : ℚ) / (dst.height : ℚ))⌉ : Int) : ℚ)).toNat
      (PixelWidth Pixel))
    ⟨rfl, rfl, by simp [FloatBuffer.new]⟩ y hyh x hxw p hp
  unfold NativeImage.rowAt
  simp only
  rw [← Nat.add_assoc]
  exact this

/-- Witness of C4: the `4 × 4` RGB image of constant colour `(200,100,50)`
resized to `2 × 2` with the Triangle kernel gives four pixels `(200,100,50)`. -/
theorem constant_image_preserved_witness :
    ∃ out, resizeImagePixel .RGB_PIXEL
        (mkImage .RGB_PIXEL 4 4 fun _ _ p => [200, 100, 50].getD p 0)
        (mkImage .RGB_PIXEL 2 2 fun _ _ _ => 0) (ScaledFilter TriangleFilter 1) = some out ∧
      ∀ y : Nat, y < (mkImage .RGB_PIXEL 2 2 fun _ _ _ => 0).height →
        ∀ x : Nat, x < (mkImage .RGB_PIXEL 2 2 fun _ _ _ => 0).width →
          ∀ p : Nat, p < PixelWidth .RGB_PIXEL →
            out.rowAt y (x * PixelWidth .RGB_PIXEL + p) = [200, 100, 50].getD p 0 :=
  constant_image_preserved .RGB_PIXEL (ScaledFilter TriangleFilter 1)
    (mkImage .RGB_PIXEL 4 4 fun _ _ p => [200, 100, 50].getD p 0)
    (mkImage .RGB_PIXEL 2 2 fun _ _ _ => 0) (fun p => [200, 100, 50].getD p 0)
    rfl rfl (by decide!) (by decide) (by decide) (by decide) (by decide) (by decide)
    (by decide) (by decide) (by unfold ConstImage; decide!) (by decide!) (by decide!)

/-- C6: every destination sample written by `resizeImagePixel` lies in
`[0,255]`: the quantisation maps every accumulated value, whatever its sign
or magnitude, into `[0,255]`, and in the image returned for any source
image, destination size, pixel format and kernel, every sample of every
destination row is such a value. -/
theorem resizeImagePixel_samples_in_range (Pixel : PixelMode) (filter : Filter)
    (src dst out : NativeImage) (h : resizeImagePixel Pixel src dst filter = some out) :
    (∀ a : ℚ, 0 ≤ quantise a ∧ quantise a ≤ 255) ∧
    ∀ y : Nat, y < dst.height → ∀ x : Nat, x < dst.width → ∀ p : Nat, p < PixelWidth Pixel →
      0 ≤ out.rowAt y (x * PixelWidth Pixel + p) ∧
      out.rowAt y (x * PixelWidth Pixel + p) ≤ 255 := by
  refine ⟨quantise_range, ?_⟩
  have hsome : (resizeImagePixel Pixel src dst filter).isSome := by rw [h]; rfl
  obtain ⟨⟨hsp, hdp⟩, hx, hy⟩ := (resizeImagePixel_isSome Pixel src dst filter).1 hsome
  have s1 : (makeContribs (List.replicate dst.width ⟨0, 0, 0⟩) filter
      ((src.width : ℚ) / (dst.width : ℚ)) [] (src.width : Int)).isSome := by
    rw [makeContribs_isSome]; simpa using hx
  obtain ⟨⟨rs, st₁⟩, h1⟩ := Option.isSome_iff_exists.1 s1
  have s2 : (makeContribs (List.replicate dst.height ⟨0, 0, 0⟩) filter
      ((src.height : ℚ) / (dst.height : ℚ)) st₁ (src.height : Int)).isSome := by
    rw [makeContribs_isSome]; simpa using hy
  obtain ⟨⟨cs, st⟩, h2⟩ := Option.isSome_iff_exists.1 s2
  rw [resizeImagePixel_eq Pixel src dst filter hsp hdp rs cs st₁ st h1 h2] at h
  have hout := (Option.some.inj h).symm
  subst hout
  intro y hyh x hxw p hp
  unfold NativeImage.rowAt
  simp only
  rw [← Nat.add_assoc]
  exact destRows_range (PixelWidth Pixel) src st rs cs _ _ _ dst.width dst.stride dst.height _ _
    _ dst.data y hyh x hxw p hp

/-- Witness of C6: the `2 × 1` grey image `[0, 100]` resized to its own
dimensions with the Box kernel. -/
theorem resizeImagePixel_samples_in_range_witness :
    (∀ a : ℚ, 0 ≤ quantise a ∧ quantise a ≤ 255) ∧
    ∀ y : Nat, y < (mkImage .GREY_PIXEL 2 1 fun _ _ _ => 0).height →
      ∀ x : Nat, x < (mkImage .GREY_PIXEL 2 1 fun _ _ _ => 0).width →
        ∀ p : Nat, p < PixelWidth .GREY_PIXEL →
          0 ≤ (⟨.GREY_PIXEL, 2, 1, 2, [50, 100]⟩ : NativeImage).rowAt y
            (x * PixelWidth .GREY_PIXEL + p) ∧
          (⟨.GREY_PIXEL, 2, 1, 2, [50, 100]⟩ : NativeImage).rowAt y
            (x * PixelWidth .GREY_PIXEL + p) ≤ 255 :=
  resizeImagePixel_samples_in_range .GREY_PIXEL (ScaledFilter BoxFilter 1)
    (mkImage .GREY_PIXEL 2 1 fun _ x _ => 100 * (x : Int))
    (mkImage .GREY_PIXEL 2 1 fun _ _ _ => 0) ⟨.GREY_PIXEL, 2, 1, 2, [50, 100]⟩ (by decide!)

/-- Counterexample to C5 as stated: resizing the `10 × 10` image of
alternating all-`0` and all-`255` rows to `5 × 5` with the Box kernel at
width 1.0 gives `85` in the destination rows `0` to `3`, which is neither
`127` nor `128`, and entry `0` of the contribution table has three taps of
weight `1/3`, not two taps of weight `1/2`. -/
theorem stripes_counterexample :
    resizeImagePixel .GREY_PIXEL (stripes 0) (mkImage .GREY_PIXEL 5 5 fun _ _ _ => 0)
        (ScaledFilter BoxFilter 1)
      = some (mkImage .GREY_PIXEL 5 5 fun y _ _ => if y < 4 then 85 else 128) ∧
    ¬ (∀ y : Nat, y < 5 → ∀ x : Nat, x < 5 →
        (mkImage .GREY_PIXEL 5 5 fun y _ _ => if y < 4 then 85 else 128).rowAt y x = 127 ∨
        (mkImage .GREY_PIXEL 5 5 fun y _ _ => if y < 4 then 85 else 128).rowAt y x = 128) ∧
    ¬ (∀ rs st, makeContribs (List.replicate 5 ⟨0, 0, 0⟩) (ScaledFilter BoxFilter 1)
          (((10 : Nat) : ℚ) / ((5 : Nat) : ℚ)) [] ((10 : Nat) : Int) = some (rs, st) →
        ∀ y : Nat, y < 5 → storedWeights st (rs.getD y ⟨0, 0, 0⟩) = [1 / 2, 1 / 2]) := by
  refine ⟨by decide!, by decide!, ?_⟩
  intro h
  have h0 := h [⟨0, 2, 0⟩, ⟨2, 4, 3⟩, ⟨4, 6, 6⟩, ⟨6, 8, 9⟩, ⟨8, 9, 12⟩]
    [1 / 3, 1 / 3, 1 / 3, 1 / 3, 1 / 3, 1 / 3, 1 / 3, 1 / 3, 1 / 3, 1 / 3, 1 / 3, 1 / 3,
      1 / 2, 1 / 2] (by decide!) 0 (by decide)
  exact absurd h0 (by decide!)

/-- C5 (amended): for `10 → 5` samples the Box kernel at width 1.0 gives the
contribution ranges `[2y, 2y + 2]` with three weights `1/3` for the entries
`y < 4` and the range `[8, 9]` with two weights `1/2` for the last entry, in
the row table and (behind it in the store) in the column table; and
resizing the `10 × 10` single-channel image of alternating all-`0` and
all-`255` rows to `5 × 5` yields `85` in every sample of the destination
rows `0` to `3` when row `0` is all-`0` (`170` when row `0` is all-`255`)
and `128` in every sample of the destination row `4`. -/
theorem stripes_resized :
    makeContribs (List.replicate 5 ⟨0, 0, 0⟩) (ScaledFilter BoxFilter 1)
        (((10 : Nat) : ℚ) / ((5 : Nat) : ℚ)) [] ((10 : Nat) : Int)
      = some ([⟨0, 2, 0⟩, ⟨2, 4, 3⟩, ⟨4, 6, 6⟩, ⟨6, 8, 9⟩, ⟨8, 9, 12⟩],
          [1 / 3, 1 / 3, 1 / 3, 1 / 3, 1 / 3, 1 / 3, 1 / 3, 1 / 3, 1 / 3, 1 / 3, 1 / 3, 1 / 3,
            1 / 2, 1 / 2]) ∧
    makeContribs (List.replicate 5 ⟨0, 0, 0⟩) (ScaledFilter BoxFilter 1)
        (((10 : Nat) : ℚ) / ((5 : Nat) : ℚ))
        [1 / 3, 1 / 3, 1 / 3, 1 / 3, 1 / 3, 1 / 3, 1 / 3, 1 / 3, 1 / 3, 1 / 3, 1 / 3, 1 / 3,
          1 / 2, 1 / 2] ((10 : Nat) : Int)
      = some ([⟨0, 2, 14⟩, ⟨2, 4, 17⟩, ⟨4, 6, 20⟩, ⟨6, 8, 23⟩, ⟨8, 9, 26⟩],
          [1 / 3, 1 / 3, 1 / 3, 1 / 3, 1 / 3, 1 / 3, 1 / 3, 1 / 3, 1 / 3, 1 / 3, 1 / 3, 1 / 3,
            1 / 2, 1 / 2,
            1 / 3, 1 / 3, 1 / 3, 1 / 3, 1 / 3, 1 / 3, 1 / 3, 1 / 3, 1 / 3, 1 / 3, 1 / 3, 1 / 3,
            1 / 2, 1 / 2]) ∧
    resizeImagePixel .GREY_PIXEL (stripes 0) (mkImage .GREY_PIXEL 5 5 fun _ _ _ => 0)
        (ScaledFilter BoxFilter 1)
      = some (mkImage .GREY_PIXEL 5 5 fun y _ _ => if y < 4 then 85 else 128) ∧
    resizeImagePixel .GREY_PIXEL (stripes 255) (mkImage .GREY_PIXEL 5 5 fun _ _ _ => 0)
        (ScaledFilter BoxFilter 1)
      = some (mkImage .GREY_PIXEL 5 5 fun y _ _ => if y < 4 then 170 else 128) := by
  refine ⟨by decide!, by decide!, by decide!, by decide!⟩

/-! ## Kernels outside their support, options and entry points -/

/-- Counterexample to C8 as stated: the Box kernel evaluates to `1`, not
`0`, at the offset `1`, which is beyond its support radius `1/2`; likewise
Triangle is `-1` at offset `2`, Cubic is `1` at offset `3`, Catmull-Rom is
`-1` and the Mitchell kernel `-1443/2000` at offset `3`. -/
theorem kernel_support_counterexample :
    ¬ (∀ F : Filter, F ∈ [BoxFilter, TriangleFilter, CubicFilter, CatmulRomFilter, MitchelFilter]
        → ∀ o : ℚ, F.support < |o| → F.eval o = 0) ∧
    (BoxFilter.support < |(1 : ℚ)| ∧ BoxFilter.eval 1 = 1) ∧
    (TriangleFilter.support < |(2 : ℚ)| ∧ TriangleFilter.eval 2 = -1) ∧
    (CubicFilter.support < |(3 : ℚ)| ∧ CubicFilter.eval 3 = 1) ∧
    (CatmulRomFilter.support < |(3 : ℚ)| ∧ CatmulRomFilter.eval 3 = -1) ∧
    (MitchelFilter.support < |(3 : ℚ)| ∧ MitchelFilter.eval 3 = -1443 / 2000) := by
  refine ⟨?_, by decide!, by decide!, by decide!, by decide!, by decide!⟩
  intro h
  have h1 := h BoxFilter (by simp) 1 (by decide!)
  exact absurd h1 (by decide!)

/-- C8 (amended): the Triangle, Cubic and Mitchell-family kernels (for all
parameters `B`, `C`, so for Catmull-Rom and Mitchell) evaluate to `0` at the
offsets with `|o|` equal to their `support()` radius, and the Box kernel
evaluates to `1` at every offset; beyond the support radius the closed forms
are not cut off: Triangle is negative at every `|o| > 1`. -/
theorem kernel_zero_at_support_boundary :
    (∀ o : ℚ, |o| = TriangleFilter.support → TriangleFilter.eval o = 0) ∧
    (∀ o : ℚ, |o| = CubicFilter.support → CubicFilter.eval o = 0) ∧
    (∀ B C o : ℚ, |o| = (MitchelFamilyFilter B C).support →
      (MitchelFamilyFilter B C).eval o = 0) ∧
    (∀ o : ℚ, |o| = CatmulRomFilter.support → CatmulRomFilter.eval o = 0) ∧
    (∀ o : ℚ, |o| = MitchelFilter.support → MitchelFilter.eval o = 0) ∧
    (∀ o : ℚ, BoxFilter.eval o = 1) ∧
    (∀ o : ℚ, TriangleFilter.support < |o| → TriangleFilter.eval o < 0) := by
  have hm : ∀ B C o : ℚ, |o| = (MitchelFamilyFilter B C).support →
      (MitchelFamilyFilter B C).eval o = 0 := by
    intro B C o h
    simp only [MitchelFamilyFilter] at h ⊢
    rw [h, if_neg (by norm_num)]
    ring
  refine ⟨?_, ?_, hm, fun o h => hm _ _ o h, fun o h => hm _ _ o h, fun _ => rfl, ?_⟩
  · intro o h
    simp only [TriangleFilter] at h ⊢
    rw [h]; norm_num
  · intro o h
    simp only [CubicFilter] at h ⊢
    rw [h]; norm_num
  · intro o h
    simp only [TriangleFilter] at h ⊢
    linarith

/-- C10 at the failing input: with a valid source image and the requested
size `0 × 1`, `resize` throws "invalid dimensions" and stops, while
`resizeSync` throws the same error and then goes on to allocate the
destination image, run the resampler and return the image; and with an
invalid source image and the size `1 × 1`, `resize` throws "invalid image" and
stops, while `resizeSync` goes on in the same way. -/
theorem resizeSync_continues_after_error :
    resize filterNames true true 0 1 none none = [.throwError "invalid dimensions"] ∧
    resizeSync filterNames true true 0 1 none none
      = [.throwError "invalid dimensions", .newJsImage 0 1, .resizeImage, .returnImage] ∧
    resize filterNames true false 1 1 none none = [.throwError "invalid image"] ∧
    resizeSync filterNames true false 1 1 none none
      = [.throwError "invalid image", .newJsImage 1 1, .resizeImage, .returnImage] := by
  refine ⟨by decide!, by decide!, by decide!, by decide!⟩

/-! ## Lemmas: offsets, trimming and the total weight -/

/-- Every source index between the untrimmed bounds of an entry is within
`fsupport` of the centre. -/
theorem abs_center_sub_le (fsupport center : ℚ) (size : Int) (j : Int)
    (h1 : initLeft fsupport center ≤ j) (h2 : j ≤ initRight fsupport center size) :
    |center - (j : ℚ)| ≤ fsupport := by
  rw [initLeft_eq] at h1
  rw [initRight_eq] at h2
  have a : ⌈center - fsupport⌉ ≤ j := le_trans (le_max_right _ _) h1
  have b : j ≤ ⌊center + fsupport⌋ := le_trans h2 (min_le_right _ _)
  have a' : center - fsupport ≤ (j : ℚ) := Int.ceil_le.1 a
  have b' : (j : ℚ) ≤ center + fsupport := Int.le_floor.1 b
  rw [abs_le]
  constructor <;> linarith

/-- The offset passed to the kernel for a source index between the
untrimmed bounds lies within the support of the kernel. -/
theorem offset_within_support (filter : Filter) (scale : ℚ) (size : Int) (i : Nat) (j : Int)
    (h1 : entryInitLeft filter scale i ≤ j) (h2 : j ≤ entryInitRight filter scale size i) :
    |(centerAt scale i - (j : ℚ)) * iscaleOf filter scale| ≤ filter.support := by
  have h := abs_center_sub_le _ _ size j h1 h2
  have hf := fscaleOf_pos filter scale
  unfold iscaleOf
  rw [abs_mul, abs_of_pos (one_div_pos.2 hf), mul_one_div, div_le_iff₀ hf]
  exact h

/-- The offset passed to the inner kernel of a `ScaledFilter` of positive
width lies within the support of the inner kernel. -/
theorem inner_offset_within_support (F : Filter) (s : ℚ) (hs : 0 < s) (scale : ℚ) (size : Int)
    (i : Nat) (j : Int)
    (h1 : entryInitLeft (ScaledFilter F s) scale i ≤ j)
    (h2 : j ≤ entryInitRight (ScaledFilter F s) scale size i) :
    |(centerAt scale i - (j : ℚ)) * iscaleOf (ScaledFilter F s) scale / s| ≤ F.support := by
  have h := offset_within_support (ScaledFilter F s) scale size i j h1 h2
  have e : (ScaledFilter F s).support = s * F.support := rfl
  rw [e] at h
  rw [abs_div, abs_of_pos hs, div_le_iff₀ hs, mul_comm F.support s]
  exact h

/-- The stored weight of source index `j` of entry `i`. -/
theorem stored_weight_eq (ranges : List ContribRange) (filter : Filter) (scale : ℚ)
    (storage : List ℚ) (size : Int) (rs : List ContribRange) (st : List ℚ)
    (h : makeContribs ranges filter scale storage size = some (rs, st))
    (i : Nat) (hi : i < ranges.length) (k : Nat)
    (hk : k < (entryRight filter scale size i + 1 - entryLeft filter scale size i).toNat) :
    (rs.getD i ⟨0, 0, 0⟩).weights + k < st.length ∧
    st.getD ((rs.getD i ⟨0, 0, 0⟩).weights + k) 0
      = filter.eval ((centerAt scale i - (((entryLeft filter scale size i + (k : Int)) : Int) : ℚ))
          * iscaleOf filter scale) * (1 / entryTotal filter scale size i) := by
  obtain ⟨_, _, _, hent⟩ := makeContribs_spec _ _ _ _ _ rs st h
  obtain ⟨hl, hr, _, hsw⟩ := hent i hi
  have hlen : (storedWeights st (rs.getD i ⟨0, 0, 0⟩)).length
      = ((rs.getD i ⟨0, 0, 0⟩).right + 1 - (rs.getD i ⟨0, 0, 0⟩).left).toNat := by
    rw [hsw, entryNorm_length, hl, hr]
  have hmap := storedWeights_eq_map st _ hlen
  rw [hl, hr] at hlen hmap
  have hb : (rs.getD i ⟨0, 0, 0⟩).weights + k < st.length := by
    unfold storedWeights at hlen
    rw [List.length_take, List.length_drop] at hlen
    omega
  refine ⟨hb, ?_⟩
  have e1 : (storedWeights st (rs.getD i ⟨0, 0, 0⟩)).getD k 0
      = st.getD ((rs.getD i ⟨0, 0, 0⟩).weights + k) 0 := by
    rw [hmap, List.getD_eq_getElem?_getD, List.getElem?_map, List.getElem?_range hk]
    rfl
  rw [← e1, hsw]
  unfold entryNorm entryRaw rawWeights
  rw [List.getD_eq_getElem?_getD, List.getElem?_map, List.getElem?_map, List.getElem?_range hk]
  rfl

/-- A table returned by `makeContribs` has no empty entry. -/
theorem makeContribs_left_le_right (ranges : List ContribRange) (filter : Filter) (scale : ℚ)
    (storage : List ℚ) (size : Int) (rs : List ContribRange) (st : List ℚ)
    (h : makeContribs ranges filter scale storage size = some (rs, st))
    (i : Nat) (hi : i < ranges.length) :
    entryLeft filter scale size i ≤ entryRight filter scale size i := by
  have hpos := makeContribs_entryTotal_pos _ _ _ _ _ rs st h i hi
  by_contra hlt
  have : (entryRight filter scale size i + 1 - entryLeft filter scale size i).toNat = 0 := by
    omega
  unfold entryTotal entryRaw rawWeights at hpos
  rw [this] at hpos
  simp at hpos

theorem trimLeft_dropped_zero (filter : Filter) (center iscale : ℚ) (right : Int) (fuel : Nat)
    (left : Int) (j : Int) (h1 : left ≤ j)
    (h2 : j < trimLeft filter center iscale right fuel left) :
    filter.eval ((center - (j : ℚ)) * iscale) = 0 := by
  induction fuel generalizing left with
  | zero =>
    simp only [trimLeft] at h2
    omega
  | succ n ih =>
    unfold trimLeft at h2
    split at h2
    · rename_i hc
      by_cases e : left = j
      · rw [← e]; exact hc.2
      · exact ih (left + 1) (by omega) h2
    · omega

theorem trimRight_dropped_zero (filter : Filter) (center iscale : ℚ) (left : Int) (fuel : Nat)
    (right : Int) (j : Int) (h1 : j ≤ right)
    (h2 : trimRight filter center iscale left fuel right < j) :
    filter.eval ((center - (j : ℚ)) * iscale) = 0 := by
  induction fuel generalizing right with
  | zero =>
    simp only [trimRight] at h2
    omega
  | succ n ih =>
    unfold trimRight at h2
    split at h2
    · rename_i hc
      by_cases e : right = j
      · rw [← e]; exact hc.2
      · exact ih (right - 1) (by omega) h2
    · omega

/-- C16: trimming removes only zero-weight boundary taps and leaves none
behind. For every entry of a table returned by `makeContribs`, the final
`[left, right]` is non-empty and lies inside the initial bounds, every source
index of the initial range that was dropped has kernel weight exactly `0`,
and either `left = right` or the kernel is non-zero at both the left and the
right boundary offsets. -/
theorem makeContribs_trimming (ranges : List ContribRange) (filter : Filter)
    (scale : ℚ) (storage : List ℚ) (size : Int) (rs : List ContribRange) (st : List ℚ)
    (h : makeContribs ranges filter scale storage size = some (rs, st))
    (i : Nat) (hi : i < ranges.length) :
    (entryInitLeft filter scale i ≤ (rs.getD i ⟨0, 0, 0⟩).left ∧
      (rs.getD i ⟨0, 0, 0⟩).left ≤ (rs.getD i ⟨0, 0, 0⟩).right ∧
      (rs.getD i ⟨0, 0, 0⟩).right ≤ entryInitRight filter scale size i) ∧
    (∀ j : Int, entryInitLeft filter scale i ≤ j → j ≤ entryInitRight filter scale size i →
      (j < (rs.getD i ⟨0, 0, 0⟩).left ∨ (rs.getD i ⟨0, 0, 0⟩).right < j) →
      filter.eval ((centerAt scale i - (j : ℚ)) * iscaleOf filter scale) = 0) ∧
    ((rs.getD i ⟨0, 0, 0⟩).left = (rs.getD i ⟨0, 0, 0⟩).right ∨
      (filter.eval ((centerAt scale i - (((rs.getD i ⟨0, 0, 0⟩).left : Int) : ℚ))
          * iscaleOf filter scale) ≠ 0 ∧
        filter.eval ((centerAt scale i - (((rs.getD i ⟨0, 0, 0⟩).right : Int) : ℚ))
          * iscaleOf filter scale) ≠ 0)) := by
  obtain ⟨_, _, _, hent⟩ := makeContribs_spec _ _ _ _ _ rs st h
  obtain ⟨hl, hr, _, _⟩ := hent i hi
  have hLR := makeContribs_left_le_right _ _ _ _ _ rs st h i hi
  rw [hl, hr]
  have hL0 : entryInitLeft filter scale i ≤ entryLeft filter scale size i :=
    finalLeft_ge _ _ _ _ _
  have hR0 : entryRight filter scale size i ≤ entryInitRight filter scale size i :=
    finalRight_le _ _ _ _ _
  refine ⟨⟨hL0, hLR, hR0⟩, ?_, ?_⟩
  · intro j j1 j2 hj
    rcases hj with hj | hj
    · exact trimLeft_dropped_zero _ _ _ _ _ _ j j1 hj
    · exact trimRight_dropped_zero _ _ _ _ _ _ j j2 hj
  · by_cases e : entryLeft filter scale size i = entryRight filter scale size i
    · exact Or.inl e
    · right
      have hlt : entryLeft filter scale size i < entryRight filter scale size i := by omega
      constructor
      · intro hz
        exact trimLeft_exit filter (centerAt scale i) (iscaleOf filter scale)
          (initRight (fsupportOf filter scale) (centerAt scale i) size) _
          (initLeft (fsupportOf filter scale) (centerAt scale i)) (le_refl _)
          ⟨lt_of_lt_of_le hlt hR0, hz⟩
      · intro hz
        exact trimRight_exit filter (centerAt scale i) (iscaleOf filter scale)
          (entryLeft filter scale size i) _
          (initRight (fsupportOf filter scale) (centerAt scale i) size) (le_refl _)
          ⟨hlt, hz⟩

/-- C18: `makeContribs` only evaluates the kernel inside its support. For
every entry and every source index `j` of the initial or of the trimmed
range, the offset `(center - j) * iscale = (center - j) / fscale` passed to
the kernel satisfies `|offset| ≤ kernel.support()`, and for a `ScaledFilter`
of width `s > 0` the offset `offset / s` passed to the inner kernel is within
the support of the inner kernel. -/
theorem kernel_evaluated_within_support (filter : Filter) (scale : ℚ) (size : Int) (i : Nat)
    (j : Int)
    (hj : (entryInitLeft filter scale i ≤ j ∧ j ≤ entryInitRight filter scale size i) ∨
      (entryLeft filter scale size i ≤ j ∧ j ≤ entryRight filter scale size i)) :
    (centerAt scale i - (j : ℚ)) * iscaleOf filter scale
      = (centerAt scale i - (j : ℚ)) / fscaleOf filter scale ∧
    |(centerAt scale i - (j : ℚ)) / fscaleOf filter scale| ≤ filter.support ∧
    ∀ (F : Filter) (s : ℚ), 0 < s → filter = ScaledFilter F s →
      |(centerAt scale i - (j : ℚ)) / fscaleOf filter scale / s| ≤ F.support := by
  have hin : entryInitLeft filter scale i ≤ j ∧ j ≤ entryInitRight filter scale size i := by
    rcases hj with h | h
    · exact h
    · exact ⟨le_trans (finalLeft_ge _ _ _ _ _) h.1, le_trans h.2 (finalRight_le _ _ _ _ _)⟩
  have e : (centerAt scale i - (j : ℚ)) * iscaleOf filter scale
      = (centerAt scale i - (j : ℚ)) / fscaleOf filter scale := by
    unfold iscaleOf
    rw [mul_one_div]
  refine ⟨e, ?_, ?_⟩
  · rw [← e]
    exact offset_within_support filter scale size i j hin.1 hin.2
  · intro F s hs hF
    subst hF
    rw [← e]
    exact inner_offset_within_support F s hs scale size i j hin.1 hin.2

/-- Witness of C18: the Cubic kernel at width `0.70`, scale `2`, entry `1`,
source index `4`. -/
theorem kernel_evaluated_within_support_witness :
    (centerAt 2 1 - ((4 : Int) : ℚ)) * iscaleOf (ScaledFilter CubicFilter (7 / 10)) 2
      = (centerAt 2 1 - ((4 : Int) : ℚ)) / fscaleOf (ScaledFilter CubicFilter (7 / 10)) 2 ∧
    |(centerAt 2 1 - ((4 : Int) : ℚ)) / fscaleOf (ScaledFilter CubicFilter (7 / 10)) 2|
      ≤ (ScaledFilter CubicFilter (7 / 10)).support ∧
    ∀ (F : Filter) (s : ℚ), 0 < s → ScaledFilter CubicFilter (7 / 10) = ScaledFilter F s →
      |(centerAt 2 1 - ((4 : Int) : ℚ)) / fscaleOf (ScaledFilter CubicFilter (7 / 10)) 2 / s|
        ≤ F.support :=
  kernel_evaluated_within_support (ScaledFilter CubicFilter (7 / 10)) 2 10 1 4
    (Or.inl (by decide!))

/-- The offsets of the entries of a table returned by `makeContribs`. -/
theorem makeContribs_offsets (ranges : List ContribRange) (filter : Filter) (scale : ℚ)
    (storage : List ℚ) (size : Int) (rs : List ContribRange) (st : List ℚ)
    (h : makeContribs ranges filter scale storage size = some (rs, st)) :
    (∀ i : Nat, i < ranges.length →
      (((rs.getD i ⟨0, 0, 0⟩).weights : Nat) : Int) = (storage.length : Int)
        + ((List.range i).map fun (k : Nat) =>
            (rs.getD k ⟨0, 0, 0⟩).right - (rs.getD k ⟨0, 0, 0⟩).left + 1).sum) ∧
    ((st.length : Nat) : Int) = (storage.length : Int)
      + ((List.range ranges.length).map fun (k : Nat) =>
          (rs.getD k ⟨0, 0, 0⟩).right - (rs.getD k ⟨0, 0, 0⟩).left + 1).sum ∧
    (∀ i : Nat, i < ranges.length → ∀ k : Nat,
      k < ((rs.getD i ⟨0, 0, 0⟩).right - (rs.getD i ⟨0, 0, 0⟩).left + 1).toNat →
        storage.length ≤ (rs.getD i ⟨0, 0, 0⟩).weights + k ∧
        (rs.getD i ⟨0, 0, 0⟩).weights + k < st.length) := by
  obtain ⟨_, _, hst, hent⟩ := makeContribs_spec _ _ _ _ _ rs st h
  have hcast : ∀ m : Nat, m ≤ ranges.length →
      (((List.range m).map fun (k : Nat) => (entryNorm filter scale size k).length).sum : Int)
        = ((List.range m).map fun (k : Nat) =>
            (rs.getD k ⟨0, 0, 0⟩).right - (rs.getD k ⟨0, 0, 0⟩).left + 1).sum := by
    intro m hm
    rw [Nat.cast_list_sum, List.map_map]
    congr 1
    apply List.map_congr_left
    intro k hk
    have hk' : k < ranges.length := lt_of_lt_of_le (List.mem_range.1 hk) hm
    obtain ⟨hl, hr, _, _⟩ := hent k hk'
    have := makeContribs_left_le_right _ _ _ _ _ rs st h k hk'
    simp only [Function.comp]
    rw [entryNorm_length, hl, hr]
    omega
  refine ⟨?_, ?_, ?_⟩
  · intro i hi
    obtain ⟨_, _, hw, _⟩ := hent i hi
    rw [hw, Nat.cast_add, hcast i (le_of_lt hi)]
  · rw [hst, Nat.cast_add, hcast _ (le_refl _)]
  · intro i hi k hk
    obtain ⟨hl, hr, hw, _⟩ := hent i hi
    have hk' : k < (entryRight filter scale size i + 1 - entryLeft filter scale size i).toNat := by
      rw [hl, hr] at hk
      omega
    obtain ⟨hb, _⟩ := stored_weight_eq ranges filter scale storage size rs st h i hi k hk'
    exact ⟨by rw [hw]; omega, hb⟩

/-! ## The record of the loop over the destination rows -/

theorem resizeSrcRowsLog_erase (pw : Nat) (src : NativeImage) (contribs : List ℚ)
    (rowcontribs : List ContribRange) (m needrow : Int) (fuel : Nat) (srcrow : Int)
    (tmp : FloatBuffer) (log : List Int) :
    ((resizeSrcRowsLog pw src contribs rowcontribs m needrow fuel srcrow tmp log).1,
      (resizeSrcRowsLog pw src contribs rowcontribs m needrow fuel srcrow tmp log).2.1)
      = resizeSrcRows pw src contribs rowcontribs m needrow fuel srcrow tmp := by
  induction fuel generalizing srcrow tmp log with
  | zero => rfl
  | succ n ih =>
    simp only [resizeSrcRowsLog, resizeSrcRows]
    split
    · exact ih _ _ _
    · rfl

theorem destRowsLog_erase (pw : Nat) (src : NativeImage) (contribs : List ℚ)
    (rowcontribs columncontribs : List ContribRange) (m : Int) (yscale yfsupport : ℚ)
    (dw ds : Nat) (n y : Nat) (centery : ℚ) (srcrow : Int) (tmp : FloatBuffer) (d : List Int)
    (log : List RowRecord) :
    (destRowsLog pw src contribs rowcontribs columncontribs m yscale yfsupport dw ds n y centery
      srcrow tmp d log).1
      = destRows pw src contribs rowcontribs columncontribs m yscale yfsupport dw ds n y centery
          srcrow tmp d := by
  induction n generalizing y centery srcrow tmp d log with
  | zero => rfl
  | succ k ih =>
    simp only [destRowsLog, destRows]
    have e := resizeSrcRowsLog_erase pw src contribs rowcontribs m
      (min ((src.height : Int) - 1) (truncToInt (centery + yfsupport)))
      (min ((src.height : Int) - 1) (truncToInt (centery + yfsupport)) + 1 - srcrow).toNat
      srcrow tmp []
    rw [ih]
    rw [← e]

/-- The instrumented `resizeImagePixelLog` returns the image that
`resizeImagePixel` returns. -/
theorem resizeImagePixelLog_erase (Pixel : PixelMode) (src dst : NativeImage) (filter : Filter) :
    (resizeImagePixelLog Pixel src dst filter).map Prod.fst
      = resizeImagePixel Pixel src dst filter := by
  unfold resizeImagePixelLog resizeImagePixel
  by_cases hp : src.pixel = Pixel ∧ dst.pixel = Pixel
  · rw [if_pos hp, if_pos hp]
    simp only
    cases h1 : makeContribs (List.replicate dst.width ⟨0, 0, 0⟩) filter
        ((src.width : ℚ) / (dst.width : ℚ)) [] (src.width : Int) with
    | none => rfl
    | some q =>
      obtain ⟨rs, st₁⟩ := q
      simp only
      cases h2 : makeContribs (List.replicate dst.height ⟨0, 0, 0⟩) filter
          ((src.height : ℚ) / (dst.height : ℚ)) st₁ (src.height : Int) with
      | none => rfl
      | some q₂ =>
        obtain ⟨cs, st⟩ := q₂
        simp only [Option.map_some', destRowsLog_erase]
  · rw [if_neg hp, if_neg hp]
    rfl

theorem mem_intRange (a b c : Int) : c ∈ intRange a b ↔ a ≤ c ∧ c < b := by
  unfold intRange
  rw [List.mem_map]
  constructor
  · rintro ⟨k, hk, rfl⟩
    rw [List.mem_range] at hk
    omega
  · rintro ⟨h1, h2⟩
    exact ⟨(c - a).toNat, List.mem_range.2 (by omega), by omega⟩

theorem intRange_length (a b : Int) : (intRange a b).length = (b - a).toNat := by
  unfold intRange
  rw [List.length_map, List.length_range]

theorem intRange_getD (a b : Int) (k : Nat) (hk : k < (b - a).toNat) :
    (intRange a b).getD k 0 = a + (k : Int) := by
  unfold intRange
  rw [List.getD_eq_getElem?_getD, List.getElem?_map, List.getElem?_range hk]
  rfl

theorem intRange_of_le (a b : Int) (h : b ≤ a) : intRange a b = [] := by
  unfold intRange
  have : (b - a).toNat = 0 := by omega
  rw [this]
  rfl

theorem intRange_cons (a b : Int) (h : a < b) : intRange a b = a :: intRange (a + 1) b := by
  unfold intRange
  have e : (b - a).toNat = (b - (a + 1)).toNat + 1 := by omega
  rw [e, List.range_succ_eq_map, List.map_cons, List.map_map]
  congr 1
  · simp
  · apply List.map_congr_left
    intro k _
    simp only [Function.comp, Nat.succ_eq_add_one]
    push_cast
    ring

theorem intRange_append (a b c : Int) (h1 : a ≤ b) (h2 : b ≤ c) :
    intRange a b ++ intRange b c = intRange a c := by
  have key : ∀ (n : Nat) (a : Int), (b - a).toNat = n → a ≤ b →
      intRange a b ++ intRange b c = intRange a c := by
    intro n
    induction n with
    | zero =>
      intro a hn hab
      have : a = b := by omega
      subst this
      rw [intRange_of_le a a (le_refl _)]
      rfl
    | succ k ih =>
      intro a hn hab
      have hlt : a < b := by omega
      rw [intRange_cons a b hlt, intRange_cons a c (by omega), List.cons_append,
        ih (a + 1) (by omega) (by omega)]
  exact key _ a rfl h1

theorem intRange_nodup (a b : Int) : (intRange a b).Nodup := by
  unfold intRange
  apply List.Nodup.map _ (List.nodup_range _)
  intro x y hxy
  simp only at hxy
  omega

/-- The `while` loop passes the rows `srcrow, ..., needrow` through pass 1,
in this order, and leaves `srcrow` at `max srcrow (needrow + 1)`. -/
theorem resizeSrcRowsLog_spec (pw : Nat) (src : NativeImage) (contribs : List ℚ)
    (rowcontribs : List ContribRange) (m needrow : Int) (fuel : Nat) (srcrow : Int)
    (tmp : FloatBuffer) (log : List Int) (hfuel : fuel = (needrow + 1 - srcrow).toNat) :
    (resizeSrcRowsLog pw src contribs rowcontribs m needrow fuel srcrow tmp log).1
      = max srcrow (needrow + 1) ∧
    (resizeSrcRowsLog pw src contribs rowcontribs m needrow fuel srcrow tmp log).2.2
      = log ++ intRange srcrow (max srcrow (needrow + 1)) := by
  induction fuel generalizing srcrow tmp log with
  | zero =>
    simp only [resizeSrcRowsLog]
    have h : needrow + 1 ≤ srcrow := by omega
    rw [max_eq_left h, intRange_of_le _ _ (le_refl _), List.append_nil]
    exact ⟨rfl, rfl⟩
  | succ k ih =>
    have hle : srcrow ≤ needrow := by omega
    simp only [resizeSrcRowsLog, if_pos hle]
    obtain ⟨h1, h2⟩ := ih (srcrow + 1) (resizeSrcRow pw src contribs rowcontribs m srcrow tmp)
      (log ++ [srcrow]) (by omega)
    rw [h1, h2, max_eq_right (show srcrow + 1 ≤ needrow + 1 by omega),
      max_eq_right (show srcrow ≤ needrow + 1 by omega),
      intRange_cons srcrow (needrow + 1) (by omega), List.append_assoc]
    exact ⟨rfl, rfl⟩

/-- The records written by the loop over the destination rows. -/
theorem destRowsLog_spec (pw : Nat) (src : NativeImage) (contribs : List ℚ)
    (rowcontribs columncontribs : List ContribRange) (m : Int) (yscale yfsupport : ℚ)
    (dw ds : Nat) (srcrow0 : Int) (n y : Nat) (centery : ℚ) (srcrow : Int) (tmp : FloatBuffer)
    (d : List Int) (log : List RowRecord)
    (hc : centery = centerAt yscale y)
    (hs : srcrow = srcrowAt src.height yscale yfsupport srcrow0 y) :
    (destRowsLog pw src contribs rowcontribs columncontribs m yscale yfsupport dw ds n y centery
      srcrow tmp d log).2
      = log ++ (List.range n).map fun (k : Nat) =>
          rowRecordAt src.height yscale yfsupport srcrow0 columncontribs (y + k) := by
  induction n generalizing y centery srcrow tmp d log with
  | zero => simp [destRowsLog]
  | succ k ih =>
    simp only [destRowsLog]
    subst hc
    obtain ⟨h1, h2⟩ := resizeSrcRowsLog_spec pw src contribs rowcontribs m
      (min ((src.height : Int) - 1) (truncToInt (centerAt yscale y + yfsupport)))
      _ srcrow tmp [] rfl
    rw [ih (y + 1) _ _ _ _ _ (centerAt_succ yscale y) (by
      rw [h1, hs]; rfl)]
    rw [h1, h2, List.range_succ_eq_map, List.map_cons, List.map_map, List.append_assoc]
    congr 1
    rw [List.singleton_append]
    congr 1
    · subst hs
      simp only [rowRecordAt, srcrowAt, needrowAt, List.nil_append, Nat.add_zero]
    · apply List.map_congr_left
      intro j _
      simp only [Function.comp, Nat.succ_eq_add_one]
      congr 1
      omega

/-- `resizeImagePixelLog` once the formats agree and both tables are built. -/
theorem resizeImagePixelLog_eq (Pixel : PixelMode) (src dst : NativeImage) (filter : Filter)
    (hsp : src.pixel = Pixel) (hdp : dst.pixel = Pixel)
    (rs cs : List ContribRange) (st₁ st : List ℚ)
    (h1 : makeContribs (List.replicate dst.width ⟨0, 0, 0⟩) filter
      ((src.width : ℚ) / (dst.width : ℚ)) [] (src.width : Int) = some (rs, st₁))
    (h2 : makeContribs (List.replicate dst.height ⟨0, 0, 0⟩) filter
      ((src.height : ℚ) / (dst.height : ℚ)) st₁ (src.height : Int) = some (cs, st)) :
    ∃ out, resizeImagePixel Pixel src dst filter = some out ∧
      resizeImagePixelLog Pixel src dst filter = some (out,
        (List.range dst.height).map fun (y : Nat) =>
          rowRecordAt src.height ((src.height : ℚ) / (dst.height : ℚ))
            (fsupportOf filter ((src.height : ℚ) / (dst.height : ℚ)))
            (entryInitLeft filter ((src.height : ℚ) / (dst.height : ℚ)) 0) cs y) := by
  have hlog : (resizeImagePixelLog Pixel src dst filter).map Prod.snd
      = some ((List.range dst.height).map fun (y : Nat) =>
          rowRecordAt src.height ((src.height : ℚ) / (dst.height : ℚ))
            (fsupportOf filter ((src.height : ℚ) / (dst.height : ℚ)))
            (entryInitLeft filter ((src.height : ℚ) / (dst.height : ℚ)) 0) cs y) := by
    unfold resizeImagePixelLog
    rw [if_pos ⟨hsp, hdp⟩]
    simp only [h1, h2, Option.map_some']
    have := destRowsLog_spec (PixelWidth Pixel) src st rs cs
      (truncToInt
        ((⌈2 * fsupportOf filter ((src.height : ℚ) / (dst.height : ℚ))⌉ : Int) : ℚ))
      ((src.height : ℚ) / (dst.height : ℚ))
      (fsupportOf filter ((src.height : ℚ) / (dst.height : ℚ))) dst.width dst.stride
      (entryInitLeft filter ((src.height : ℚ) / (dst.height : ℚ)) 0) dst.height 0
      (centerAt ((src.height : ℚ) / (dst.height : ℚ)) 0)
      (entryInitLeft filter ((src.height : ℚ) / (dst.height : ℚ)) 0)
      (FloatBuffer.new dst.width
        (truncToInt
          ((⌈2 * fsupportOf filter ((src.height : ℚ) / (dst.height : ℚ))⌉ : Int) : ℚ)).toNat
        (PixelWidth Pixel)) dst.data [] rfl rfl
    simp only [List.nil_append, Nat.zero_add, entryInitLeft, initLeft, fsupportOf, fscaleOf,
      centerAt_zero] at this ⊢
    rw [this]
  have herase := resizeImagePixelLog_erase Pixel src dst filter
  cases hres : resizeImagePixelLog Pixel src dst filter with
  | none => rw [hres] at hlog; simp at hlog
  | some q =>
    obtain ⟨out, log⟩ := q
    rw [hres] at hlog herase
    simp only [Option.map_some', Option.some.injEq] at hlog herase
    exact ⟨out, herase.symm, by rw [hlog]⟩

theorem srcrowAt_mono (sh : Nat) (yscale f : ℚ) (s0 : Int) (y : Nat) :
    srcrowAt sh yscale f s0 y ≤ srcrowAt sh yscale f s0 (y + 1) := le_max_left _ _

theorem resampledRows_range (sh : Nat) (yscale f : ℚ) (s0 : Int) (cs : List ContribRange)
    (n : Nat) :
    resampledRows ((List.range n).map fun (y : Nat) => rowRecordAt sh yscale f s0 cs y)
      = intRange s0 (srcrowAt sh yscale f s0 n) ∧ s0 ≤ srcrowAt sh yscale f s0 n := by
  unfold resampledRows
  induction n with
  | zero =>
    simp only [List.range_zero, List.map_nil, List.flatten_nil, srcrowAt]
    exact ⟨(intRange_of_le _ _ (le_refl _)).symm, le_refl _⟩
  | succ k ih =>
    obtain ⟨ih1, ih2⟩ := ih
    rw [List.range_succ, List.map_append, List.map_append, List.flatten_append, ih1]
    simp only [List.map_cons, List.map_nil, List.flatten_cons, List.flatten_nil,
      List.append_nil, rowRecordAt]
    exact ⟨intRange_append _ _ _ ih2 (srcrowAt_mono _ _ _ _ _),
      le_trans ih2 (srcrowAt_mono _ _ _ _ _)⟩

theorem entryInitRight_mono (filter : Filter) (scale : ℚ) (hs : 0 ≤ scale) (size : Int)
    (i j : Nat) (hij : i ≤ j) :
    entryInitRight filter scale size i ≤ entryInitRight filter scale size j := by
  unfold entryInitRight
  rw [initRight_eq, initRight_eq]
  apply min_le_min (le_refl _)
  apply Int.floor_le_floor
  unfold centerAt
  have : (i : ℚ) ≤ (j : ℚ) := by exact_mod_cast hij
  nlinarith

theorem needrowAt_eq (filter : Filter) (scale : ℚ) (hs : 0 < scale) (hsup : 0 < filter.support)
    (sh : Nat) (y : Nat) :
    needrowAt sh scale (fsupportOf filter scale) y = entryInitRight filter scale (sh : Int) y :=
  needrow_eq filter scale hs hsup (sh : Int) y

/-- After destination row `y` the next source row to resample is
`needrow(y) + 1`. -/
theorem srcrowAt_succ (filter : Filter) (srcLen dstLen : Nat) (hs : 0 < srcLen)
    (hd : 0 < dstLen) (hsup : 0 < filter.support) (y : Nat) :
    srcrowAt srcLen ((srcLen : ℚ) / (dstLen : ℚ))
        (fsupportOf filter ((srcLen : ℚ) / (dstLen : ℚ)))
        (entryInitLeft filter ((srcLen : ℚ) / (dstLen : ℚ)) 0) (y + 1)
      = needrowAt srcLen ((srcLen : ℚ) / (dstLen : ℚ))
          (fsupportOf filter ((srcLen : ℚ) / (dstLen : ℚ))) y + 1 := by
  have hsc : (0 : ℚ) < (srcLen : ℚ) / (dstLen : ℚ) :=
    div_pos (by exact_mod_cast hs) (by exact_mod_cast hd)
  induction y with
  | zero =>
    simp only [srcrowAt]
    rw [needrowAt_eq filter _ hsc hsup]
    obtain ⟨_, h1, _⟩ := init_bounds filter srcLen dstLen hs hd hsup 0 hd
    exact max_eq_right (by omega)
  | succ k ih =>
    rw [srcrowAt, ih, needrowAt_eq filter _ hsc hsup, needrowAt_eq filter _ hsc hsup]
    have := entryInitRight_mono filter _ (le_of_lt hsc) (srcLen : Int) k (k + 1) (by omega)
    exact max_eq_right (by omega)

/-- The record returned by `resizeImagePixelLog`, and the tables behind it. -/
theorem resizeImagePixelLog_log (Pixel : PixelMode) (src dst : NativeImage) (filter : Filter)
    (out : NativeImage) (log : List RowRecord)
    (h : resizeImagePixelLog Pixel src dst filter = some (out, log)) :
    resizeImagePixel Pixel src dst filter = some out ∧
    ∃ rs cs st₁ st,
      makeContribs (List.replicate dst.width ⟨0, 0, 0⟩) filter
        ((src.width : ℚ) / (dst.width : ℚ)) [] (src.width : Int) = some (rs, st₁) ∧
      makeContribs (List.replicate dst.height ⟨0, 0, 0⟩) filter
        ((src.height : ℚ) / (dst.height : ℚ)) st₁ (src.height : Int) = some (cs, st) ∧
      log = (List.range dst.height).map fun (y : Nat) =>
        rowRecordAt src.height ((src.height : ℚ) / (dst.height : ℚ))
          (fsupportOf filter ((src.height : ℚ) / (dst.height : ℚ)))
          (entryInitLeft filter ((src.height : ℚ) / (dst.height : ℚ)) 0) cs y := by
  have herase := resizeImagePixelLog_erase Pixel src dst filter
  rw [h] at herase
  simp only [Option.map_some'] at herase
  have hsome : (resizeImagePixel Pixel src dst filter).isSome := by rw [← herase]; rfl
  obtain ⟨⟨hsp, hdp⟩, hx, hy⟩ := (resizeImagePixel_isSome Pixel src dst filter).1 hsome
  have s1 : (makeContribs (List.replicate dst.width ⟨0, 0, 0⟩) filter
      ((src.width : ℚ) / (dst.width : ℚ)) [] (src.width : Int)).isSome := by
    rw [makeContribs_isSome]; simpa using hx
  obtain ⟨⟨rs, st₁⟩, h1⟩ := Option.isSome_iff_exists.1 s1
  have s2 : (makeContribs (List.replicate dst.height ⟨0, 0, 0⟩) filter
      ((src.height : ℚ) / (dst.height : ℚ)) st₁ (src.height : Int)).isSome := by
    rw [makeContribs_isSome]; simpa using hy
  obtain ⟨⟨cs, st⟩, h2⟩ := Option.isSome_iff_exists.1 s2
  obtain ⟨out', _, hl⟩ := resizeImagePixelLog_eq Pixel src dst filter hsp hdp rs cs st₁ st h1 h2
  rw [h] at hl
  simp only [Option.some.injEq, Prod.mk.injEq] at hl
  exact ⟨herase.symm, rs, cs, st₁, st, h1, h2, hl.2⟩

theorem getD_map_range {β : Type} (g : Nat → β) (n y : Nat) (hy : y < n) (d : β) :
    ((List.range n).map g).getD y d = g y := by
  rw [List.getD_eq_getElem?_getD, List.getElem?_map, List.getElem?_range hy]
  rfl

theorem take_map_range {β : Type} (g : Nat → β) (n m : Nat) (hm : m ≤ n) :
    ((List.range n).map g).take m = (List.range m).map g := by
  rw [← List.map_take, List.take_range, Nat.min_eq_left hm]

/-- C17: in `resizeImagePixel`, for a kernel of positive support, the source
rows passed through the horizontal pass are the consecutive indices from the
initial `srcrow` to the last `needrow`, each once and in increasing order,
all within `[0, src.height - 1]`; and after destination row `y` the next row
to resample is `1 + needrow(y)`, `needrow(y)` being the maximum of
`needrow(y')` over `y' ≤ y`. -/
theorem rows_resampled_in_order (Pixel : PixelMode) (filter : Filter)
    (src dst out : NativeImage) (log : List RowRecord)
    (hsup : 0 < filter.support) (hsh : 0 < src.height) (hdh : 0 < dst.height)
    (h : resizeImagePixelLog Pixel src dst filter = some (out, log)) :
    resizeImagePixel Pixel src dst filter = some out ∧
    log.length = dst.height ∧
    resampledRows log
      = intRange (entryInitLeft filter ((src.height : ℚ) / (dst.height : ℚ)) 0)
          (needrowAt src.height ((src.height : ℚ) / (dst.height : ℚ))
            (fsupportOf filter ((src.height : ℚ) / (dst.height : ℚ))) (dst.height - 1) + 1) ∧
    (∀ k : Nat, k + 1 < (resampledRows log).length →
      (resampledRows log).getD (k + 1) 0 = (resampledRows log).getD k 0 + 1) ∧
    (resampledRows log).Nodup ∧
    (∀ r : Int, r ∈ resampledRows log → 0 ≤ r ∧ r ≤ (src.height : Int) - 1) ∧
    ∀ y : Nat, y < dst.height →
      (log.getD y ⟨0, [], 0, ⟨0, 0, 0⟩⟩).y = y ∧
      (log.getD y ⟨0, [], 0, ⟨0, 0, 0⟩⟩).nextrow
        = 1 + needrowAt src.height ((src.height : ℚ) / (dst.height : ℚ))
            (fsupportOf filter ((src.height : ℚ) / (dst.height : ℚ))) y ∧
      ∀ y' : Nat, y' ≤ y →
        needrowAt src.height ((src.height : ℚ) / (dst.height : ℚ))
            (fsupportOf filter ((src.height : ℚ) / (dst.height : ℚ))) y'
          ≤ needrowAt src.height ((src.height : ℚ) / (dst.height : ℚ))
            (fsupportOf filter ((src.height : ℚ) / (dst.height : ℚ))) y := by
  obtain ⟨hres, rs, cs, st₁, st, _, _, hlog⟩ := resizeImagePixelLog_log Pixel src dst filter out
    log h
  have hsc : (0 : ℚ) < (src.height : ℚ) / (dst.height : ℚ) :=
    div_pos (by exact_mod_cast hsh) (by exact_mod_cast hdh)
  obtain ⟨hrows, _⟩ := resampledRows_range src.height ((src.height : ℚ) / (dst.height : ℚ))
    (fsupportOf filter ((src.height : ℚ) / (dst.height : ℚ)))
    (entryInitLeft filter ((src.height : ℚ) / (dst.height : ℚ)) 0) cs dst.height
  rw [← hlog] at hrows
  have hS := srcrowAt_succ filter src.height dst.height hsh hdh hsup (dst.height - 1)
  rw [Nat.sub_add_cancel hdh] at hS
  rw [hS] at hrows
  have hneed : ∀ y : Nat, needrowAt src.height ((src.height : ℚ) / (dst.height : ℚ))
      (fsupportOf filter ((src.height : ℚ) / (dst.height : ℚ))) y
        ≤ (src.height : Int) - 1 := fun y => min_le_left _ _
  refine ⟨hres, by rw [hlog, List.length_map, List.length_range], hrows, ?_, ?_, ?_, ?_⟩
  · intro k hk
    rw [hrows] at hk ⊢
    rw [intRange_length] at hk
    rw [intRange_getD _ _ _ hk, intRange_getD _ _ _ (by omega)]
    push_cast
    ring
  · rw [hrows]
    exact intRange_nodup _ _
  · intro r hr
    rw [hrows, mem_intRange] at hr
    have h0 := entryInitLeft_nonneg filter ((src.height : ℚ) / (dst.height : ℚ)) 0
    have h1 := hneed (dst.height - 1)
    omega
  · intro y hy
    rw [hlog, getD_map_range _ _ _ hy]
    refine ⟨rfl, ?_, ?_⟩
    · simp only [rowRecordAt]
      rw [srcrowAt_succ filter src.height dst.height hsh hdh hsup, add_comm]
    · intro y' hy'
      rw [needrowAt_eq filter _ hsc hsup, needrowAt_eq filter _ hsc hsup]
      exact entryInitRight_mono filter _ (le_of_lt hsc) _ y' y hy'

/-- C19: every source row a destination row reads has been produced first.
In `resizeImagePixel`, for a kernel of positive support and every destination
row `y`, the range `[left_y, right_y]` read by pass 2 is that of the column
entry `y`, the initial `srcrow` is `≤ left_y`, `needrow(y) ≥ right_y`, and
every source row of `[left_y, right_y]` is among the rows passed through
pass 1 before pass 2 runs for row `y`. -/
theorem rows_read_were_resampled (Pixel : PixelMode) (filter : Filter)
    (src dst out : NativeImage) (log : List RowRecord)
    (hsup : 0 < filter.support) (hsh : 0 < src.height) (hdh : 0 < dst.height)
    (h : resizeImagePixelLog Pixel src dst filter = some (out, log))
    (y : Nat) (hy : y < dst.height) :
    resizeImagePixel Pixel src dst filter = some out ∧
    (log.getD y ⟨0, [], 0, ⟨0, 0, 0⟩⟩).reads.left
      = entryLeft filter ((src.height : ℚ) / (dst.height : ℚ)) (src.height : Int) y ∧
    (log.getD y ⟨0, [], 0, ⟨0, 0, 0⟩⟩).reads.right
      = entryRight filter ((src.height : ℚ) / (dst.height : ℚ)) (src.height : Int) y ∧
    entryInitLeft filter ((src.height : ℚ) / (dst.height : ℚ)) 0
      ≤ (log.getD y ⟨0, [], 0, ⟨0, 0, 0⟩⟩).reads.left ∧
    (log.getD y ⟨0, [], 0, ⟨0, 0, 0⟩⟩).reads.right
      ≤ needrowAt src.height ((src.height : ℚ) / (dst.height : ℚ))
          (fsupportOf filter ((src.height : ℚ) / (dst.height : ℚ))) y ∧
    ∀ c : Int, (log.getD y ⟨0, [], 0, ⟨0, 0, 0⟩⟩).reads.left ≤ c →
      c ≤ (log.getD y ⟨0, [], 0, ⟨0, 0, 0⟩⟩).reads.right →
      c ∈ resampledRows (log.take (y + 1)) := by
  obtain ⟨hres, rs, cs, st₁, st, _, h2, hlog⟩ := resizeImagePixelLog_log Pixel src dst filter out
    log h
  have hsc : (0 : ℚ) < (src.height : ℚ) / (dst.height : ℚ) :=
    div_pos (by exact_mod_cast hsh) (by exact_mod_cast hdh)
  obtain ⟨_, _, _, hent⟩ := makeContribs_spec _ _ _ _ _ cs st h2
  obtain ⟨hl, hr, _, _⟩ := hent y (by rw [List.length_replicate]; exact hy)
  have hreads : (log.getD y ⟨0, [], 0, ⟨0, 0, 0⟩⟩).reads = cs.getD y ⟨0, 0, 0⟩ := by
    rw [hlog, getD_map_range _ _ _ hy]
    rfl
  have hlo : entryInitLeft filter ((src.height : ℚ) / (dst.height : ℚ)) 0
      ≤ entryLeft filter ((src.height : ℚ) / (dst.height : ℚ)) (src.height : Int) y :=
    le_trans (entryInitLeft_mono filter _ (le_of_lt hsc) y) (finalLeft_ge _ _ _ _ _)
  have hhi : entryRight filter ((src.height : ℚ) / (dst.height : ℚ)) (src.height : Int) y
      ≤ needrowAt src.height ((src.height : ℚ) / (dst.height : ℚ))
          (fsupportOf filter ((src.height : ℚ) / (dst.height : ℚ))) y := by
    rw [needrowAt_eq filter _ hsc hsup]
    exact finalRight_le _ _ _ _ _
  rw [hreads, hl, hr]
  refine ⟨hres, rfl, rfl, hlo, hhi, ?_⟩
  intro c c1 c2
  rw [hlog, take_map_range _ _ _ (by omega),
    (resampledRows_range _ _ _ _ _ _).1, srcrowAt_succ filter src.height dst.height hsh hdh hsup,
    mem_intRange]
  omega

/-! ## The rolling buffer -/

/-- `resizeImagePixel` in terms of its rolling buffer. -/
theorem resizeImagePixel_tmpBuffer (Pixel : PixelMode) (src dst : NativeImage) (filter : Filter)
    (hsp : src.pixel = Pixel) (hdp : dst.pixel = Pixel)
    (rs cs : List ContribRange) (st₁ st : List ℚ)
    (h1 : makeContribs (List.replicate dst.width ⟨0, 0, 0⟩) filter
      ((src.width : ℚ) / (dst.width : ℚ)) [] (src.width : Int) = some (rs, st₁))
    (h2 : makeContribs (List.replicate dst.height ⟨0, 0, 0⟩) filter
      ((src.height : ℚ) / (dst.height : ℚ)) st₁ (src.height : Int) = some (cs, st)) :
    resizeImagePixel Pixel src dst filter = some { dst with
      data := destRows (PixelWidth Pixel) src st rs cs
        (maxycontribOf filter ((src.height : ℚ) / (dst.height : ℚ)))
        ((src.height : ℚ) / (dst.height : ℚ))
        (fsupportOf filter ((src.height : ℚ) / (dst.height : ℚ)))
        dst.width dst.stride dst.height 0
        (centerAt ((src.height : ℚ) / (dst.height : ℚ)) 0)
        (entryInitLeft filter ((src.height : ℚ) / (dst.height : ℚ)) 0)
        (tmpBuffer Pixel src dst filter) dst.data } :=
  resizeImagePixel_eq Pixel src dst filter hsp hdp rs cs st₁ st h1 h2

/-- C12: for a kernel of positive support the rolling buffer allocated by
`resizeImagePixel` holds exactly `ceil(2 * support * max(yscale, 1, 1/support))`
rows of `dst.width * channels` floats, where `yscale = src.height / dst.height`;
so two calls with the same kernel, destination width, pixel format and
vertical scale allocate the same buffer whatever their source heights. The
last part states that this buffer is the one `resizeImagePixel` runs its loop
over the destination rows on. -/
theorem rolling_buffer_size (Pixel : PixelMode) (src dst : NativeImage) (filter : Filter)
    (hsup : 0 < filter.support) :
    ((tmpBuffer Pixel src dst filter).height : Int)
      = ⌈2 * filter.support
          * max (max ((src.height : ℚ) / (dst.height : ℚ)) 1) (1 / filter.support)⌉ ∧
    (tmpBuffer Pixel src dst filter).width = dst.width ∧
    (tmpBuffer Pixel src dst filter).stride = dst.width * PixelWidth Pixel ∧
    (tmpBuffer Pixel src dst filter).data.length
      = dst.width * PixelWidth Pixel * (tmpBuffer Pixel src dst filter).height ∧
    (∀ src₂ dst₂ : NativeImage, dst₂.width = dst.width →
      (src₂.height : ℚ) / (dst₂.height : ℚ) = (src.height : ℚ) / (dst.height : ℚ) →
      tmpBuffer Pixel src₂ dst₂ filter = tmpBuffer Pixel src dst filter) ∧
    ∀ (rs cs : List ContribRange) (st₁ st : List ℚ),
      src.pixel = Pixel → dst.pixel = Pixel →
      makeContribs (List.replicate dst.width ⟨0, 0, 0⟩) filter
        ((src.width : ℚ) / (dst.width : ℚ)) [] (src.width : Int) = some (rs, st₁) →
      makeContribs (List.replicate dst.height ⟨0, 0, 0⟩) filter
        ((src.height : ℚ) / (dst.height : ℚ)) st₁ (src.height : Int) = some (cs, st) →
      resizeImagePixel Pixel src dst filter = some { dst with
        data := destRows (PixelWidth Pixel) src st rs cs
          (maxycontribOf filter ((src.height : ℚ) / (dst.height : ℚ)))
          ((src.height : ℚ) / (dst.height : ℚ))
          (fsupportOf filter ((src.height : ℚ) / (dst.height : ℚ)))
          dst.width dst.stride dst.height 0
          (centerAt ((src.height : ℚ) / (dst.height : ℚ)) 0)
          (entryInitLeft filter ((src.height : ℚ) / (dst.height : ℚ)) 0)
          (tmpBuffer Pixel src dst filter) dst.data } := by
  have hpos := maxycontrib_pos filter ((src.height : ℚ) / (dst.height : ℚ)) hsup
  refine ⟨?_, rfl, rfl, ?_, ?_, ?_⟩
  · show ((maxycontribOf filter ((src.height : ℚ) / (dst.height : ℚ))).toNat : Int) = _
    unfold maxycontribOf
    rw [Int.toNat_of_nonneg (le_of_lt hpos), truncToInt_intCast]
    unfold fsupportOf fscaleOf
    rw [mul_assoc]
  · simp [tmpBuffer, FloatBuffer.new]
  · intro src₂ dst₂ hw hsc
    unfold tmpBuffer
    rw [hw, hsc]
  · intro rs cs st₁ st hsp hdp h1 h2
    exact resizeImagePixel_tmpBuffer Pixel src dst filter hsp hdp rs cs st₁ st h1 h2

/-- C13 at the failing input: resizing the `1 × 6` grey image
`0, 30, 60, 90, 120, 150` to `1 × 3` with the Box kernel at width 1.0. The
column table has the ranges `[0,2]`, `[2,4]`, `[4,5]`; the reference samples
(quantised separable sums) are `30, 90, 135`, while `resizeImagePixel` returns
`50, 110, 135`: the rolling buffer has two rows, and when destination row `0`
is computed the slot of source row `0` already holds source row `2`. -/
theorem rolling_buffer_overwritten :
    makeContribs (List.replicate 1 ⟨0, 0, 0⟩) (ScaledFilter BoxFilter 1)
        (((1 : Nat) : ℚ) / ((1 : Nat) : ℚ)) [] ((1 : Nat) : Int)
      = some ([⟨0, 0, 0⟩], [1]) ∧
    makeContribs (List.replicate 3 ⟨0, 0, 0⟩) (ScaledFilter BoxFilter 1)
        (((6 : Nat) : ℚ) / ((3 : Nat) : ℚ)) [1] ((6 : Nat) : Int)
      = some ([⟨0, 2, 1⟩, ⟨2, 4, 4⟩, ⟨4, 5, 7⟩],
          [1, 1 / 3, 1 / 3, 1 / 3, 1 / 3, 1 / 3, 1 / 3, 1 / 2, 1 / 2]) ∧
    resizeImagePixel .GREY_PIXEL ramp (mkImage .GREY_PIXEL 1 3 fun _ _ _ => 0)
        (ScaledFilter BoxFilter 1)
      = some ⟨.GREY_PIXEL, 1, 3, 1, [50, 110, 135]⟩ ∧
    (List.range 3).map (fun (y : Nat) =>
        referenceSample 1 ramp [1, 1 / 3, 1 / 3, 1 / 3, 1 / 3, 1 / 3, 1 / 3, 1 / 2, 1 / 2]
          [⟨0, 0, 0⟩] [⟨0, 2, 1⟩, ⟨2, 4, 4⟩, ⟨4, 5, 7⟩] 0 y 0)
      = [30, 90, 135] := by
  refine ⟨by decide!, by decide!, by decide!, by decide!⟩

/-- C14 at the failing input: for `10 → 5` rows with the Box kernel at width
1.0 the rolling window has `maxycontrib = 2` rows, while entry `0` of the
column contribution table has `right - left + 1 = 3`. -/
theorem window_smaller_than_range :
    maxycontribOf (ScaledFilter BoxFilter 1) (((10 : Nat) : ℚ) / ((5 : Nat) : ℚ)) = 2 ∧
    makeContribs (List.replicate 5 ⟨0, 0, 0⟩) (ScaledFilter BoxFilter 1)
        (((10 : Nat) : ℚ) / ((5 : Nat) : ℚ)) [] ((10 : Nat) : Int)
      = some ([⟨0, 2, 0⟩, ⟨2, 4, 3⟩, ⟨4, 6, 6⟩, ⟨6, 8, 9⟩, ⟨8, 9, 12⟩],
          [1 / 3, 1 / 3, 1 / 3, 1 / 3, 1 / 3, 1 / 3, 1 / 3, 1 / 3, 1 / 3, 1 / 3, 1 / 3, 1 / 3,
            1 / 2, 1 / 2]) ∧
    ¬ ((⟨0, 2, 0⟩ : ContribRange).right - (⟨0, 2, 0⟩ : ContribRange).left + 1
        ≤ maxycontribOf (ScaledFilter BoxFilter 1) (((10 : Nat) : ℚ) / ((5 : Nat) : ℚ))) := by
  refine ⟨by decide!, by decide!, by decide!⟩

/-- Witness of C12: the Triangle kernel, `4 → 2` rows and `8 → 4` rows. -/
theorem rolling_buffer_size_witness :
    ((tmpBuffer .GREY_PIXEL (mkImage .GREY_PIXEL 4 4 fun _ _ _ => 0)
        (mkImage .GREY_PIXEL 2 2 fun _ _ _ => 0) (ScaledFilter TriangleFilter 1)).height : Int)
      = ⌈2 * (ScaledFilter TriangleFilter 1).support
          * max (max (((mkImage .GREY_PIXEL 4 4 fun _ _ _ => 0).height : ℚ)
              / ((mkImage .GREY_PIXEL 2 2 fun _ _ _ => 0).height : ℚ)) 1)
            (1 / (ScaledFilter TriangleFilter 1).support)⌉ ∧
    tmpBuffer .GREY_PIXEL (mkImage .GREY_PIXEL 4 8 fun _ _ _ => 0)
        (mkImage .GREY_PIXEL 2 4 fun _ _ _ => 0) (ScaledFilter TriangleFilter 1)
      = tmpBuffer .GREY_PIXEL (mkImage .GREY_PIXEL 4 4 fun _ _ _ => 0)
          (mkImage .GREY_PIXEL 2 2 fun _ _ _ => 0) (ScaledFilter TriangleFilter 1) :=
  ⟨(rolling_buffer_size .GREY_PIXEL (mkImage .GREY_PIXEL 4 4 fun _ _ _ => 0)
      (mkImage .GREY_PIXEL 2 2 fun _ _ _ => 0) (ScaledFilter TriangleFilter 1) (by decide!)).1,
    (rolling_buffer_size .GREY_PIXEL (mkImage .GREY_PIXEL 4 4 fun _ _ _ => 0)
      (mkImage .GREY_PIXEL 2 2 fun _ _ _ => 0) (ScaledFilter TriangleFilter 1)
      (by decide!)).2.2.2.2.1 (mkImage .GREY_PIXEL 4 8 fun _ _ _ => 0)
      (mkImage .GREY_PIXEL 2 4 fun _ _ _ => 0) (by decide) (by decide!)⟩

/-! ## The layout of the weight store in `resizeImagePixel`, and witnesses -/

/-- C20: the flat weight store is laid out contiguously. In a call of
`resizeImagePixel` that returns, the row table is built on the empty store
and the column table on the store left by the row table; in each, the weight
offset of entry `i` is the size of the store on entry plus the sum over
`k < i` of `right_k - left_k + 1`, and the final size of the store is its
size on entry plus the sum over all entries. Hence every index used to read
`contribs` for a row entry lies below the size of the store after the first
call, and every index used for a column entry lies at or above it and below
the final size: all reads are in bounds and the two tables do not overlap. -/
theorem weight_store_contiguous (Pixel : PixelMode) (filter : Filter)
    (src dst out : NativeImage) (h : resizeImagePixel Pixel src dst filter = some out) :
    ∃ rs cs st₁ st,
      makeContribs (List.replicate dst.width ⟨0, 0, 0⟩) filter
        ((src.width : ℚ) / (dst.width : ℚ)) [] (src.width : Int) = some (rs, st₁) ∧
      makeContribs (List.replicate dst.height ⟨0, 0, 0⟩) filter
        ((src.height : ℚ) / (dst.height : ℚ)) st₁ (src.height : Int) = some (cs, st) ∧
      out = { dst with
        data := destRows (PixelWidth Pixel) src st rs cs
          (maxycontribOf filter ((src.height : ℚ) / (dst.height : ℚ)))
          ((src.height : ℚ) / (dst.height : ℚ))
          (fsupportOf filter ((src.height : ℚ) / (dst.height : ℚ)))
          dst.width dst.stride dst.height 0
          (centerAt ((src.height : ℚ) / (dst.height : ℚ)) 0)
          (entryInitLeft filter ((src.height : ℚ) / (dst.height : ℚ)) 0)
          (tmpBuffer Pixel src dst filter) dst.data } ∧
      (∀ x : Nat, x < dst.width →
        (((rs.getD x ⟨0, 0, 0⟩).weights : Nat) : Int) = ((([] : List ℚ).length : Nat) : Int)
          + ((List.range x).map fun (k : Nat) =>
              (rs.getD k ⟨0, 0, 0⟩).right - (rs.getD k ⟨0, 0, 0⟩).left + 1).sum) ∧
      ((st₁.length : Nat) : Int) = ((([] : List ℚ).length : Nat) : Int)
        + ((List.range dst.width).map fun (k : Nat) =>
            (rs.getD k ⟨0, 0, 0⟩).right - (rs.getD k ⟨0, 0, 0⟩).left + 1).sum ∧
      (∀ y : Nat, y < dst.height →
        (((cs.getD y ⟨0, 0, 0⟩).weights : Nat) : Int) = (st₁.length : Int)
          + ((List.range y).map fun (k : Nat) =>
              (cs.getD k ⟨0, 0, 0⟩).right - (cs.getD k ⟨0, 0, 0⟩).left + 1).sum) ∧
      ((st.length : Nat) : Int) = (st₁.length : Int)
        + ((List.range dst.height).map fun (k : Nat) =>
            (cs.getD k ⟨0, 0, 0⟩).right - (cs.getD k ⟨0, 0, 0⟩).left + 1).sum ∧
      (∀ x : Nat, x < dst.width → ∀ k : Nat,
        k < ((rs.getD x ⟨0, 0, 0⟩).right + 1 - (rs.getD x ⟨0, 0, 0⟩).left).toNat →
          (rs.getD x ⟨0, 0, 0⟩).weights + k < st₁.length ∧
          (rs.getD x ⟨0, 0, 0⟩).weights + k < st.length) ∧
      (∀ y : Nat, y < dst.height → ∀ k : Nat,
        k < ((cs.getD y ⟨0, 0, 0⟩).right + 1 - (cs.getD y ⟨0, 0, 0⟩).left).toNat →
          st₁.length ≤ (cs.getD y ⟨0, 0, 0⟩).weights + k ∧
          (cs.getD y ⟨0, 0, 0⟩).weights + k < st.length) := by
  have hsome : (resizeImagePixel Pixel src dst filter).isSome := by rw [h]; rfl
  obtain ⟨⟨hsp, hdp⟩, hx, hy⟩ := (resizeImagePixel_isSome Pixel src dst filter).1 hsome
  have s1 : (makeContribs (List.replicate dst.width ⟨0, 0, 0⟩) filter
      ((src.width : ℚ) / (dst.width : ℚ)) [] (src.width : Int)).isSome := by
    rw [makeContribs_isSome]; simpa using hx
  obtain ⟨⟨rs, st₁⟩, h1⟩ := Option.isSome_iff_exists.1 s1
  have s2 : (makeContribs (List.replicate dst.height ⟨0, 0, 0⟩) filter
      ((src.height : ℚ) / (dst.height : ℚ)) st₁ (src.height : Int)).isSome := by
    rw [makeContribs_isSome]; simpa using hy
  obtain ⟨⟨cs, st⟩, h2⟩ := Option.isSome_iff_exists.1 s2
  have heq := resizeImagePixel_tmpBuffer Pixel src dst filter hsp hdp rs cs st₁ st h1 h2
  rw [h] at heq
  obtain ⟨a1, a2, a3⟩ := makeContribs_offsets _ _ _ _ _ rs st₁ h1
  obtain ⟨b1, b2, b3⟩ := makeContribs_offsets _ _ _ _ _ cs st h2
  obtain ⟨_, ⟨ext, hext⟩, _, _⟩ := makeContribs_spec _ _ _ _ _ cs st h2
  have hle : st₁.length ≤ st.length := by rw [hext, List.length_append]; omega
  rw [List.length_replicate] at a1 a2 a3 b1 b2 b3
  refine ⟨rs, cs, st₁, st, h1, h2, Option.some.inj heq, a1, a2, b1, b2, ?_, ?_⟩
  · intro x hx k hk
    have := (a3 x hx k (by omega)).2
    exact ⟨this, lt_of_lt_of_le this hle⟩
  · intro y hy k hk
    exact b3 y hy k (by omega)

/-- Witness of C20: the `1 × 6` ramp resized to `1 × 3` with the Box kernel. -/
theorem weight_store_contiguous_witness :
    ∃ rs cs st₁ st,
      makeContribs (List.replicate rampDst.width ⟨0, 0, 0⟩) (ScaledFilter BoxFilter 1)
        ((ramp.width : ℚ) / (rampDst.width : ℚ)) [] (ramp.width : Int) = some (rs, st₁) ∧
      makeContribs (List.replicate rampDst.height ⟨0, 0, 0⟩) (ScaledFilter BoxFilter 1)
        ((ramp.height : ℚ) / (rampDst.height : ℚ)) st₁ (ramp.height : Int) = some (cs, st) ∧
      rampOut = { rampDst with
        data := destRows (PixelWidth .GREY_PIXEL) ramp st rs cs
          (maxycontribOf (ScaledFilter BoxFilter 1) ((ramp.height : ℚ) / (rampDst.height : ℚ)))
          ((ramp.height : ℚ) / (rampDst.height : ℚ))
          (fsupportOf (ScaledFilter BoxFilter 1) ((ramp.height : ℚ) / (rampDst.height : ℚ)))
          rampDst.width rampDst.stride rampDst.height 0
          (centerAt ((ramp.height : ℚ) / (rampDst.height : ℚ)) 0)
          (entryInitLeft (ScaledFilter BoxFilter 1) ((ramp.height : ℚ) / (rampDst.height : ℚ)) 0)
          (tmpBuffer .GREY_PIXEL ramp rampDst (ScaledFilter BoxFilter 1)) rampDst.data } ∧
      (∀ x : Nat, x < rampDst.width →
        (((rs.getD x ⟨0, 0, 0⟩).weights : Nat) : Int) = ((([] : List ℚ).length : Nat) : Int)
          + ((List.range x).map fun (k : Nat) =>
              (rs.getD k ⟨0, 0, 0⟩).right - (rs.getD k ⟨0, 0, 0⟩).left + 1).sum) ∧
      ((st₁.length : Nat) : Int) = ((([] : List ℚ).length : Nat) : Int)
        + ((List.range rampDst.width).map fun (k : Nat) =>
            (rs.getD k ⟨0, 0, 0⟩).right - (rs.getD k ⟨0, 0, 0⟩).left + 1).sum ∧
      (∀ y : Nat, y < rampDst.height →
        (((cs.getD y ⟨0, 0, 0⟩).weights : Nat) : Int) = (st₁.length : Int)
          + ((List.range y).map fun (k : Nat) =>
              (cs.getD k ⟨0, 0, 0⟩).right - (cs.getD k ⟨0, 0, 0⟩).left + 1).sum) ∧
      ((st.length : Nat) : Int) = (st₁.length : Int)
        + ((List.range rampDst.height).map fun (k : Nat) =>
            (cs.getD k ⟨0, 0, 0⟩).right - (cs.getD k ⟨0, 0, 0⟩).left + 1).sum ∧
      (∀ x : Nat, x < rampDst.width → ∀ k : Nat,
        k < ((rs.getD x ⟨0, 0, 0⟩).right + 1 - (rs.getD x ⟨0, 0, 0⟩).left).toNat →
          (rs.getD x ⟨0, 0, 0⟩).weights + k < st₁.length ∧
          (rs.getD x ⟨0, 0, 0⟩).weights + k < st.length) ∧
      (∀ y : Nat, y < rampDst.height → ∀ k : Nat,
        k < ((cs.getD y ⟨0, 0, 0⟩).right + 1 - (cs.getD y ⟨0, 0, 0⟩).left).toNat →
          st₁.length ≤ (cs.getD y ⟨0, 0, 0⟩).weights + k ∧
          (cs.getD y ⟨0, 0, 0⟩).weights + k < st.length) :=
  weight_store_contiguous .GREY_PIXEL (ScaledFilter BoxFilter 1) ramp
    rampDst rampOut (by decide!)

/-- Witness of C17: the `1 × 6` ramp resized to `1 × 3` with the Box kernel. -/
theorem rows_resampled_in_order_witness :
    resizeImagePixel .GREY_PIXEL ramp rampDst (ScaledFilter BoxFilter 1) = some rampOut ∧
    rampLog.length = rampDst.height ∧
    resampledRows rampLog
      = intRange (entryInitLeft (ScaledFilter BoxFilter 1) ((ramp.height : ℚ) / (rampDst.height :
          ℚ)) 0)
          (needrowAt ramp.height ((ramp.height : ℚ) / (rampDst.height : ℚ))
            (fsupportOf (ScaledFilter BoxFilter 1) ((ramp.height : ℚ) / (rampDst.height : ℚ)))
                (rampDst.height - 1) + 1) ∧
    (∀ k : Nat, k + 1 < (resampledRows rampLog).length →
      (resampledRows rampLog).getD (k + 1) 0 = (resampledRows rampLog).getD k 0 + 1) ∧
    (resampledRows rampLog).Nodup ∧
    (∀ r : Int, r ∈ resampledRows rampLog → 0 ≤ r ∧ r ≤ (ramp.height : Int) - 1) ∧
    ∀ y : Nat, y < rampDst.height →
      (rampLog.getD y ⟨0, [], 0, ⟨0, 0, 0⟩⟩).y = y ∧
      (rampLog.getD y ⟨0, [], 0, ⟨0, 0, 0⟩⟩).nextrow
        = 1 + needrowAt ramp.height ((ramp.height : ℚ) / (rampDst.height : ℚ))
            (fsupportOf (ScaledFilter BoxFilter 1) ((ramp.height : ℚ) / (rampDst.height : ℚ))) y ∧
      ∀ y' : Nat, y' ≤ y →
        needrowAt ramp.height ((ramp.height : ℚ) / (rampDst.height : ℚ))
            (fsupportOf (ScaledFilter BoxFilter 1) ((ramp.height : ℚ) / (rampDst.height : ℚ))) y'
          ≤ needrowAt ramp.height ((ramp.height : ℚ) / (rampDst.height : ℚ))
            (fsupportOf (ScaledFilter BoxFilter 1) ((ramp.height : ℚ) / (rampDst.height : ℚ))) y :=
  rows_resampled_in_order .GREY_PIXEL (ScaledFilter BoxFilter 1) ramp
    rampDst rampOut
    rampLog
    (by decide!) (by decide) (by decide) (by decide!)

/-- Witness of C19: the `1 × 6` ramp resized to `1 × 3` with the Box kernel,
destination row `1`. -/
theorem rows_read_were_resampled_witness :
    resizeImagePixel .GREY_PIXEL ramp rampDst (ScaledFilter BoxFilter 1) = some rampOut ∧
    (rampLog.getD 1 ⟨0, [], 0, ⟨0, 0, 0⟩⟩).reads.left
      = entryLeft (ScaledFilter BoxFilter 1) ((ramp.height : ℚ) / (rampDst.height : ℚ))
          (ramp.height : Int) 1 ∧
    (rampLog.getD 1 ⟨0, [], 0, ⟨0, 0, 0⟩⟩).reads.right
      = entryRight (ScaledFilter BoxFilter 1) ((ramp.height : ℚ) / (rampDst.height : ℚ))
          (ramp.height : Int) 1 ∧
    entryInitLeft (ScaledFilter BoxFilter 1) ((ramp.height : ℚ) / (rampDst.height : ℚ)) 0
      ≤ (rampLog.getD 1 ⟨0, [], 0, ⟨0, 0, 0⟩⟩).reads.left ∧
    (rampLog.getD 1 ⟨0, [], 0, ⟨0, 0, 0⟩⟩).reads.right
      ≤ needrowAt ramp.height ((ramp.height : ℚ) / (rampDst.height : ℚ))
          (fsupportOf (ScaledFilter BoxFilter 1) ((ramp.height : ℚ) / (rampDst.height : ℚ))) 1 ∧
    ∀ c : Int, (rampLog.getD 1 ⟨0, [], 0, ⟨0, 0, 0⟩⟩).reads.left ≤ c →
      c ≤ (rampLog.getD 1 ⟨0, [], 0, ⟨0, 0, 0⟩⟩).reads.right →
      c ∈ resampledRows (rampLog.take (1 + 1)) :=
  rows_read_were_resampled .GREY_PIXEL (ScaledFilter BoxFilter 1) ramp
    rampDst rampOut
    rampLog
    (by decide!) (by decide) (by decide) (by decide!) 1 (by decide)

/-- Witness of C16: the Triangle kernel, four source and two destination
samples, entry `0` (the initial range `[0,3]` is trimmed to `[0,2]`). -/
theorem makeContribs_trimming_witness :
    (entryInitLeft (ScaledFilter TriangleFilter 1) 2 0 ≤ (triangleTable.getD 0 ⟨0, 0, 0⟩).left ∧
      (triangleTable.getD 0 ⟨0, 0, 0⟩).left ≤ (triangleTable.getD 0 ⟨0, 0, 0⟩).right ∧
      (triangleTable.getD 0 ⟨0, 0, 0⟩).right ≤ entryInitRight (ScaledFilter TriangleFilter 1) 2 4
          0) ∧
    (∀ j : Int, entryInitLeft (ScaledFilter TriangleFilter 1) 2 0 ≤ j → j ≤ entryInitRight
        (ScaledFilter TriangleFilter 1) 2 4 0 →
      (j < (triangleTable.getD 0 ⟨0, 0, 0⟩).left ∨ (triangleTable.getD 0 ⟨0, 0, 0⟩).right < j) →
      (ScaledFilter TriangleFilter 1).eval ((centerAt 2 0 - (j : ℚ)) * iscaleOf (ScaledFilter
          TriangleFilter 1) 2) = 0) ∧
    ((triangleTable.getD 0 ⟨0, 0, 0⟩).left = (triangleTable.getD 0 ⟨0, 0, 0⟩).right ∨
      ((ScaledFilter TriangleFilter 1).eval ((centerAt 2 0 - (((triangleTable.getD 0 ⟨0, 0,
          0⟩).left : Int) : ℚ))
          * iscaleOf (ScaledFilter TriangleFilter 1) 2) ≠ 0 ∧
        (ScaledFilter TriangleFilter 1).eval ((centerAt 2 0 - (((triangleTable.getD 0 ⟨0, 0,
            0⟩).right : Int) : ℚ))
          * iscaleOf (ScaledFilter TriangleFilter 1) 2) ≠ 0)) :=
  makeContribs_trimming (List.replicate 2 ⟨0, 0, 0⟩) (ScaledFilter TriangleFilter 1) 2 [] 4
    triangleTable [1 / 4, 1 / 2, 1 / 4, 1 / 3, 2 / 3] (by decide!) 0 (by decide)

end Picha
